import Mathlib

/-!
# RngState: a splittable hash-chain random number generator

Shallow embedding of `rng-state.h` (namespace `qrngstate`) and proofs about it.

Conventions of the embedding.

* Machine integers are natural numbers (or `Int` for the signed `cacheAvail`) with the
  wrap-around of the C type written out: `uint32_t` is `% 2^32`, `uint64_t`, `size_t`
  and `unsigned long` are `% 2^64` (LP64, the platform of `<endian.h>`).
* A `double` is its 64-bit IEEE-754 pattern; the arithmetic on doubles is a parameter
  (`Fp`), so a theorem stated for `F : Fp` holds for every interpretation of that
  arithmetic. Where the value of a `double` matters, `ieee` is the binary64 arithmetic
  itself (round to nearest, ties to even), with `std::sqrt` and `std::log` as parameters.
* A `std::string` is the list of its bytes.
* The hash engine (`sha256::computeHash`, not part of the embedded file) is a parameter
  `sha` mapping the message bytes to the digest words.
* An `assert` that fails ends the call with `Err.assertion`, which records the state the
  call leaves behind.
-/

namespace qrngstate

/-! ## Data model -/

/-- Largest `unsigned long`, used as the "type not set" sentinel. -/
def ULONG_MAX : Nat := 2 ^ 64 - 1

/-- The state record `struct RngState`. -/
structure RngState where
  numBytes : Nat
  hash : List Nat
  type : Nat
  index : Nat
  cache : List Nat
  gaussian : Nat
  cacheAvail : Int
  gaussianAvail : Bool
deriving DecidableEq, Repr

/-- Every field holds a value of its C type: `uint64_t numBytes`, `uint32_t hash[8]`,
`unsigned long type, index`, `uint64_t cache[3]`, a 64-bit pattern for `double gaussian`
and a 32-bit `int cacheAvail`. -/
def RngState.WF (s : RngState) : Prop :=
  s.numBytes < 2 ^ 64 ∧ s.hash.length = 8 ∧ (∀ x ∈ s.hash, x < 2 ^ 32) ∧
  s.type < 2 ^ 64 ∧ s.index < 2 ^ 64 ∧
  s.cache.length = 3 ∧ (∀ x ∈ s.cache, x < 2 ^ 64) ∧ s.gaussian < 2 ^ 64 ∧
  -(2 ^ 31) ≤ s.cacheAvail ∧ s.cacheAvail < 2 ^ 31

instance (s : RngState) : Decidable s.WF := by
  unfold RngState.WF; infer_instance

/-- How a call can end without a result. -/
inductive Err where
  /-- An `assert` failed; `rs` is the state record as the call left it. -/
  | assertion (rs : RngState)
  /-- The model ran out of fuel (never happens with the fuel the callers give). -/
  | fuel
deriving DecidableEq, Repr

/-- Conversion `int → uint32_t`. -/
def toUint32 (x : Int) : Nat := (x % 2 ^ 32).toNat

/-- Conversion `uint32_t → int` (two's complement). -/
def toInt32 (x : Nat) : Int := if x % 2 ^ 32 < 2 ^ 31 then (x % 2 ^ 32 : Nat) else ((x % 2 ^ 32 : Nat) : Int) - 2 ^ 32

/-! ## Serialisation -/

def RNG_STATE_NUM_OF_INT32 : Nat := 2 + 8 + 2 + 2 + 3 * 2 + 2 + 1 + 1

/-- Two 32-bit words to a 64-bit word: `(uint64_t)a << 32 | (uint64_t)b`. -/
def patchTwoUint32 (a b : Nat) : Nat := ((a <<< 32) % 2 ^ 64) ||| b

/-- A 64-bit word to its high and low 32-bit words `(a, b)`; `none` when the closing
assertion `x == patchTwoUint32(a, b)` fails. -/
def splitTwoUint32 (x : Nat) : Option (Nat × Nat) :=
  let b := x % 2 ^ 32
  let a := (x >>> 32) % 2 ^ 32
  if x = patchTwoUint32 a b then some (a, b) else none

/-- The pointer overload `exportRngState(uint32_t* v, const RngState& rs)`: `v` is the
buffer before the call, the result is the buffer after it. -/
def exportRngState (v : List Nat) (rs : RngState) : Option (List Nat) :=
  if 24 ≠ RNG_STATE_NUM_OF_INT32 then none else do
  let (a, b) ← splitTwoUint32 rs.numBytes
  let v := (v.set 0 a).set 1 b
  let v := (List.range 8).foldl (fun v i => v.set (2 + i) (rs.hash.getD i 0)) v
  let (a, b) ← splitTwoUint32 rs.type
  let v := (v.set 10 a).set 11 b
  let (a, b) ← splitTwoUint32 rs.index
  let v := (v.set 12 a).set 13 b
  let v ← (List.range 3).foldlM (fun v i => do
    let (a, b) ← splitTwoUint32 (rs.cache.getD i 0)
    pure ((v.set (14 + i * 2) a).set (14 + i * 2 + 1) b)) v
  let g := rs.gaussian
  let (a, b) ← splitTwoUint32 g
  let v := (v.set 20 a).set 21 b
  let v := v.set 22 (toUint32 rs.cacheAvail)
  let v := v.set 23 (if rs.gaussianAvail then 1 else 0)
  pure v

/-- The pointer overload `importRngState(RngState& rs, const uint32_t* v)`. -/
def importRngState (rs : RngState) (v : List Nat) : Except Err RngState :=
  if 24 ≠ RNG_STATE_NUM_OF_INT32 then .error (.assertion rs) else
  let rs := { rs with numBytes := patchTwoUint32 (v.getD 0 0) (v.getD 1 0) }
  let rs := (List.range 8).foldl
    (fun (rs : RngState) i => { rs with hash := rs.hash.set i (v.getD (2 + i) 0) }) rs
  let rs := { rs with type := patchTwoUint32 (v.getD 10 0) (v.getD 11 0) }
  let rs := { rs with index := patchTwoUint32 (v.getD 12 0) (v.getD 13 0) }
  let rs := (List.range 3).foldl
    (fun (rs : RngState) i =>
      let x := patchTwoUint32 (v.getD (14 + i * 2) 0) (v.getD (14 + i * 2 + 1) 0)
      { rs with cache := rs.cache.set i x }) rs
  let g := patchTwoUint32 (v.getD 20 0) (v.getD 21 0)
  let rs := { rs with gaussian := g }
  let rs := { rs with cacheAvail := toInt32 (v.getD 22 0) }
  let rs := { rs with gaussianAvail := decide (v.getD 23 0 ≠ 0) }
  .ok rs

/-- The call `v.resize(n)` on a `std::vector<uint32_t>`. -/
def resize (v : List Nat) (n : Nat) : List Nat := v.take n ++ List.replicate (n - v.length) 0

/-- The vector overload `exportRngState(std::vector<uint32_t>& v, const RngState& rs)`. -/
def exportRngStateVec (v : List Nat) (rs : RngState) : Option (List Nat) :=
  exportRngState (resize v RNG_STATE_NUM_OF_INT32) rs

/-- The vector overload `importRngState(RngState& rs, const std::vector<uint32_t>& v)`. -/
def importRngStateVec (rs : RngState) (v : List Nat) : Except Err RngState :=
  if RNG_STATE_NUM_OF_INT32 ≠ v.length then .error (.assertion rs) else
  importRngState rs v

/-! ## Text formatting -/

/-- Modelled from the spec: the conversion `%lu` of `ssprintf` (`show.h` is not part of
the embedded file), "a deterministic decimal text rendering of unsigned integers": the
decimal digits of `n`, most significant first, as ASCII bytes. The first argument bounds
the number of digits. -/
def fmtLuAux : Nat → Nat → List Nat → List Nat
  | 0, _, acc => acc
  | fuel + 1, n, acc =>
    if n / 10 = 0 then (48 + n % 10) :: acc else fmtLuAux fuel (n / 10) ((48 + n % 10) :: acc)

/-- Modelled from the spec: the text `%lu` prints for `n` (see `fmtLuAux`). -/
def fmtLu (n : Nat) : List Nat := fmtLuAux (n + 1) n []

/-- An argument of `ssprintf`: an `unsigned long` for `%lu` or a C string for `%s`. -/
inductive Arg where
  | lu (n : Nat)
  | s (p : List Nat)

/-- The bytes a `const char*` obtained from `std::string::c_str()` denotes: the bytes of
the string up to, and without, the first NUL byte. -/
def c_str (s : List Nat) : List Nat := s.takeWhile (fun b => b ≠ 0)

/-- Modelled from the spec: `ssprintf` of `show.h` ("generic string formatting"), for the
conversions `%lu` and `%s` the embedded file uses; every other byte of the format is
copied. -/
def ssprintfAux : List Char → List Arg → List Nat
  | '%' :: 'l' :: 'u' :: fmt, Arg.lu n :: args => fmtLu n ++ ssprintfAux fmt args
  | '%' :: 's' :: fmt, Arg.s p :: args => p ++ ssprintfAux fmt args
  | c :: fmt, args => c.toNat :: ssprintfAux fmt args
  | [], _ => []

/-- Modelled from the spec: `ssprintf(fmt, args...)` (see `ssprintfAux`). -/
def ssprintf (fmt : String) (args : List Arg) : List Nat := ssprintfAux fmt.toList args

/-! ## Hashing -/

/-- The eight `uint32_t` words `sha256::computeHash` stores for the message `data`, the
hash engine `sha` being a parameter. -/
def computeHash (sha : List Nat → List Nat) (data : List Nat) : List Nat :=
  (List.range 8).map (fun i => (sha data).getD i 0 % 2 ^ 32)

/-- The words `computeHashWithInput(hash, rs, input)` stores in `hash`. The message is
built from `rs.hash` and `input` before any word of `hash` is written. -/
def computeHashWithInput (sha : List Nat → List Nat) (rs : RngState) (input : List Nat) :
    List Nat :=
  let data := List.replicate 32 32
  let data := (List.range 8).foldl (fun data i =>
    let data := data.set (i * 4 + 0) ((rs.hash.getD i 0 >>> 24) &&& 0xFF)
    let data := data.set (i * 4 + 1) ((rs.hash.getD i 0 >>> 16) &&& 0xFF)
    let data := data.set (i * 4 + 2) ((rs.hash.getD i 0 >>> 8) &&& 0xFF)
    data.set (i * 4 + 3) (rs.hash.getD i 0 &&& 0xFF)) data
  let data := data ++ input
  computeHash sha data

/-! ## Reset, type assignment and splitting -/

/-- The record after `std::memset(&rs, 0, sizeof(RngState))`. -/
def memsetZero : RngState :=
  { numBytes := 0, hash := List.replicate 8 0, type := 0, index := 0,
    cache := List.replicate 3 0, gaussian := 0, cacheAvail := 0, gaussianAvail := false }

/-- The call `reset(rs)`. -/
def reset (_rs : RngState) : RngState :=
  let rs := memsetZero
  let rs := { rs with numBytes := 0 }
  let rs := { rs with hash := rs.hash.set 0 0 }
  let rs := { rs with hash := rs.hash.set 1 0 }
  let rs := { rs with hash := rs.hash.set 2 0 }
  let rs := { rs with hash := rs.hash.set 3 0 }
  let rs := { rs with hash := rs.hash.set 4 0 }
  let rs := { rs with hash := rs.hash.set 5 0 }
  let rs := { rs with hash := rs.hash.set 6 0 }
  let rs := { rs with hash := rs.hash.set 7 0 }
  let rs := { rs with type := ULONG_MAX }
  let rs := { rs with index := 0 }
  let rs := { rs with cache := rs.cache.set 0 0 }
  let rs := { rs with cache := rs.cache.set 1 0 }
  let rs := { rs with cache := rs.cache.set 2 0 }
  let rs := { rs with gaussian := 0 }
  let rs := { rs with cacheAvail := 0 }
  let rs := { rs with gaussianAvail := false }
  rs

/-- The call `setType(rs, type)`; both assertions precede every write. -/
def setType (rs : RngState) (type : Nat) : Except Err RngState :=
  if ULONG_MAX ≠ rs.type then .error (.assertion rs) else
  if ULONG_MAX = type then .error (.assertion rs) else
  let rs := { rs with type := type }
  let rs := { rs with cacheAvail := 0 }
  let rs := { rs with gaussianAvail := false }
  .ok rs

/-- A memory of state records, by address. -/
abbrev Mem := Nat → RngState

/-- Update of the record stored at address `a`. -/
def Mem.write (m : Mem) (a : Nat) (f : RngState → RngState) : Mem :=
  fun b => if b = a then f (m b) else m b

/-- The call `splitRngState(rs, rs0, sindex)` on records in memory: `rs` is the address of
the destination, `rs0` the address of the parent, and the two may be the same address.
Every statement reads the memory as the statements before it left it. -/
def splitRngStateAt (sha : List Nat → List Nat) (m : Mem) (rs rs0 : Nat)
    (sindex : List Nat) : Mem :=
  let input :=
    if ULONG_MAX = (m rs0).type then
      ssprintf "[%lu] \x7b%s\x7d" [.lu (m rs0).index, .s (c_str sindex)]
    else
      ssprintf "[%lu,%lu] \x7b%s\x7d" [.lu (m rs0).type, .lu (m rs0).index, .s (c_str sindex)]
  let m := m.write rs (fun r => { r with
    numBytes := ((m rs0).numBytes
      + (64 * ((32 + input.length + 1 + 8 - 1) % 2 ^ 64 / 64 + 1)) % 2 ^ 64) % 2 ^ 64 })
  let m := m.write rs (fun r => { r with hash := computeHashWithInput sha (m rs0) input })
  let m := m.write rs (fun r => { r with type := ULONG_MAX })
  let m := m.write rs (fun r => { r with index := 0 })
  let m := m.write rs (fun r => { r with cache := r.cache.set 0 0 })
  let m := m.write rs (fun r => { r with cache := r.cache.set 1 0 })
  let m := m.write rs (fun r => { r with cache := r.cache.set 2 0 })
  let m := m.write rs (fun r => { r with gaussian := 0 })
  let m := m.write rs (fun r => { r with cacheAvail := 0 })
  let m := m.write rs (fun r => { r with gaussianAvail := false })
  m

/-- The call `splitRngState(rs, rs0, sindex)` with `rs` and `rs0` two distinct records:
the value of the destination after the call. -/
def splitRngState (sha : List Nat → List Nat) (rs rs0 : RngState) (sindex : List Nat) :
    RngState :=
  splitRngStateAt sha (fun a => if a = 0 then rs else rs0) 0 1 sindex 0

/-- The call `splitRngState(rs, rs, sindex)`, destination and parent being the same
record: the value of that record after the call. -/
def splitRngStateSelf (sha : List Nat → List Nat) (rs : RngState) (sindex : List Nat) :
    RngState :=
  splitRngStateAt sha (fun _ => rs) 0 0 sindex 0

/-- The call `reset(rs, seed)` with a string seed: `reset(rs)`, then the self-split
`splitRngState(rs, rs, seed)`. -/
def resetSeed (sha : List Nat → List Nat) (rs : RngState) (seed : List Nat) : RngState :=
  splitRngStateSelf sha (reset rs) seed

/-- The constructor `RngState(const RngState& rs0, const std::string& sindex)`. -/
def RngState.mkSplit (sha : List Nat → List Nat) (rs0 : RngState) (sindex : List Nat) :
    RngState :=
  splitRngState sha memsetZero rs0 sindex


/-! ## Generation -/

/-- The call `randGen(rs)`: the word returned and the state after the call. -/
def randGen (sha : List Nat → List Nat) (rs : RngState) : Except Err (Nat × RngState) :=
  if ¬ (0 ≤ rs.cacheAvail ∧ rs.cacheAvail ≤ 3) then .error (.assertion rs) else
  let rs := { rs with index := (rs.index + 1) % 2 ^ 64 }
  if rs.cacheAvail > 0 then
    let rs := { rs with cacheAvail := rs.cacheAvail - 1 }
    let r := rs.cache.getD rs.cacheAvail.toNat 0
    let rs := { rs with cache := rs.cache.set rs.cacheAvail.toNat 0 }
    .ok (r, rs)
  else
    let hash :=
      if ULONG_MAX = rs.type then
        computeHashWithInput sha rs (ssprintf "[%lu]" [.lu rs.index])
      else
        computeHashWithInput sha rs (ssprintf "[%lu,%lu]" [.lu rs.type, .lu rs.index])
    let rs := { rs with cache := rs.cache.set 0 (patchTwoUint32 (hash.getD 0 0) (hash.getD 1 0)) }
    let rs := { rs with cache := rs.cache.set 1 (patchTwoUint32 (hash.getD 2 0) (hash.getD 3 0)) }
    let rs := { rs with cache := rs.cache.set 2 (patchTwoUint32 (hash.getD 4 0) (hash.getD 5 0)) }
    let rs := { rs with cacheAvail := 3 }
    .ok (patchTwoUint32 (hash.getD 6 0) (hash.getD 7 0), rs)

/-- The arithmetic on `double` the generator uses, on 64-bit patterns. -/
structure Fp where
  /-- Conversion `uint64_t → double`. -/
  ofUInt64 : Nat → Nat
  add : Nat → Nat → Nat
  sub : Nat → Nat → Nat
  mul : Nat → Nat → Nat
  div : Nat → Nat → Nat
  sqrt : Nat → Nat
  log : Nat → Nat
  /-- Comparison `>=`. -/
  ge : Nat → Nat → Bool
  /-- Comparison `==`. -/
  eq : Nat → Nat → Bool

/-- The pattern of the `double` `0.0`. -/
def dbl_0 : Nat := 0
/-- The pattern of the `double` `1.0`. -/
def dbl_1 : Nat := 0x3FF0000000000000
/-- The pattern of the `double` `-1.0`. -/
def dbl_m1 : Nat := 0xBFF0000000000000
/-- The pattern of the `double` `-2.0`. -/
def dbl_m2 : Nat := 0xC000000000000000
/-- The pattern of the `double` `256.0`. -/
def dbl_256 : Nat := 0x4070000000000000
/-- The pattern of the `double` `1e+10`. -/
def dbl_1e10 : Nat := 0x4202A05F20000000

/-- The call `uRandGen(rs, upper, lower)`. -/
def uRandGen (sha : List Nat → List Nat) (F : Fp) (rs : RngState) (upper lower : Nat) :
    Except Err (Nat × RngState) := do
  let (u, rs) ← randGen sha rs
  let fac := F.div
    (F.div dbl_1 (F.mul (F.mul (F.mul dbl_256 dbl_256) dbl_256) dbl_256))
    (F.mul (F.mul (F.mul dbl_256 dbl_256) dbl_256) dbl_256)
  pure (F.add (F.mul (F.mul (F.ofUInt64 u) fac) (F.sub upper lower)) lower, rs)

/-- The `do ... while` loop of `gRandGen`, entered with the given `num_try`; the result
is `(num_try, v1, v2, rsq)` and the state when the loop is left. The first argument is
fuel; the warnings printed are not modelled. -/
def gRandGenLoop (sha : List Nat → List Nat) (F : Fp) :
    Nat → Int → RngState → Except Err (Int × Nat × Nat × Nat × RngState)
  | 0, _, _ => .error .fuel
  | fuel + 1, num_try, rs => do
    let (v1, rs) ← uRandGen sha F rs dbl_1 dbl_m1
    let (v2, rs) ← uRandGen sha F rs dbl_1 dbl_m1
    let rsq := F.add (F.mul v1 v1) (F.mul v2 v2)
    let num_try := num_try + 1
    if num_try < 10000 ∧ (F.ge rsq dbl_1 ∨ F.eq rsq dbl_0) then
      gRandGenLoop sha F fuel num_try rs
    else
      pure (num_try, v1, v2, rsq, rs)

/-- The call `gRandGen(rs, center, sigma)`. -/
def gRandGen (sha : List Nat → List Nat) (F : Fp) (rs : RngState) (center sigma : Nat) :
    Except Err (Nat × RngState) :=
  let rs := { rs with index := (rs.index + 1) % 2 ^ 64 }
  if rs.gaussianAvail then
    let rs := { rs with gaussianAvail := false }
    .ok (F.add (F.mul rs.gaussian sigma) center, rs)
  else do
    let (num_try, v1, v2, rsq, rs) ← gRandGenLoop sha F 10000 1 rs
    if num_try > 9999 then
      pure (dbl_1e10, rs)
    else
      let fac := F.sqrt (F.div (F.mul dbl_m2 (F.log rsq)) rsq)
      let rs := { rs with gaussian := F.mul v1 fac % 2 ^ 64 }
      let rs := { rs with gaussianAvail := true }
      pure (F.add (F.mul (F.mul v2 fac) sigma) center, rs)

/-! ## Call sequences -/

/-- One call on the state record of a stream. -/
inductive Op where
  /-- The call `reset(rs)`. -/
  | reset
  /-- The call `reset(rs, seed)`. -/
  | resetSeed (seed : List Nat)
  /-- The call `splitRngState(rs, rs, sindex)`. -/
  | splitSelf (sindex : List Nat)
  /-- The call `splitRngState(dst, rs, sindex)` into another record whose content before
  the call is `dst`; that record is the one the calls after it work on. -/
  | split (dst : RngState) (sindex : List Nat)
  | setType (type : Nat)
  | randGen
  | uRandGen (upper lower : Nat)
  | gRandGen (center sigma : Nat)

/-- The state after one call. -/
def Op.apply (sha : List Nat → List Nat) (F : Fp) (rs : RngState) : Op → Except Err RngState
  | .reset => .ok (qrngstate.reset rs)
  | .resetSeed seed => .ok (qrngstate.resetSeed sha rs seed)
  | .splitSelf sindex => .ok (splitRngStateSelf sha rs sindex)
  | .split dst sindex => .ok (splitRngState sha dst rs sindex)
  | .setType type => qrngstate.setType rs type
  | .randGen => (qrngstate.randGen sha rs).map Prod.snd
  | .uRandGen upper lower => (qrngstate.uRandGen sha F rs upper lower).map Prod.snd
  | .gRandGen center sigma => (qrngstate.gRandGen sha F rs center sigma).map Prod.snd

/-- The state after a sequence of calls, the first call first. -/
def run (sha : List Nat → List Nat) (F : Fp) : List Op → RngState → Except Err RngState
  | [], rs => .ok rs
  | op :: ops, rs => do
    let rs ← op.apply sha F rs
    run sha F ops rs

/-- A call that is neither a reset nor a split nor a type assignment. -/
def Op.isGen : Op → Bool
  | .randGen => true
  | .uRandGen _ _ => true
  | .gRandGen _ _ => true
  | _ => false

/-- A call of `setType`. -/
def Op.isSetType : Op → Bool
  | .setType _ => true
  | _ => false

/-! ## Seeds and constructors -/

/-- Modelled from the spec: `show(long)` of `show.h` (not part of the embedded file), the
"number-to-string conversion" of a seed or label given as an integer: its decimal
rendering, with a leading `-` for a negative number. -/
def showLong (n : Int) : List Nat := if n < 0 then 45 :: fmtLu n.natAbs else fmtLu n.toNat

/-- The call `reset(rs, seed)` with a `long` seed: `reset(rs, show(seed))`. -/
def resetLong (sha : List Nat → List Nat) (rs : RngState) (seed : Int) : RngState :=
  resetSeed sha rs (showLong seed)

/-- The constructor `RngState()`, on storage of content `raw`. -/
def RngState.mkDefault (raw : RngState) : RngState := reset raw

/-- The constructor `RngState(const std::string& seed)`, on storage of content `raw`. -/
def RngState.mkSeed (sha : List Nat → List Nat) (raw : RngState) (seed : List Nat) :
    RngState :=
  resetSeed sha raw seed

/-- The constructor `RngState(const long seed)`, on storage of content `raw`. -/
def RngState.mkSeedLong (sha : List Nat → List Nat) (raw : RngState) (seed : Int) :
    RngState :=
  resetLong sha raw seed

/-! ## Text form -/

/-- The number a list of ASCII decimal digits denotes, most significant digit first. -/
def decVal (l : List Nat) : Nat := l.foldl (fun a c => 10 * a + (c - 48)) 0

/-- An ASCII decimal digit. -/
def isDigit (c : Nat) : Bool := decide (48 ≤ c) && decide (c ≤ 57)

/-- White space for the stream extractors: space, `\t`, `\n`, `\v`, `\f`, `\r`. -/
def isSpace (c : Nat) : Bool := c == 32 || (decide (9 ≤ c) && decide (c ≤ 13))

/-- An input stream: the bytes not read yet and the fail bit. -/
structure IStream where
  input : List Nat
  fail : Bool
deriving DecidableEq, Repr

/-- The insertion `os << x` of a `uint32_t` into an output stream with the default format
flags: the decimal digits of `x` are appended. -/
def insertUInt32 (os : List Nat) (x : Nat) : List Nat := os ++ fmtLu x

/-- The extraction `is >> x` of a `uint32_t` from an input stream with the default format
flags; `x` is the value of the variable before. A stream that has failed is left alone;
otherwise white space is skipped and the decimal digits that follow are read: no digit sets
the fail bit and stores 0, a number above `2^32 - 1` sets the fail bit and stores
`2^32 - 1`. A token that starts with a sign is not modelled and counts as no digit. -/
def extractUInt32 (is : IStream) (x : Nat) : IStream × Nat :=
  if is.fail then (is, x) else
  let rest := is.input.dropWhile isSpace
  let ds := rest.takeWhile isDigit
  let rest := rest.dropWhile isDigit
  if ds = [] then ({ input := rest, fail := true }, 0)
  else if decVal ds < 2 ^ 32 then ({ input := rest, fail := false }, decVal ds)
  else ({ input := rest, fail := true }, 2 ^ 32 - 1)

/-- The operator `os << rs`: the output stream after the call. -/
def operatorLtLt (os : List Nat) (rs : RngState) : Option (List Nat) := do
  let v := List.replicate RNG_STATE_NUM_OF_INT32 0
  let v ← exportRngStateVec v rs
  let os := (List.range (v.length - 1)).foldl
    (fun os i => insertUInt32 os (v.getD i 0) ++ [32]) os
  pure (insertUInt32 os (v.getLastD 0))

/-- The operator `is >> rs`: the input stream after the call and the state read. -/
def operatorGtGt (is : IStream) (rs : RngState) : IStream × Except Err RngState :=
  let v := List.replicate RNG_STATE_NUM_OF_INT32 0
  let p := (List.range v.length).foldl
    (fun (p : IStream × List Nat) i =>
      let q := extractUInt32 p.1 (p.2.getD i 0)
      (q.1, p.2.set i q.2)) (is, v)
  (p.1, importRngStateVec rs p.2)

/-! ## Repeated draws and the uses of the hash -/

/-- The words `n` successive calls of `randGen` return, first call first, and the state
after them. -/
def randGenN (sha : List Nat → List Nat) : Nat → RngState → Except Err (List Nat × RngState)
  | 0, rs => .ok ([], rs)
  | n + 1, rs => do
    let (r, rs) ← randGen sha rs
    let (l, rs) ← randGenN sha n rs
    pure (r :: l, rs)

/-- The state after `k` attempts of the rejection loop of `gRandGen`, an attempt being two
calls `uRandGen(rs, 1.0, -1.0)`. -/
def drawPairs (sha : List Nat → List Nat) (F : Fp) : Nat → RngState → Except Err RngState
  | 0, rs => .ok rs
  | k + 1, rs => do
    let (_, rs) ← uRandGen sha F rs dbl_1 dbl_m1
    let (_, rs) ← uRandGen sha F rs dbl_1 dbl_m1
    drawPairs sha F k rs

/-- A use of the hash engine by the generator, tagged by its kind: the draw of a word in a
state with the given `type` and (already incremented) `index`, or the split of a parent
with the given `type` and `index` by a label. A `type` equal to `ULONG_MAX` is "unset". -/
inductive HashUse where
  | word (type index : Nat)
  | split (type index : Nat) (label : List Nat)
deriving DecidableEq, Repr

/-- The text fed to the hash after the digest bytes: the `ssprintf` calls of `randGen` and
of `splitRngState`. -/
def HashUse.text : HashUse → List Nat
  | .word type index =>
    if ULONG_MAX = type then ssprintf "[%lu]" [.lu index]
    else ssprintf "[%lu,%lu]" [.lu type, .lu index]
  | .split type index sindex =>
    if ULONG_MAX = type then ssprintf "[%lu] \x7b%s\x7d" [.lu index, .s (c_str sindex)]
    else ssprintf "[%lu,%lu] \x7b%s\x7d" [.lu type, .lu index, .s (c_str sindex)]

/-! ## IEEE 754 binary64 arithmetic

The type `double` on the LP64 targets of the source is IEEE 754 binary64, with
round-to-nearest, ties-to-even. A pattern `p < 2^64` has the sign bit `p / 2^63`, the
exponent field `e = p / 2^52 % 2^11` and the fraction `m = p % 2^52`; a finite pattern
stands for `± m * 2^-1074` (`e = 0`) or `± (2^52 + m) * 2^(e - 1075)` (`0 < e < 2047`), so
every finite value is an integer number of units of `2^-1074`. -/

/-- The pattern of `+inf`. -/
def dbl_inf : Nat := 0x7FF0000000000000

/-- The pattern that stands for every NaN result. -/
def dbl_nan : Nat := 0x7FF8000000000000

/-- The sign bit of a pattern. -/
def dblSign (p : Nat) : Bool := decide (p / 2 ^ 63 % 2 = 1)

/-- The pattern without its sign bit. -/
def dblAbs (p : Nat) : Nat := p % 2 ^ 63

/-- Whether the pattern is a NaN. -/
def dblIsNaN (p : Nat) : Bool := decide (dbl_inf < dblAbs p)

/-- Whether the pattern is an infinity. -/
def dblIsInf (p : Nat) : Bool := decide (dblAbs p = dbl_inf)

/-- The magnitude of a pattern in units of `2^-1074` (for an infinity, `2^2098`, above
every finite magnitude). -/
def dblMag (p : Nat) : Nat :=
  if p / 2 ^ 52 % 2 ^ 11 = 0 then p % 2 ^ 52
  else (2 ^ 52 + p % 2 ^ 52) * 2 ^ (p / 2 ^ 52 % 2 ^ 11 - 1)

/-- The value of a non-NaN pattern in units of `2^-1074`. -/
def dblVal (p : Nat) : Int := if dblSign p then -(dblMag p : Int) else (dblMag p : Int)

/-- The pattern with the given sign and the given pattern of the absolute value. -/
def dblPack (neg : Bool) (abs : Nat) : Nat := if neg then 2 ^ 63 + abs else abs

/-- The pattern of `-x`. -/
def dblNeg (p : Nat) : Nat := dblPack (!dblSign p) (dblAbs p)

/-- The quotient `n / d` rounded to the nearest integer, ties to even. -/
def roundDiv (n d : Nat) : Nat :=
  if 2 * (n % d) < d then n / d
  else if d < 2 * (n % d) then n / d + 1
  else if n / d % 2 = 0 then n / d
  else n / d + 1

/-- The largest `k` in `1..j` with `2^(52+k) <= q`, and 0 when there is none. -/
def expShift (q : Nat) : Nat → Nat
  | 0 => 0
  | j + 1 => if 2 ^ (53 + j) ≤ q then j + 1 else expShift q j

/-- The pattern of the non-negative double nearest to `n / d` units of `2^-1074` (ties to
even, `+inf` on overflow). Below `2^53` units the doubles are one unit apart and the pattern
is the number of units; from `2^(52+k)` to `2^(53+k)` units they are `2^k` apart and the
pattern is `k * 2^52` plus the number of steps of `2^k`. -/
def roundMag (n d : Nat) : Nat :=
  let k := expShift (n / d) 2046
  let p := k * 2 ^ 52 + roundDiv n (d * 2 ^ k)
  if p < dbl_inf then p else dbl_inf

/-- The conversion `uint64_t → double`. -/
def dblOfUInt64 (u : Nat) : Nat := roundMag (u * 2 ^ 1074) 1

/-- The sum `a + b` of two doubles. -/
def dblAdd (a b : Nat) : Nat :=
  if dblIsNaN a || dblIsNaN b then dbl_nan
  else if dblIsInf a then (if dblIsInf b && (dblSign a != dblSign b) then dbl_nan else a)
  else if dblIsInf b then b
  else if dblVal a + dblVal b = 0 then dblPack (dblSign a && dblSign b) 0
  else dblPack (decide (dblVal a + dblVal b < 0)) (roundMag (dblVal a + dblVal b).natAbs 1)

/-- The difference `a - b` of two doubles. -/
def dblSub (a b : Nat) : Nat := dblAdd a (dblNeg b)

/-- The product `a * b` of two doubles. -/
def dblMul (a b : Nat) : Nat :=
  if dblIsNaN a || dblIsNaN b then dbl_nan
  else if dblIsInf a || dblIsInf b then
    (if dblAbs a = 0 ∨ dblAbs b = 0 then dbl_nan else dblPack (dblSign a != dblSign b) dbl_inf)
  else dblPack (dblSign a != dblSign b) (roundMag (dblMag a * dblMag b) (2 ^ 1074))

/-- The quotient `a / b` of two doubles. -/
def dblDiv (a b : Nat) : Nat :=
  if dblIsNaN a || dblIsNaN b then dbl_nan
  else if dblIsInf a then
    (if dblIsInf b then dbl_nan else dblPack (dblSign a != dblSign b) dbl_inf)
  else if dblIsInf b then dblPack (dblSign a != dblSign b) 0
  else if dblAbs b = 0 then
    (if dblAbs a = 0 then dbl_nan else dblPack (dblSign a != dblSign b) dbl_inf)
  else dblPack (dblSign a != dblSign b) (roundMag (dblMag a * 2 ^ 1074) (dblMag b))

/-- The comparison `a < b` of two doubles. -/
def dblLt (a b : Nat) : Bool := !dblIsNaN a && !dblIsNaN b && decide (dblVal a < dblVal b)

/-- The comparison `a >= b` of two doubles. -/
def dblGe (a b : Nat) : Bool := !dblIsNaN a && !dblIsNaN b && decide (dblVal b ≤ dblVal a)

/-- The comparison `a == b` of two doubles. -/
def dblEq (a b : Nat) : Bool := !dblIsNaN a && !dblIsNaN b && decide (dblVal a = dblVal b)

/-- The binary64 arithmetic, for given library functions `std::sqrt` and `std::log`. -/
def ieee (sqrt log : Nat → Nat) : Fp :=
  { ofUInt64 := dblOfUInt64, add := dblAdd, sub := dblSub, mul := dblMul, div := dblDiv,
    sqrt := sqrt, log := log, ge := dblGe, eq := dblEq }

/-! ## Definitions used in the statements -/

/-- The high word `x >> 32` of a 64-bit word. -/
def hi32 (x : Nat) : Nat := x >>> 32

/-- The low word `x & 0xFFFFFFFF` of a 64-bit word. -/
def lo32 (x : Nat) : Nat := x % 2 ^ 32

/-- The 24 words of the canonical form of a state, in order. -/
def exportWords (rs : RngState) : List Nat :=
  [hi32 rs.numBytes, lo32 rs.numBytes] ++ (List.range 8).map (fun i => rs.hash.getD i 0)
    ++ [hi32 rs.type, lo32 rs.type, hi32 rs.index, lo32 rs.index]
    ++ [hi32 (rs.cache.getD 0 0), lo32 (rs.cache.getD 0 0),
        hi32 (rs.cache.getD 1 0), lo32 (rs.cache.getD 1 0),
        hi32 (rs.cache.getD 2 0), lo32 (rs.cache.getD 2 0)]
    ++ [hi32 rs.gaussian, lo32 rs.gaussian, toUint32 rs.cacheAvail,
        if rs.gaussianAvail then 1 else 0]

/-- The bytes of an ASCII text. -/
def str (s : String) : List Nat := s.toList.map Char.toNat

/-- The four bytes of a 32-bit word, most significant first. -/
def be4 (w : Nat) : List Nat := [w / 2 ^ 24 % 256, w / 2 ^ 16 % 256, w / 2 ^ 8 % 256, w % 256]

/-- The digest of a state as 32 bytes: every word as four big-endian bytes. -/
def digestBytes (rs : RngState) : List Nat := rs.hash.flatMap be4

/-- The text `"[<index>] {<label>}"` for a state whose `type` is the sentinel and
`"[<type>,<index>] {<label>}"` otherwise, the numbers in decimal. -/
def splitText (p : RngState) (label : List Nat) : List Nat :=
  if p.type = ULONG_MAX then
    str "[" ++ fmtLu p.index ++ str "] \x7b" ++ label ++ str "\x7d"
  else
    str "[" ++ fmtLu p.type ++ str "," ++ fmtLu p.index ++ str "] \x7b" ++ label ++ str "\x7d"

/-- The text `"[<index>]"` for the sentinel `type` and `"[<type>,<index>]"` otherwise. -/
def wordText (type index : Nat) : List Nat :=
  if type = ULONG_MAX then str "[" ++ fmtLu index ++ str "]"
  else str "[" ++ fmtLu type ++ str "," ++ fmtLu index ++ str "]"

/-- The record a split of the parent `p` with the label `sindex` leaves in the
destination, written out field by field. -/
def splitChild (sha : List Nat → List Nat) (p : RngState) (sindex : List Nat) : RngState :=
  { numBytes := (p.numBytes
      + (64 * ((32 + (splitText p (c_str sindex)).length + 1 + 8 - 1) % 2 ^ 64 / 64 + 1))
        % 2 ^ 64) % 2 ^ 64,
    hash := computeHashWithInput sha p (splitText p (c_str sindex)),
    type := ULONG_MAX, index := 0, cache := [0, 0, 0], gaussian := 0, cacheAvail := 0,
    gaussianAvail := false }

/-- The 64-bit word `(h[2i] << 32) | h[2i+1]` packed from the digest words `h`. -/
def packWord (h : List Nat) (i : Nat) : Nat := (h.getD (2 * i) 0 <<< 32) ||| h.getD (2 * i + 1) 0

/-- The digest `randGen` computes on a refill: the hash of the digest bytes of the state
followed by the text for `type` and the incremented `index`. -/
def refillDigest (sha : List Nat → List Nat) (s : RngState) : List Nat :=
  computeHash sha (digestBytes s ++ wordText s.type ((s.index + 1) % 2 ^ 64))

/-- The range invariant of the word cache count. -/
def CacheInv (s : RngState) : Prop := 0 ≤ s.cacheAvail ∧ s.cacheAvail ≤ 3

/-- The label of a split has no NUL byte. -/
def HashUse.NulFree : HashUse → Prop
  | .word _ _ => True
  | .split _ _ label => 0 ∉ label

instance (a : HashUse) : Decidable a.NulFree := by
  cases a <;> unfold HashUse.NulFree <;> infer_instance

/-- The fields a word draw leaves alone. -/
def SameStream (s s' : RngState) : Prop :=
  s'.numBytes = s.numBytes ∧ s'.hash = s.hash ∧ s'.type = s.type ∧
  s'.gaussian = s.gaussian ∧ s'.gaussianAvail = s.gaussianAvail

/-- Whether the rejection loop of `gRandGen` rejects an attempt with the given `rsq`:
`rsq >= 1.0 || rsq == 0`. -/
def rejected (F : Fp) (rsq : Nat) : Bool := F.ge rsq dbl_1 || F.eq rsq dbl_0

/-- Two states agree on the live part: digest, `type`, `index`, a `cacheAvail` within
`0..3`, and the cache slots below `cacheAvail`. -/
def LiveEq (a b : RngState) : Prop :=
  a.hash = b.hash ∧ a.type = b.type ∧ a.index = b.index ∧ a.cacheAvail = b.cacheAvail ∧
  0 ≤ a.cacheAvail ∧ a.cacheAvail ≤ 3 ∧
  a.cache.take a.cacheAvail.toNat = b.cache.take b.cacheAvail.toNat

instance (a b : RngState) : Decidable (LiveEq a b) := by
  unfold LiveEq; infer_instance

/-- The digest words a refill computes from the digest, `type` and incremented `index`. -/
def refillWords (sha : List Nat → List Nat) (hash : List Nat) (type index : Nat) : List Nat :=
  if ULONG_MAX = type then
    computeHashWithInput sha ⟨0, hash, type, index, [], 0, 0, false⟩
      (ssprintf "[%lu]" [.lu index])
  else
    computeHashWithInput sha ⟨0, hash, type, index, [], 0, 0, false⟩
      (ssprintf "[%lu,%lu]" [.lu type, .lu index])

/-- The state `importRngState` builds from a buffer, written out field by field. -/
def importedState (v : List Nat) : RngState :=
  { numBytes := patchTwoUint32 (v.getD 0 0) (v.getD 1 0),
    hash := (List.range 8).map (fun i => v.getD (2 + i) 0),
    type := patchTwoUint32 (v.getD 10 0) (v.getD 11 0),
    index := patchTwoUint32 (v.getD 12 0) (v.getD 13 0),
    cache := (List.range 3).map
      (fun i => patchTwoUint32 (v.getD (14 + i * 2) 0) (v.getD (14 + i * 2 + 1) 0)),
    gaussian := patchTwoUint32 (v.getD 20 0) (v.getD 21 0),
    cacheAvail := toInt32 (v.getD 22 0),
    gaussianAvail := decide (v.getD 23 0 ≠ 0) }

instance (s : RngState) : Decidable (CacheInv s) := by
  unfold CacheInv; infer_instance

/-- The factor `fac` of `uRandGen`, in the arithmetic `F`. -/
def uFac (F : Fp) : Nat :=
  F.div (F.div dbl_1 (F.mul (F.mul (F.mul dbl_256 dbl_256) dbl_256) dbl_256))
    (F.mul (F.mul (F.mul dbl_256 dbl_256) dbl_256) dbl_256)

/-- The expression `u * fac * (upper - lower) + lower` of `uRandGen`, in the arithmetic
`F`. -/
def uScale (F : Fp) (u upper lower : Nat) : Nat :=
  F.add (F.mul (F.mul (F.ofUInt64 u) (uFac F)) (F.sub upper lower)) lower

/-- The pattern of the `double` `2^-64`. -/
def dbl_2m64 : Nat := 0x3BF0000000000000

/-- The pattern of the `double` `0.5`. -/
def dbl_half : Nat := 0x3FE0000000000000

/-! ## Example inputs -/

/-- A hash engine for examples: the digest words are `len + 1, ..., len + 8`, where `len`
is the length of the message. -/
def demoSha (data : List Nat) : List Nat :=
  (List.range 8).map (fun i => data.length + i + 1)

/-- An arithmetic for examples: every operation returns the pattern of `1.0`, every
comparison is false (so the first attempt of the rejection loop is accepted). -/
def demoFp : Fp :=
  { ofUInt64 := fun _ => dbl_1, add := fun _ _ => dbl_1, sub := fun _ _ => dbl_1,
    mul := fun _ _ => dbl_1, div := fun _ _ => dbl_1, sqrt := fun _ => dbl_1,
    log := fun _ => dbl_1, ge := fun _ _ => false, eq := fun _ _ => false }

/-- A state for examples: in the middle of generation, with two cached words and a pending
Gaussian. -/
def demoState : RngState :=
  { numBytes := 2 ^ 40 + 64, hash := [40, 41, 42, 43, 44, 45, 46, 4294967295], type := 5,
    index := 2 ^ 33 + 7, cache := [154618822693, 2 ^ 64 - 1, 0],
    gaussian := 0xBFF8000000000000, cacheAvail := 2, gaussianAvail := true }

/-- A memory for examples: `demoState` at address 0, zeroed records elsewhere. -/
def demoMem : Mem := fun a => if a = 0 then demoState else memsetZero

/-- The state of the stream seeded with `"a"`, with the example hash engine. -/
def demoSeeded : RngState := resetSeed demoSha memsetZero [97]

/-- The calls of an example run: a word, a Gaussian, a type assignment, a uniform draw. -/
def demoOps : List Op := [.randGen, .gRandGen dbl_0 dbl_1, .setType 5, .uRandGen dbl_1 dbl_0]

/-- The state after the calls `demoOps` on the stream seeded with `"a"`. -/
def demoFinal : RngState :=
  { numBytes := 64, hash := [40, 41, 42, 43, 44, 45, 46, 47], type := 5, index := 5,
    cache := [163208757287, 171798691881, 180388626475], gaussian := 4607182418800017408,
    cacheAvail := 3, gaussianAvail := false }

/-- The binary64 arithmetic of the examples; `uRandGen` uses neither library function. -/
def ieeeDemo : Fp := ieee (fun x => x) (fun x => x)

/-- A hash engine for examples that reads the index of the draw, the number written in
decimal after the 32 digest bytes and the `[`: below 19998 every digest word is
`0xFFFFFFFF` (the words drawn are `2^64 - 1`, the uniform draws `1.0`), from 19998 on the
digest words are `0xC0000000, 0` four times (the words drawn are `3 * 2^62`, the uniform
draws in `[-1, 1)` are `0.5`). -/
def lateSha (data : List Nat) : List Nat :=
  if decVal ((data.drop 33).takeWhile isDigit) < 19998 then List.replicate 8 0xFFFFFFFF
  else [0xC0000000, 0, 0xC0000000, 0, 0xC0000000, 0, 0xC0000000, 0]

/-- A freshly split state, for the examples with `lateSha`. -/
def lateState : RngState :=
  { numBytes := 64, hash := [40, 41, 42, 43, 44, 45, 46, 47], type := ULONG_MAX, index := 0,
    cache := [0, 0, 0], gaussian := 0, cacheAvail := 0, gaussianAvail := false }

/-- The state `lateState` after 9999 attempts of the rejection loop. -/
def lateDone : RngState :=
  { numBytes := 64, hash := [40, 41, 42, 43, 44, 45, 46, 47], type := ULONG_MAX,
    index := 19999, cache := [3 * 2 ^ 62, 3 * 2 ^ 62, 0], gaussian := 0, cacheAvail := 2,
    gaussianAvail := false }

/-! ## Basic facts -/

theorem shiftRight_32_lt {x : Nat} (h : x < 2 ^ 64) : x >>> 32 < 2 ^ 32 := by
  rw [Nat.shiftRight_eq_div_pow]; omega

theorem patchTwoUint32_eq_add {a b : Nat} (ha : a < 2 ^ 32) (hb : b < 2 ^ 32) :
    patchTwoUint32 a b = 2 ^ 32 * a + b := by
  unfold patchTwoUint32
  rw [Nat.shiftLeft_eq, Nat.mod_eq_of_lt (by omega), Nat.mul_comm, Nat.mul_add_lt_is_or hb]

theorem patchTwoUint32_lt {a b : Nat} (ha : a < 2 ^ 32) (hb : b < 2 ^ 32) :
    patchTwoUint32 a b < 2 ^ 64 := by
  rw [patchTwoUint32_eq_add ha hb]; omega

theorem patchTwoUint32_split {x : Nat} (h : x < 2 ^ 64) :
    patchTwoUint32 (hi32 x) (lo32 x) = x := by
  unfold hi32 lo32
  rw [patchTwoUint32_eq_add (shiftRight_32_lt h) (Nat.mod_lt _ (by norm_num)),
    Nat.shiftRight_eq_div_pow]
  omega

theorem splitTwoUint32_eq {x : Nat} (h : x < 2 ^ 64) :
    splitTwoUint32 x = some (hi32 x, lo32 x) := by
  have h1 : (x >>> 32) % 2 ^ 32 = x >>> 32 := Nat.mod_eq_of_lt (shiftRight_32_lt h)
  have h2 := patchTwoUint32_split h
  unfold hi32 lo32 at *
  simp only [splitTwoUint32, h1, h2, if_true]

theorem toInt32_toUint32 {x : Int} (h1 : -(2 ^ 31) ≤ x) (h2 : x < 2 ^ 31) :
    toInt32 (toUint32 x) = x := by
  unfold toInt32 toUint32
  have e : ((x % 2 ^ 32).toNat % 2 ^ 32 : Nat) = (x % 2 ^ 32).toNat := by
    apply Nat.mod_eq_of_lt; omega
  rw [e]
  split <;> omega

theorem toUint32_lt (x : Int) : toUint32 x < 2 ^ 32 := by
  unfold toUint32; omega

theorem length_eq_eight {l : List Nat} (h : l.length = 8) :
    ∃ a b c d e f g k, l = [a, b, c, d, e, f, g, k] := by
  match l, h with
  | [a, b, c, d, e, f, g, k], _ => exact ⟨a, b, c, d, e, f, g, k, rfl⟩

theorem length_eq_three {l : List Nat} (h : l.length = 3) : ∃ a b c, l = [a, b, c] := by
  match l, h with
  | [a, b, c], _ => exact ⟨a, b, c, rfl⟩


/-! ## Serialisation: the words written and the round trip -/

theorem exportRngState_eq (v : List Nat) (rs : RngState) (hrs : rs.WF) (hv : 24 ≤ v.length) :
    exportRngState v rs = some (exportWords rs ++ v.drop 24) := by
  obtain ⟨nb, hash, ty, idx, cache, g, ca, ga⟩ := rs
  obtain ⟨h1, h2, h3, h4, h5, h6, h7, h8, h9, h10⟩ := hrs
  simp only at h1 h2 h3 h4 h5 h6 h7 h8 h9 h10
  obtain ⟨a0, a1, a2, a3, a4, a5, a6, a7, rfl⟩ := length_eq_eight h2
  obtain ⟨c0, c1, c2, rfl⟩ := length_eq_three h6
  have hc0 : c0 < 2 ^ 64 := h7 c0 (by simp)
  have hc1 : c1 < 2 ^ 64 := h7 c1 (by simp)
  have hc2 : c2 < 2 ^ 64 := h7 c2 (by simp)
  iterate 24 (rcases v with _ | ⟨_, v⟩; · simp at hv)
  simp [exportRngState, exportWords, RNG_STATE_NUM_OF_INT32, splitTwoUint32_eq h1,
    splitTwoUint32_eq h4, splitTwoUint32_eq h5, splitTwoUint32_eq h8, splitTwoUint32_eq hc0,
    splitTwoUint32_eq hc1, splitTwoUint32_eq hc2, List.range, List.range.loop]


theorem and_mask32 (x : Nat) : x &&& 0xFFFFFFFF = x % 2 ^ 32 :=
  Nat.and_pow_two_sub_one_eq_mod x 32

theorem exportWords_length (rs : RngState) : (exportWords rs).length = 24 := by
  simp [exportWords]

theorem importRngState_exportWords (d s : RngState) (t : List Nat) (hs : s.WF)
    (hd1 : d.hash.length = 8) (hd2 : d.cache.length = 3) :
    importRngState d (exportWords s ++ t) = .ok s := by
  obtain ⟨nb, hash, ty, idx, cache, g, ca, ga⟩ := s
  obtain ⟨h1, h2, h3, h4, h5, h6, h7, h8, h9, h10⟩ := hs
  simp only at h1 h2 h3 h4 h5 h6 h7 h8 h9 h10
  obtain ⟨a0, a1, a2, a3, a4, a5, a6, a7, rfl⟩ := length_eq_eight h2
  obtain ⟨c0, c1, c2, rfl⟩ := length_eq_three h6
  obtain ⟨dnb, dhash, dty, didx, dcache, dg, dca, dga⟩ := d
  simp only at hd1 hd2
  obtain ⟨b0, b1, b2, b3, b4, b5, b6, b7, rfl⟩ := length_eq_eight hd1
  obtain ⟨e0, e1, e2, rfl⟩ := length_eq_three hd2
  have hc0 : c0 < 2 ^ 64 := h7 c0 (by simp)
  have hc1 : c1 < 2 ^ 64 := h7 c1 (by simp)
  have hc2 : c2 < 2 ^ 64 := h7 c2 (by simp)
  simp [importRngState, exportWords, RNG_STATE_NUM_OF_INT32, patchTwoUint32_split h1,
    patchTwoUint32_split h4, patchTwoUint32_split h5, patchTwoUint32_split h8,
    patchTwoUint32_split hc0, patchTwoUint32_split hc1, patchTwoUint32_split hc2,
    toInt32_toUint32 h9 h10, List.range, List.range.loop]

/-- C1 (serialisation round trip). For every state `s` with fields of their C types, the
words `exportRngState` writes into a buffer of at least 24 words are read back by
`importRngState`, into a destination of any prior content, as a state equal to `s` in
every field; the same holds for the overloads on vectors, whatever the vector held
before. -/
theorem import_export_roundtrip (s d : RngState) (v : List Nat) (hs : s.WF)
    (hd1 : d.hash.length = 8) (hd2 : d.cache.length = 3) :
    (24 ≤ v.length → ∃ w, exportRngState v s = some w ∧ importRngState d w = .ok s) ∧
    ∃ w, exportRngStateVec v s = some w ∧ w.length = 24 ∧ importRngStateVec d w = .ok s := by
  constructor
  · intro hv
    exact ⟨_, exportRngState_eq v s hs hv, importRngState_exportWords d s _ hs hd1 hd2⟩
  · have hr : 24 ≤ (resize v RNG_STATE_NUM_OF_INT32).length := by
      simp [resize, RNG_STATE_NUM_OF_INT32]; omega
    refine ⟨_, exportRngState_eq _ s hs hr, ?_, ?_⟩
    · simp [resize, RNG_STATE_NUM_OF_INT32, exportWords_length]; omega
    · have hl : (exportWords s ++ List.drop 24 (resize v RNG_STATE_NUM_OF_INT32)).length
          = RNG_STATE_NUM_OF_INT32 := by
        simp [resize, RNG_STATE_NUM_OF_INT32, exportWords_length]; omega
      simp only [importRngStateVec, hl, ne_eq, not_true_eq_false, if_false]
      exact importRngState_exportWords d s _ hs hd1 hd2


theorem import_export_roundtrip_witness :
    demoState.WF ∧
    ((24 ≤ (List.replicate 30 7).length →
        ∃ w, exportRngState (List.replicate 30 7) demoState = some w ∧
          importRngState memsetZero w = .ok demoState) ∧
      ∃ w, exportRngStateVec (List.replicate 30 7) demoState = some w ∧ w.length = 24 ∧
        importRngStateVec memsetZero w = .ok demoState) :=
  ⟨by decide, import_export_roundtrip demoState memsetZero (List.replicate 30 7)
    (by decide) (by decide) (by decide)⟩

/-- C2 (layout of the canonical form). For every state `s` with fields of their C types,
`exportRngState` succeeds on every buffer `v` of at least 24 words and writes exactly the
words 0 to 23 of it (the length and the words from 24 on are those of `v`, and each
written word is below `2^32`): words 0, 1 are `numBytes >> 32`, `numBytes & 0xFFFFFFFF`;
words 2 to 9 are `hash[0..8)`; words 10, 11 are the high and low word of `type`; words
12, 13 those of `index`; words `14 + 2i`, `15 + 2i` those of `cache[i]`; words 20, 21
those of the pattern of `gaussian`; word 22 is `cacheAvail` as a `uint32_t` (the value
itself when it is not negative); word 23 is 1 if `gaussianAvail` and 0 otherwise. The
overload on vectors returns these 24 words and nothing else. -/
theorem exportRngState_layout (s : RngState) (v : List Nat) (hs : s.WF)
    (hv : 24 ≤ v.length) :
    ∃ w, exportRngState v s = some w ∧ w.length = v.length ∧ w.drop 24 = v.drop 24 ∧
      (∀ i, i < 24 → w.getD i 0 < 2 ^ 32) ∧
      w.getD 0 0 = s.numBytes >>> 32 ∧ w.getD 1 0 = s.numBytes &&& 0xFFFFFFFF ∧
      (∀ i, i < 8 → w.getD (2 + i) 0 = s.hash.getD i 0) ∧
      w.getD 10 0 = s.type >>> 32 ∧ w.getD 11 0 = s.type &&& 0xFFFFFFFF ∧
      w.getD 12 0 = s.index >>> 32 ∧ w.getD 13 0 = s.index &&& 0xFFFFFFFF ∧
      (∀ i, i < 3 → w.getD (14 + 2 * i) 0 = s.cache.getD i 0 >>> 32 ∧
        w.getD (15 + 2 * i) 0 = s.cache.getD i 0 &&& 0xFFFFFFFF) ∧
      w.getD 20 0 = s.gaussian >>> 32 ∧ w.getD 21 0 = s.gaussian &&& 0xFFFFFFFF ∧
      (w.getD 22 0 : Int) = s.cacheAvail % 2 ^ 32 ∧
      (0 ≤ s.cacheAvail → (w.getD 22 0 : Int) = s.cacheAvail) ∧
      w.getD 23 0 = (if s.gaussianAvail then 1 else 0) ∧
      ∀ v0, exportRngStateVec v0 s = some (w.take 24) := by
  refine ⟨_, exportRngState_eq v s hs hv, ?_⟩
  have hvec : ∀ v0, exportRngStateVec v0 s
      = some ((exportWords s ++ List.drop 24 v).take 24) := by
    intro v0
    have hr : 24 ≤ (resize v0 RNG_STATE_NUM_OF_INT32).length := by
      simp [resize, RNG_STATE_NUM_OF_INT32]; omega
    have hl : (resize v0 RNG_STATE_NUM_OF_INT32).length = 24 := by
      simp [resize, RNG_STATE_NUM_OF_INT32]; omega
    unfold exportRngStateVec
    rw [exportRngState_eq _ s hs hr, List.drop_of_length_le (by omega),
      List.take_append_of_le_length (by simp [exportWords_length]),
      List.take_of_length_le (by simp [exportWords_length])]
    simp
  obtain ⟨nb, hash, ty, idx, cache, g, ca, ga⟩ := s
  obtain ⟨h1, h2, h3, h4, h5, h6, h7, h8, h9, h10⟩ := hs
  simp only at h1 h2 h3 h4 h5 h6 h7 h8 h9 h10
  obtain ⟨a0, a1, a2, a3, a4, a5, a6, a7, rfl⟩ := length_eq_eight h2
  obtain ⟨c0, c1, c2, rfl⟩ := length_eq_three h6
  have hc0 : c0 < 2 ^ 64 := h7 c0 (by simp)
  have hc1 : c1 < 2 ^ 64 := h7 c1 (by simp)
  have hc2 : c2 < 2 ^ 64 := h7 c2 (by simp)
  have hlo : ∀ x, lo32 x < 2 ^ 32 := fun x => Nat.mod_lt _ (by norm_num)
  have hhi : ∀ x, x < 2 ^ 64 → hi32 x < 2 ^ 32 := fun x hx => shiftRight_32_lt hx
  have hu := toUint32_lt ca
  have hga : (if ga = true then 1 else 0) < 2 ^ 32 := by cases ga <;> simp
  simp only [List.mem_cons, List.mem_singleton, List.not_mem_nil, or_false,
    forall_eq_or_imp, forall_eq] at h3
  obtain ⟨k0, k1, k2, k3, k4, k5, k6, k7⟩ := h3
  refine ⟨?_, ?_, ?_, ?_, ?_, ?_, ?_, ?_, ?_, ?_, ?_, ?_, ?_, ?_, ?_, ?_, hvec⟩
  · simp [exportWords_length]; omega
  · simp [exportWords_length]
  · intro i hi
    have := hhi nb h1; have := hlo nb; have := hhi ty h4; have := hlo ty
    have := hhi idx h5; have := hlo idx; have := hhi g h8; have := hlo g
    have := hhi c0 hc0; have := hlo c0; have := hhi c1 hc1; have := hlo c1
    have := hhi c2 hc2; have := hlo c2
    interval_cases i <;> simp [exportWords, List.range, List.range.loop] <;> omega
  · simp [exportWords, hi32]
  · simp [exportWords, lo32, and_mask32]
  · intro i hi
    interval_cases i <;> simp [exportWords, List.range, List.range.loop]
  · simp [exportWords, hi32, List.range, List.range.loop]
  · simp [exportWords, lo32, and_mask32, List.range, List.range.loop]
  · simp [exportWords, hi32, List.range, List.range.loop]
  · simp [exportWords, lo32, and_mask32, List.range, List.range.loop]
  · intro i hi
    interval_cases i <;>
      simp [exportWords, hi32, lo32, and_mask32, List.range, List.range.loop]
  · simp [exportWords, hi32, List.range, List.range.loop]
  · simp [exportWords, lo32, and_mask32, List.range, List.range.loop]
  · simp only [exportWords, List.range, List.range.loop, List.map, List.append_eq,
      List.cons_append, List.nil_append, List.getD_cons_succ, List.getD_cons_zero]
    unfold toUint32
    rw [Int.toNat_of_nonneg (by omega)]
  · intro h0
    replace h0 : 0 ≤ ca := h0
    simp only [exportWords, List.range, List.range.loop, List.map, List.append_eq,
      List.cons_append, List.nil_append, List.getD_cons_succ, List.getD_cons_zero]
    unfold toUint32
    rw [Int.toNat_of_nonneg (by omega)]
    omega
  · simp [exportWords, List.range, List.range.loop]


theorem exportRngState_layout_witness :
    (demoState.WF ∧ 24 ≤ (List.replicate 30 7).length) ∧
    ∃ w, exportRngState (List.replicate 30 7) demoState = some w ∧
      w.length = (List.replicate 30 7).length ∧
      w.drop 24 = (List.replicate 30 7).drop 24 ∧
      (∀ i, i < 24 → w.getD i 0 < 2 ^ 32) ∧
      w.getD 0 0 = demoState.numBytes >>> 32 ∧
      w.getD 1 0 = demoState.numBytes &&& 0xFFFFFFFF ∧
      (∀ i, i < 8 → w.getD (2 + i) 0 = demoState.hash.getD i 0) ∧
      w.getD 10 0 = demoState.type >>> 32 ∧ w.getD 11 0 = demoState.type &&& 0xFFFFFFFF ∧
      w.getD 12 0 = demoState.index >>> 32 ∧ w.getD 13 0 = demoState.index &&& 0xFFFFFFFF ∧
      (∀ i, i < 3 → w.getD (14 + 2 * i) 0 = demoState.cache.getD i 0 >>> 32 ∧
        w.getD (15 + 2 * i) 0 = demoState.cache.getD i 0 &&& 0xFFFFFFFF) ∧
      w.getD 20 0 = demoState.gaussian >>> 32 ∧
      w.getD 21 0 = demoState.gaussian &&& 0xFFFFFFFF ∧
      (w.getD 22 0 : Int) = demoState.cacheAvail % 2 ^ 32 ∧
      (0 ≤ demoState.cacheAvail → (w.getD 22 0 : Int) = demoState.cacheAvail) ∧
      w.getD 23 0 = (if demoState.gaussianAvail then 1 else 0) ∧
      ∀ v0, exportRngStateVec v0 demoState = some (w.take 24) :=
  ⟨by decide, exportRngState_layout demoState (List.replicate 30 7) (by decide) (by decide)⟩

/-! ## Splitting -/

theorem ssprintf_lu_s (n : Nat) (q : List Nat) :
    ssprintf "[%lu] \x7b%s\x7d" [.lu n, .s q] = str "[" ++ fmtLu n ++ str "] \x7b" ++ q ++ str "\x7d" := by
  simp [ssprintf, ssprintfAux, str]

theorem ssprintf_lu_lu_s (t n : Nat) (q : List Nat) :
    ssprintf "[%lu,%lu] \x7b%s\x7d" [.lu t, .lu n, .s q]
      = str "[" ++ fmtLu t ++ str "," ++ fmtLu n ++ str "] \x7b" ++ q ++ str "\x7d" := by
  simp [ssprintf, ssprintfAux, str]

theorem ssprintf_lu (n : Nat) : ssprintf "[%lu]" [.lu n] = str "[" ++ fmtLu n ++ str "]" := by
  simp [ssprintf, ssprintfAux, str]

theorem ssprintf_lu_lu (t n : Nat) :
    ssprintf "[%lu,%lu]" [.lu t, .lu n] = str "[" ++ fmtLu t ++ str "," ++ fmtLu n ++ str "]" := by
  simp [ssprintf, ssprintfAux, str]

theorem byte_eq (h k : Nat) : (h >>> k) &&& 0xFF = h / 2 ^ k % 256 := by
  rw [Nat.shiftRight_eq_div_pow]
  exact Nat.and_pow_two_sub_one_eq_mod _ 8

theorem computeHashWithInput_eq (sha : List Nat → List Nat) (rs : RngState)
    (input : List Nat) (h : rs.hash.length = 8) :
    computeHashWithInput sha rs input = computeHash sha (digestBytes rs ++ input) := by
  obtain ⟨a0, a1, a2, a3, a4, a5, a6, a7, e⟩ := length_eq_eight h
  have hb : ∀ x : Nat, x &&& 0xFF = x % 256 := fun x => Nat.and_pow_two_sub_one_eq_mod x 8
  simp only [computeHashWithInput, digestBytes, e, List.range, List.range.loop, List.foldl,
    List.replicate, List.getD_cons_zero, List.getD_cons_succ, byte_eq, hb, be4]
  simp [be4, Nat.shiftRight_eq_div_pow]

theorem splitInput_eq (p : RngState) (l : List Nat) :
    (if ULONG_MAX = p.type then ssprintf "[%lu] \x7b%s\x7d" [.lu p.index, .s (c_str l)]
      else ssprintf "[%lu,%lu] \x7b%s\x7d" [.lu p.type, .lu p.index, .s (c_str l)])
      = splitText p (c_str l) := by
  unfold splitText
  by_cases h : p.type = ULONG_MAX
  · rw [if_pos h.symm, if_pos h, ssprintf_lu_s]
  · rw [if_neg (fun e => h e.symm), if_neg h, ssprintf_lu_lu_s]

theorem set_zero_three {c : List Nat} (h : c.length = 3) :
    ((c.set 0 0).set 1 0).set 2 0 = [0, 0, 0] := by
  obtain ⟨a, b, d, rfl⟩ := length_eq_three h
  rfl

theorem splitRngStateAt_dst (sha : List Nat → List Nat) (m : Mem) (a b : Nat) (l : List Nat)
    (hb : (m b).cache.length = 3) :
    splitRngStateAt sha m b a l b = splitChild sha (m a) l := by
  unfold splitRngStateAt
  simp only [splitInput_eq, Mem.write, if_true]
  by_cases hab : a = b
  · subst hab
    simp only [if_true, splitChild, set_zero_three hb]
    rfl
  · simp only [if_neg hab, splitChild, set_zero_three hb]

theorem splitRngStateAt_other (sha : List Nat → List Nat) (m : Mem) (a b c : Nat)
    (l : List Nat) (hc : c ≠ b) : splitRngStateAt sha m b a l c = m c := by
  simp [splitRngStateAt, Mem.write, hc]

theorem splitRngState_eq (sha : List Nat → List Nat) (d p : RngState) (l : List Nat)
    (hd : d.cache.length = 3) : splitRngState sha d p l = splitChild sha p l := by
  unfold splitRngState
  rw [splitRngStateAt_dst sha _ 1 0 l (by simpa using hd)]
  simp

theorem splitRngStateSelf_eq (sha : List Nat → List Nat) (p : RngState) (l : List Nat)
    (hp : p.cache.length = 3) : splitRngStateSelf sha p l = splitChild sha p l := by
  unfold splitRngStateSelf
  rw [splitRngStateAt_dst sha _ 0 0 l (by simpa using hp)]

/-- C3 (self-split safety). In every memory `m`, for every label and every two distinct
addresses `a` and `b` holding records with a three-word cache: the call
`splitRngState(rs, rs, label)` on the record at `a`, run as the sequence of field writes
of the code on that one record, leaves at `a` the record that the call into the distinct
destination `b` (of whatever content) leaves at `b`; the latter call leaves the parent at
`a` as it was. The same for the value-level forms `splitRngStateSelf` and
`splitRngState`. -/
theorem self_split_eq_fresh_split (sha : List Nat → List Nat) (m : Mem) (a b : Nat)
    (label : List Nat) (hab : a ≠ b) (ha : (m a).cache.length = 3)
    (hb : (m b).cache.length = 3) :
    splitRngStateAt sha m a a label a = splitRngStateAt sha m b a label b ∧
    splitRngStateAt sha m b a label a = m a ∧
    splitRngStateSelf sha (m a) label = splitRngState sha (m b) (m a) label := by
  refine ⟨?_, splitRngStateAt_other sha m a b a label hab, ?_⟩
  · rw [splitRngStateAt_dst sha m a a label ha, splitRngStateAt_dst sha m a b label hb]
  · rw [splitRngStateSelf_eq sha _ label ha, splitRngState_eq sha _ _ label hb]

theorem self_split_eq_fresh_split_witness :
    (0 ≠ 1 ∧ (demoMem 0).cache.length = 3 ∧ (demoMem 1).cache.length = 3) ∧
    (splitRngStateAt demoSha demoMem 0 0 [97] 0 = splitRngStateAt demoSha demoMem 1 0 [97] 1 ∧
      splitRngStateAt demoSha demoMem 1 0 [97] 0 = demoMem 0 ∧
      splitRngStateSelf demoSha (demoMem 0) [97]
        = splitRngState demoSha (demoMem 1) (demoMem 0) [97]) :=
  ⟨by decide, self_split_eq_fresh_split demoSha demoMem 0 1 [97] (by decide) (by decide)
    (by decide)⟩

theorem c_str_eq_self {l : List Nat} (h : 0 ∉ l) : c_str l = l := by
  unfold c_str
  rw [List.takeWhile_eq_self_iff]
  intro x hx
  simp only [ne_eq, decide_not, Bool.not_eq_eq_eq_not, Bool.not_true, decide_eq_false_iff_not]
  rintro rfl
  exact h hx

/-- C4, as stated, fails: for the zero state as parent and the label `"a\0b"` (bytes 97,
0, 98), with the example hash engine, the digest of the child is not the hash of the
digest bytes followed by `"[0] {a\0b}"`; it is the hash of the digest bytes followed by
`"[0] {a}"`. -/
theorem split_hash_label_with_nul :
    (splitRngState demoSha memsetZero (reset memsetZero) [97, 0, 98]).hash
      ≠ computeHash demoSha
          (digestBytes (reset memsetZero) ++ splitText (reset memsetZero) [97, 0, 98]) ∧
    (splitRngState demoSha memsetZero (reset memsetZero) [97, 0, 98]).hash
      = computeHash demoSha
          (digestBytes (reset memsetZero) ++ splitText (reset memsetZero) [97]) := by
  decide

/-- C4, amended. For every memory, every parent address `a` and destination address `b`
(the same or not) and every label `l`, the child `splitRngState` leaves at `b` has
`hash = Hash(B ++ E)`, where `B` is the 32 bytes of the parent digest, each word as four
big-endian bytes, and `E` is the text `"[<index>] {<l0>}"` when the parent `type` is
`ULONG_MAX` and `"[<type>,<index>] {<l0>}"` otherwise, `l0` being the label up to its first
NUL byte (the whole label when it has none); and `type = ULONG_MAX`, `index = 0`, the
three cache words are 0, `gaussian` is `0.0`, `cacheAvail = 0`, `gaussianAvail = false`. -/
theorem split_child_fields (sha : List Nat → List Nat) (m : Mem) (a b : Nat) (l : List Nat)
    (ha : (m a).hash.length = 8) (hb : (m b).cache.length = 3) :
    (splitRngStateAt sha m b a l b).hash
      = computeHash sha (digestBytes (m a) ++ splitText (m a) (l.takeWhile (fun x => x ≠ 0))) ∧
    (0 ∉ l → (splitRngStateAt sha m b a l b).hash
      = computeHash sha (digestBytes (m a) ++ splitText (m a) l)) ∧
    (splitRngStateAt sha m b a l b).type = ULONG_MAX ∧
    (splitRngStateAt sha m b a l b).index = 0 ∧
    (splitRngStateAt sha m b a l b).cache = [0, 0, 0] ∧
    (splitRngStateAt sha m b a l b).gaussian = dbl_0 ∧
    (splitRngStateAt sha m b a l b).cacheAvail = 0 ∧
    (splitRngStateAt sha m b a l b).gaussianAvail = false := by
  rw [splitRngStateAt_dst sha m a b l hb]
  refine ⟨?_, ?_, rfl, rfl, rfl, rfl, rfl, rfl⟩
  · exact computeHashWithInput_eq sha (m a) _ ha
  · intro h0
    have := computeHashWithInput_eq sha (m a) (splitText (m a) (c_str l)) ha
    rw [c_str_eq_self h0] at this
    simpa [splitChild, c_str_eq_self h0] using this

theorem split_child_fields_witness :
    ((demoMem 0).hash.length = 8 ∧ (demoMem 0).cache.length = 3) ∧
    ((splitRngStateAt demoSha demoMem 0 0 [97, 0, 98] 0).hash
      = computeHash demoSha (digestBytes (demoMem 0)
          ++ splitText (demoMem 0) ([97, 0, 98].takeWhile (fun x => x ≠ 0))) ∧
    (0 ∉ [97, 0, 98] → (splitRngStateAt demoSha demoMem 0 0 [97, 0, 98] 0).hash
      = computeHash demoSha (digestBytes (demoMem 0) ++ splitText (demoMem 0) [97, 0, 98])) ∧
    (splitRngStateAt demoSha demoMem 0 0 [97, 0, 98] 0).type = ULONG_MAX ∧
    (splitRngStateAt demoSha demoMem 0 0 [97, 0, 98] 0).index = 0 ∧
    (splitRngStateAt demoSha demoMem 0 0 [97, 0, 98] 0).cache = [0, 0, 0] ∧
    (splitRngStateAt demoSha demoMem 0 0 [97, 0, 98] 0).gaussian = dbl_0 ∧
    (splitRngStateAt demoSha demoMem 0 0 [97, 0, 98] 0).cacheAvail = 0 ∧
    (splitRngStateAt demoSha demoMem 0 0 [97, 0, 98] 0).gaussianAvail = false) :=
  ⟨by decide, split_child_fields demoSha demoMem 0 0 [97, 0, 98] (by decide) (by decide)⟩

/-! ## The byte counter of a child -/

theorem ceil_div_64 (n : Nat) : ⌈(n : ℚ) / 64⌉₊ = (n + 63) / 64 := by
  apply le_antisymm
  · rw [Nat.ceil_le, div_le_iff₀ (by norm_num)]
    have h : n ≤ (n + 63) / 64 * 64 := by omega
    exact_mod_cast h
  · rcases Nat.eq_zero_or_pos ((n + 63) / 64) with h0 | hpos
    · omega
    · have h1 : (n + 63) / 64 - 1 < ⌈(n : ℚ) / 64⌉₊ := by
        rw [Nat.lt_ceil, lt_div_iff₀ (by norm_num)]
        have h : ((n + 63) / 64 - 1) * 64 < n := by omega
        exact_mod_cast h
      omega

/-- C5, as stated, fails: for the zero state as parent (`numBytes = 0`) and the label
`"a"`, the text fed to the hash is `"[0] {a}"` (7 bytes), the child has `numBytes = 64`,
and `64 * (ceil((32 + 7 + 1 + 8) / 64) + 1)` is 128. -/
theorem split_numBytes_not_plus_one :
    (splitRngState demoSha memsetZero (reset memsetZero) [97]).numBytes = 64 ∧
    (splitText (reset memsetZero) (c_str [97])).length = 7 ∧
    (splitRngState demoSha memsetZero (reset memsetZero) [97]).numBytes
      ≠ ((reset memsetZero).numBytes + 64 *
          (⌈((32 + (splitText (reset memsetZero) (c_str [97])).length + 1 + 8 : ℕ) : ℚ) / 64⌉₊
            + 1)) % 2 ^ 64 := by
  rw [ceil_div_64]
  decide

/-- C5, amended. For every memory, parent address `a`, destination address `b` (the same
or not) and label, with `E` the text fed to the hash by `splitRngState` (of a length a
`size_t` sum `32 + len(E) + 1 + 8` can hold), the byte counter of the child is
`numBytes(parent) + 64 * ceil((32 + len(E) + 1 + 8) / 64)` modulo `2^64`: the number of
64-byte blocks is the ceiling itself, not the ceiling plus one. -/
theorem split_numBytes (sha : List Nat → List Nat) (m : Mem) (a b : Nat) (l : List Nat)
    (hb : (m b).cache.length = 3)
    (hlen : 32 + (splitText (m a) (c_str l)).length + 1 + 8 < 2 ^ 64) :
    (splitRngStateAt sha m b a l b).numBytes
      = ((m a).numBytes
          + 64 * ⌈((32 + (splitText (m a) (c_str l)).length + 1 + 8 : ℕ) : ℚ) / 64⌉₊)
        % 2 ^ 64 := by
  rw [splitRngStateAt_dst sha m a b l hb, ceil_div_64]
  simp only [splitChild]
  generalize (splitText (m a) (c_str l)).length = n at hlen ⊢
  have e1 : (32 + n + 1 + 8 - 1) % 2 ^ 64 = 32 + n + 1 + 8 - 1 := Nat.mod_eq_of_lt (by omega)
  have e2 : (32 + n + 1 + 8 - 1) / 64 + 1 = (32 + n + 1 + 8 + 63) / 64 := by omega
  rw [e1, e2, Nat.add_mod_mod]

theorem split_numBytes_witness :
    ((demoMem 1).cache.length = 3 ∧
      32 + (splitText (demoMem 0) (c_str [97, 98])).length + 1 + 8 < 2 ^ 64) ∧
    (splitRngStateAt demoSha demoMem 1 0 [97, 98] 1).numBytes
      = ((demoMem 0).numBytes
          + 64 * ⌈((32 + (splitText (demoMem 0) (c_str [97, 98])).length + 1 + 8 : ℕ) : ℚ)
              / 64⌉₊) % 2 ^ 64 :=
  ⟨by decide, split_numBytes demoSha demoMem 0 1 [97, 98] (by decide) (by decide)⟩

/-! ## Word generation -/

theorem computeHash_getD_lt (sha : List Nat → List Nat) (data : List Nat) (i : Nat) :
    (computeHash sha data).getD i 0 < 2 ^ 32 := by
  unfold computeHash
  rw [List.getD_eq_getElem?_getD, List.getElem?_map]
  rcases h : (List.range 8)[i]? with _ | j
  · simp
  · simp only [Option.map_some', Option.getD_some]
    exact Nat.mod_lt _ (by norm_num)

theorem patchTwoUint32_eq_pack {a b : Nat} (ha : a < 2 ^ 32) :
    patchTwoUint32 a b = (a <<< 32) ||| b := by
  unfold patchTwoUint32
  rw [Nat.mod_eq_of_lt]
  rw [Nat.shiftLeft_eq]; omega

theorem refill_hash_eq (sha : List Nat → List Nat) (r : RngState) (h8 : r.hash.length = 8) :
    (if ULONG_MAX = r.type then computeHashWithInput sha r (ssprintf "[%lu]" [.lu r.index])
      else computeHashWithInput sha r (ssprintf "[%lu,%lu]" [.lu r.type, .lu r.index]))
      = computeHash sha (digestBytes r ++ wordText r.type r.index) := by
  unfold wordText
  by_cases ht : r.type = ULONG_MAX
  · rw [if_pos ht.symm, if_pos ht, computeHashWithInput_eq sha r _ h8, ssprintf_lu]
  · rw [if_neg (fun e => ht e.symm), if_neg ht, computeHashWithInput_eq sha r _ h8,
      ssprintf_lu_lu]

theorem randGen_refill (sha : List Nat → List Nat) (s : RngState) (h8 : s.hash.length = 8)
    (h3 : s.cache.length = 3) (h0 : s.cacheAvail = 0) :
    randGen sha s = .ok (packWord (refillDigest sha s) 3,
      { s with index := (s.index + 1) % 2 ^ 64,
               cache := [packWord (refillDigest sha s) 0, packWord (refillDigest sha s) 1,
                 packWord (refillDigest sha s) 2],
               cacheAvail := 3 }) := by
  obtain ⟨nb, hash, ty, idx, cache, g, ca, ga⟩ := s
  simp only at h8 h3 h0
  obtain ⟨c0, c1, c2, rfl⟩ := length_eq_three h3
  subst h0
  have hd := refill_hash_eq sha
    { numBytes := nb, hash := hash, type := ty, index := (idx + 1) % 2 ^ 64,
      cache := [c0, c1, c2], gaussian := g, cacheAvail := 0, gaussianAvail := ga } h8
  simp only [digestBytes] at hd
  unfold randGen
  simp only [le_refl, Int.reduceLE, and_self, not_true_eq_false, if_false, gt_iff_lt,
    lt_self_iff_false, hd, List.set_cons_zero, List.set_cons_succ, packWord,
    patchTwoUint32_eq_pack (computeHash_getD_lt sha _ _), refillDigest, digestBytes]

theorem randGen_pop (sha : List Nat → List Nat) (s : RngState) (h1 : 0 < s.cacheAvail)
    (h2 : s.cacheAvail ≤ 3) :
    randGen sha s = .ok (s.cache.getD (s.cacheAvail - 1).toNat 0,
      { s with index := (s.index + 1) % 2 ^ 64,
               cacheAvail := s.cacheAvail - 1,
               cache := s.cache.set (s.cacheAvail - 1).toNat 0 }) := by
  unfold randGen
  have h3 : 0 ≤ s.cacheAvail := le_of_lt h1
  simp only [h3, h2, and_self, not_true_eq_false, if_false, gt_iff_lt, h1, if_true]

theorem randGen_pop3 (sha : List Nat → List Nat) (nb : Nat) (hash : List Nat)
    (ty idx c0 c1 c2 g : Nat) (ga : Bool) :
    randGen sha ⟨nb, hash, ty, idx, [c0, c1, c2], g, 3, ga⟩
      = .ok (c2, ⟨nb, hash, ty, (idx + 1) % 2 ^ 64, [c0, c1, 0], g, 2, ga⟩) := by
  rw [randGen_pop sha _ (by simp) (by simp)]
  rfl

theorem randGen_pop2 (sha : List Nat → List Nat) (nb : Nat) (hash : List Nat)
    (ty idx c0 c1 c2 g : Nat) (ga : Bool) :
    randGen sha ⟨nb, hash, ty, idx, [c0, c1, c2], g, 2, ga⟩
      = .ok (c1, ⟨nb, hash, ty, (idx + 1) % 2 ^ 64, [c0, 0, c2], g, 1, ga⟩) := by
  rw [randGen_pop sha _ (by simp) (by simp)]
  rfl

theorem randGen_pop1 (sha : List Nat → List Nat) (nb : Nat) (hash : List Nat)
    (ty idx c0 c1 c2 g : Nat) (ga : Bool) :
    randGen sha ⟨nb, hash, ty, idx, [c0, c1, c2], g, 1, ga⟩
      = .ok (c0, ⟨nb, hash, ty, (idx + 1) % 2 ^ 64, [0, c1, c2], g, 0, ga⟩) := by
  rw [randGen_pop sha _ (by simp) (by simp)]
  rfl

/-- C6, as stated, fails: on the stream seeded with `"a"` (example hash engine, refill
digest words 36, ..., 43) `randGen` returns `w_3 = (42 << 32) | 43 = 180388626475`, not
`w_0 = (36 << 32) | 37 = 154618822693`, and the cache holds `w_0, w_1, w_2`, not
`w_1, w_2, w_3`. -/
theorem randGen_refill_returns_last_word :
    demoSeeded.cacheAvail = 0 ∧
    refillDigest demoSha demoSeeded = [36, 37, 38, 39, 40, 41, 42, 43] ∧
    (randGen demoSha demoSeeded).toOption.map Prod.fst
      ≠ some (packWord (refillDigest demoSha demoSeeded) 0) ∧
    (randGen demoSha demoSeeded).toOption.map (fun x => x.2.cache)
      ≠ some [packWord (refillDigest demoSha demoSeeded) 1,
          packWord (refillDigest demoSha demoSeeded) 2,
          packWord (refillDigest demoSha demoSeeded) 3] ∧
    (randGen demoSha demoSeeded).toOption.map Prod.fst = some 180388626475 ∧
    packWord (refillDigest demoSha demoSeeded) 0 = 154618822693 ∧
    (randGen demoSha demoSeeded).toOption.map (fun x => x.2.cache)
      = some [154618822693, 163208757287, 171798691881] := by
  decide

/-- C6, amended. For every state `s` with `cacheAvail = 0`, `randGen` hashes the
big-endian bytes of `s.hash` followed by `"[<index+1>]"` (`type` the sentinel) or
`"[<type>,<index+1>]"` (otherwise), `index + 1` taken modulo `2^64`, packs the 8 digest
words `h` into `w_i = (h[2i] << 32) | h[2i+1]`, returns `w_3`, and leaves the cache holding
`w_0, w_1, w_2` in the slots 0, 1, 2, with `cacheAvail = 3`, `index` incremented by 1 and
every other field as it was. -/
theorem randGen_refill_spec (sha : List Nat → List Nat) (s : RngState)
    (h8 : s.hash.length = 8) (h3 : s.cache.length = 3) (h0 : s.cacheAvail = 0) :
    randGen sha s = .ok
      (packWord (computeHash sha (digestBytes s ++ wordText s.type ((s.index + 1) % 2 ^ 64))) 3,
       { s with
          index := (s.index + 1) % 2 ^ 64,
          cache :=
            [packWord (computeHash sha
                (digestBytes s ++ wordText s.type ((s.index + 1) % 2 ^ 64))) 0,
             packWord (computeHash sha
                (digestBytes s ++ wordText s.type ((s.index + 1) % 2 ^ 64))) 1,
             packWord (computeHash sha
                (digestBytes s ++ wordText s.type ((s.index + 1) % 2 ^ 64))) 2],
          cacheAvail := 3 }) :=
  randGen_refill sha s h8 h3 h0

theorem randGen_refill_spec_witness :
    (demoSeeded.hash.length = 8 ∧ demoSeeded.cache.length = 3 ∧ demoSeeded.cacheAvail = 0) ∧
    randGen demoSha demoSeeded = .ok
      (packWord (computeHash demoSha (digestBytes demoSeeded
          ++ wordText demoSeeded.type ((demoSeeded.index + 1) % 2 ^ 64))) 3,
       { demoSeeded with
          index := (demoSeeded.index + 1) % 2 ^ 64,
          cache :=
            [packWord (computeHash demoSha (digestBytes demoSeeded
                ++ wordText demoSeeded.type ((demoSeeded.index + 1) % 2 ^ 64))) 0,
             packWord (computeHash demoSha (digestBytes demoSeeded
                ++ wordText demoSeeded.type ((demoSeeded.index + 1) % 2 ^ 64))) 1,
             packWord (computeHash demoSha (digestBytes demoSeeded
                ++ wordText demoSeeded.type ((demoSeeded.index + 1) % 2 ^ 64))) 2],
          cacheAvail := 3 }) :=
  ⟨by decide, randGen_refill_spec demoSha demoSeeded (by decide) (by decide) (by decide)⟩

/-- C7 (cache draining order). For every state `s` with `cacheAvail = 0`: `randGen`
returns a word and leaves cache slots `c0, c1, c2`; the next three calls return `c2`,
`c1`, `c0` in that order, whatever hash engine they are given (they do not consult it);
after the four calls `cacheAvail = 0`, the three cache slots are 0, digest and `type` are
those of `s`, and `index` has grown by 4 (modulo `2^64`). -/
theorem cache_draining_order (sha sha1 sha2 sha3 : List Nat → List Nat) (s : RngState)
    (h8 : s.hash.length = 8) (h3 : s.cache.length = 3) (h0 : s.cacheAvail = 0) :
    ∃ r c0 c1 c2 s1 s2 s3 s4,
      randGen sha s = .ok (r, s1) ∧ s1.cache = [c0, c1, c2] ∧
      randGen sha1 s1 = .ok (c2, s2) ∧
      randGen sha2 s2 = .ok (c1, s3) ∧
      randGen sha3 s3 = .ok (c0, s4) ∧
      s4.cacheAvail = 0 ∧ s4.cache = [0, 0, 0] ∧ s4.hash = s.hash ∧ s4.type = s.type ∧
      s4.index = (s.index + 4) % 2 ^ 64 := by
  refine ⟨_, _, _, _, _, _, _, _, randGen_refill sha s h8 h3 h0, rfl,
    randGen_pop3 sha1 _ _ _ _ _ _ _ _ _, randGen_pop2 sha2 _ _ _ _ _ _ _ _ _,
    randGen_pop1 sha3 _ _ _ _ _ _ _ _ _, rfl, rfl, rfl, rfl, ?_⟩
  simp only
  omega

theorem cache_draining_order_witness :
    (demoSeeded.hash.length = 8 ∧ demoSeeded.cache.length = 3 ∧ demoSeeded.cacheAvail = 0) ∧
    ∃ r c0 c1 c2 s1 s2 s3 s4,
      randGen demoSha demoSeeded = .ok (r, s1) ∧ s1.cache = [c0, c1, c2] ∧
      randGen (fun _ => []) s1 = .ok (c2, s2) ∧
      randGen (fun _ => []) s2 = .ok (c1, s3) ∧
      randGen (fun _ => []) s3 = .ok (c0, s4) ∧
      s4.cacheAvail = 0 ∧ s4.cache = [0, 0, 0] ∧ s4.hash = demoSeeded.hash ∧
      s4.type = demoSeeded.type ∧ s4.index = (demoSeeded.index + 4) % 2 ^ 64 :=
  ⟨by decide, cache_draining_order demoSha (fun _ => []) (fun _ => []) (fun _ => [])
    demoSeeded (by decide) (by decide) (by decide)⟩

/-! ## The range of `cacheAvail` and the assignment of `type` -/

theorem randGen_inv (sha : List Nat → List Nat) (s : RngState) (h : CacheInv s) :
    ∃ r s', randGen sha s = .ok (r, s') ∧ CacheInv s' ∧ s'.type = s.type := by
  obtain ⟨h1, h2⟩ := h
  by_cases hp : 0 < s.cacheAvail
  · refine ⟨_, _, randGen_pop sha s hp h2, ⟨?_, ?_⟩, rfl⟩
    · simp only; omega
    · simp only; omega
  · unfold randGen
    simp only [h1, h2, and_self, not_true_eq_false, if_false, gt_iff_lt, hp]
    exact ⟨_, _, rfl, ⟨by simp, by simp⟩, rfl⟩

theorem uRandGen_inv (sha : List Nat → List Nat) (F : Fp) (s : RngState) (upper lower : Nat)
    (h : CacheInv s) :
    ∃ r s', uRandGen sha F s upper lower = .ok (r, s') ∧ CacheInv s' ∧ s'.type = s.type := by
  obtain ⟨r, s', e, hi, ht⟩ := randGen_inv sha s h
  unfold uRandGen
  rw [e]
  exact ⟨_, _, rfl, hi, ht⟩

theorem gRandGenLoop_inv (sha : List Nat → List Nat) (F : Fp) :
    ∀ (fuel : Nat) (num_try : Int) (s : RngState), 0 < fuel → 10000 - num_try ≤ fuel →
      CacheInv s →
      ∃ n v1 v2 rsq s', gRandGenLoop sha F fuel num_try s = .ok (n, v1, v2, rsq, s') ∧
        CacheInv s' ∧ s'.type = s.type := by
  intro fuel
  induction fuel with
  | zero => intro _ _ h; omega
  | succ fuel ih =>
    intro num_try s _ hf hs
    obtain ⟨v1, s1, e1, hi1, ht1⟩ := uRandGen_inv sha F s dbl_1 dbl_m1 hs
    obtain ⟨v2, s2, e2, hi2, ht2⟩ := uRandGen_inv sha F s1 dbl_1 dbl_m1 hi1
    unfold gRandGenLoop
    simp only [e1, e2, bind, Except.bind]
    split
    · rename_i hc
      obtain ⟨n, w1, w2, rsq, s', e, hi, ht⟩ :=
        ih (num_try + 1) s2 (by omega) (by push_cast at hf ⊢; omega) hi2
      exact ⟨n, w1, w2, rsq, s', e, hi, by rw [ht, ht2, ht1]⟩
    · exact ⟨_, _, _, _, _, rfl, hi2, by rw [ht2, ht1]⟩

theorem gRandGen_inv (sha : List Nat → List Nat) (F : Fp) (s : RngState) (center sigma : Nat)
    (h : CacheInv s) :
    ∃ r s', gRandGen sha F s center sigma = .ok (r, s') ∧ CacheInv s' ∧ s'.type = s.type := by
  obtain ⟨nb, hash, ty, idx, cache, g, ca, ga⟩ := s
  cases ga
  · obtain ⟨n, v1, v2, rsq, s', e, hi, ht⟩ :=
      gRandGenLoop_inv sha F 10000 1 ⟨nb, hash, ty, (idx + 1) % 2 ^ 64, cache, g, ca, false⟩
        (by norm_num) (by norm_num) h
    simp only [gRandGen, Bool.false_eq_true, if_false]
    rw [e]
    simp only [bind, Except.bind]
    split
    · exact ⟨_, _, rfl, hi, ht⟩
    · exact ⟨_, _, rfl, hi, ht⟩
  · simp only [gRandGen, if_true]
    exact ⟨_, _, rfl, h, rfl⟩

theorem splitRngStateAt_cacheAvail (sha : List Nat → List Nat) (m : Mem) (a b : Nat)
    (l : List Nat) : (splitRngStateAt sha m b a l b).cacheAvail = 0 := by
  simp [splitRngStateAt, Mem.write]

theorem Op.apply_inv (sha : List Nat → List Nat) (F : Fp) (s s' : RngState) (op : Op)
    (h : CacheInv s) (hok : op.apply sha F s = .ok s') : CacheInv s' := by
  have hz : ∀ r : RngState, r.cacheAvail = 0 → CacheInv r := by
    intro r hr; unfold CacheInv; rw [hr]; decide
  cases op with
  | reset =>
    simp only [Op.apply, Except.ok.injEq] at hok
    subst hok; exact hz _ rfl
  | resetSeed seed =>
    simp only [Op.apply, Except.ok.injEq] at hok
    subst hok; exact hz _ (splitRngStateAt_cacheAvail sha _ 0 0 seed)
  | splitSelf l =>
    simp only [Op.apply, Except.ok.injEq] at hok
    subst hok; exact hz _ (splitRngStateAt_cacheAvail sha _ 0 0 l)
  | split dst l =>
    simp only [Op.apply, Except.ok.injEq] at hok
    subst hok; exact hz _ (splitRngStateAt_cacheAvail sha _ 1 0 l)
  | setType t =>
    simp only [Op.apply, qrngstate.setType] at hok
    split at hok
    · cases hok
    · split at hok
      · cases hok
      · simp only [Except.ok.injEq] at hok
        subst hok; exact hz _ rfl
  | randGen =>
    obtain ⟨r, s1, e, hi, _⟩ := randGen_inv sha s h
    simp only [Op.apply, e, Except.map, Except.ok.injEq] at hok
    subst hok; exact hi
  | uRandGen upper lower =>
    obtain ⟨r, s1, e, hi, _⟩ := uRandGen_inv sha F s upper lower h
    simp only [Op.apply, e, Except.map, Except.ok.injEq] at hok
    subst hok; exact hi
  | gRandGen center sigma =>
    obtain ⟨r, s1, e, hi, _⟩ := gRandGen_inv sha F s center sigma h
    simp only [Op.apply, e, Except.map, Except.ok.injEq] at hok
    subst hok; exact hi

theorem Op.apply_ok (sha : List Nat → List Nat) (F : Fp) (s : RngState) (op : Op)
    (h : CacheInv s) (hop : op.isSetType = false) : ∃ s', op.apply sha F s = .ok s' := by
  cases op with
  | reset => exact ⟨_, rfl⟩
  | resetSeed seed => exact ⟨_, rfl⟩
  | splitSelf l => exact ⟨_, rfl⟩
  | split dst l => exact ⟨_, rfl⟩
  | setType t => simp [Op.isSetType] at hop
  | randGen =>
    obtain ⟨r, s1, e, _, _⟩ := randGen_inv sha s h
    exact ⟨s1, by simp only [Op.apply, e, Except.map]⟩
  | uRandGen upper lower =>
    obtain ⟨r, s1, e, _, _⟩ := uRandGen_inv sha F s upper lower h
    exact ⟨s1, by simp only [Op.apply, e, Except.map]⟩
  | gRandGen center sigma =>
    obtain ⟨r, s1, e, _, _⟩ := gRandGen_inv sha F s center sigma h
    exact ⟨s1, by simp only [Op.apply, e, Except.map]⟩

theorem run_inv (sha : List Nat → List Nat) (F : Fp) :
    ∀ (ops : List Op) (s s' : RngState), CacheInv s → run sha F ops s = .ok s' →
      CacheInv s' := by
  intro ops
  induction ops with
  | nil =>
    intro s s' h hr
    simp only [run, Except.ok.injEq] at hr
    subst hr; exact h
  | cons op ops ih =>
    intro s s' h hr
    simp only [run, bind, Except.bind] at hr
    split at hr
    · cases hr
    · rename_i s1 e
      exact ih s1 s' (Op.apply_inv sha F s s1 op h e) hr

/-- C8 (range of `cacheAvail`). In every state `s` reached from `reset(rs)` or
`reset(rs, seed)` by a finite sequence of calls of `reset`, `splitRngState`, `setType`
(with its preconditions holding, so that the call returns), `randGen`, `uRandGen` and
`gRandGen`: `0 <= cacheAvail <= 3`; `randGen` passes its assertion and returns; the index
`cacheAvail - 1` read by the pop branch lies in `0..2`; and every call other than
`setType` returns. -/
theorem cacheAvail_in_range (sha : List Nat → List Nat) (F : Fp) (rs0 init s : RngState)
    (seed : List Nat) (ops : List Op)
    (hinit : init = reset rs0 ∨ init = resetSeed sha rs0 seed)
    (hrun : run sha F ops init = .ok s) :
    0 ≤ s.cacheAvail ∧ s.cacheAvail ≤ 3 ∧
    (∃ r s', randGen sha s = .ok (r, s')) ∧
    (0 < s.cacheAvail → 0 ≤ s.cacheAvail - 1 ∧ s.cacheAvail - 1 ≤ 2) ∧
    (∀ op : Op, op.isSetType = false → ∃ s', op.apply sha F s = .ok s') := by
  have h0 : CacheInv init := by
    rcases hinit with e | e
    · have : init.cacheAvail = 0 := by rw [e]; rfl
      unfold CacheInv; rw [this]; decide
    · have : init.cacheAvail = 0 := by
        rw [e]; exact splitRngStateAt_cacheAvail sha _ 0 0 seed
      unfold CacheInv; rw [this]; decide
  have hs : CacheInv s := run_inv sha F ops init s h0 hrun
  obtain ⟨r, s', e, _, _⟩ := randGen_inv sha s hs
  refine ⟨hs.1, hs.2, ⟨r, s', e⟩, ?_, fun op hop => Op.apply_ok sha F s op hs hop⟩
  intro hp
  have := hs.2
  omega

theorem cacheAvail_in_range_witness :
    ((resetSeed demoSha demoState [97] = reset demoState ∨
        resetSeed demoSha demoState [97] = resetSeed demoSha demoState [97]) ∧
      run demoSha demoFp demoOps (resetSeed demoSha demoState [97]) = .ok demoFinal) ∧
    (0 ≤ demoFinal.cacheAvail ∧ demoFinal.cacheAvail ≤ 3 ∧
      (∃ r s', randGen demoSha demoFinal = .ok (r, s')) ∧
      (0 < demoFinal.cacheAvail → 0 ≤ demoFinal.cacheAvail - 1 ∧ demoFinal.cacheAvail - 1 ≤ 2) ∧
      (∀ op : Op, op.isSetType = false → ∃ s', op.apply demoSha demoFp demoFinal = .ok s')) :=
  ⟨⟨Or.inr rfl, rfl⟩,
    cacheAvail_in_range demoSha demoFp demoState (resetSeed demoSha demoState [97]) demoFinal
      [97] demoOps (Or.inr rfl) rfl⟩

theorem randGen_err (sha : List Nat → List Nat) (s : RngState) (h : ¬ CacheInv s) :
    randGen sha s = .error (.assertion s) := by
  unfold randGen
  unfold CacheInv at h
  rw [if_pos h]

theorem uRandGen_err (sha : List Nat → List Nat) (F : Fp) (s : RngState) (upper lower : Nat)
    (h : ¬ CacheInv s) : uRandGen sha F s upper lower = .error (.assertion s) := by
  unfold uRandGen
  rw [randGen_err sha s h]
  rfl

theorem gRandGenLoop_err (sha : List Nat → List Nat) (F : Fp) (fuel : Nat) (num_try : Int)
    (s : RngState) (h : ¬ CacheInv s) :
    ∃ e, gRandGenLoop sha F fuel num_try s = .error e := by
  cases fuel with
  | zero => exact ⟨_, rfl⟩
  | succ fuel =>
    unfold gRandGenLoop
    rw [uRandGen_err sha F s _ _ h]
    exact ⟨_, rfl⟩

theorem gRandGen_type (sha : List Nat → List Nat) (F : Fp) (s s' : RngState)
    (center sigma r : Nat) (hok : gRandGen sha F s center sigma = .ok (r, s')) :
    s'.type = s.type := by
  by_cases h : CacheInv s
  · obtain ⟨r1, s1, e, _, ht⟩ := gRandGen_inv sha F s center sigma h
    rw [e] at hok
    simp only [Except.ok.injEq, Prod.mk.injEq] at hok
    rw [← hok.2]; exact ht
  · obtain ⟨nb, hash, ty, idx, cache, g, ca, ga⟩ := s
    cases ga
    · obtain ⟨e, he⟩ := gRandGenLoop_err sha F 10000 1
        ⟨nb, hash, ty, (idx + 1) % 2 ^ 64, cache, g, ca, false⟩ h
      simp only [gRandGen, Bool.false_eq_true, if_false] at hok
      rw [he] at hok
      cases hok
    · simp only [gRandGen, if_true, Except.ok.injEq, Prod.mk.injEq] at hok
      rw [← hok.2]

theorem Op.apply_gen_type (sha : List Nat → List Nat) (F : Fp) (s s' : RngState) (op : Op)
    (hop : op.isGen = true) (hok : op.apply sha F s = .ok s') : s'.type = s.type := by
  cases op with
  | reset => simp [Op.isGen] at hop
  | resetSeed seed => simp [Op.isGen] at hop
  | splitSelf l => simp [Op.isGen] at hop
  | split dst l => simp [Op.isGen] at hop
  | setType t => simp [Op.isGen] at hop
  | randGen =>
    by_cases h : CacheInv s
    · obtain ⟨r, s1, e, _, ht⟩ := randGen_inv sha s h
      simp only [Op.apply, e, Except.map, Except.ok.injEq] at hok
      subst hok; exact ht
    · simp only [Op.apply, randGen_err sha s h, Except.map] at hok
      cases hok
  | uRandGen upper lower =>
    by_cases h : CacheInv s
    · obtain ⟨r, s1, e, _, ht⟩ := uRandGen_inv sha F s upper lower h
      simp only [Op.apply, e, Except.map, Except.ok.injEq] at hok
      subst hok; exact ht
    · simp only [Op.apply, uRandGen_err sha F s _ _ h, Except.map] at hok
      cases hok
  | gRandGen center sigma =>
    simp only [Op.apply, Except.map] at hok
    split at hok
    · cases hok
    · rename_i v e
      simp only [Except.ok.injEq] at hok
      subst hok
      exact gRandGen_type sha F s v.2 center sigma v.1 e

theorem run_gen_type (sha : List Nat → List Nat) (F : Fp) :
    ∀ (ops : List Op) (s s' : RngState), (∀ op ∈ ops, op.isGen = true) →
      run sha F ops s = .ok s' → s'.type = s.type := by
  intro ops
  induction ops with
  | nil =>
    intro s s' _ hr
    simp only [run, Except.ok.injEq] at hr
    rw [hr]
  | cons op ops ih =>
    intro s s' hg hr
    simp only [run, bind, Except.bind] at hr
    split at hr
    · cases hr
    · rename_i s1 e
      rw [ih s1 s' (fun o ho => hg o (List.mem_cons_of_mem _ ho)) hr]
      exact Op.apply_gen_type sha F s s1 op (hg op (List.mem_cons_self _ _)) e

theorem setType_ok (rs : RngState) (t : Nat) (h1 : rs.type = ULONG_MAX) (h2 : t ≠ ULONG_MAX) :
    setType rs t = .ok { rs with type := t, cacheAvail := 0, gaussianAvail := false } := by
  unfold setType
  rw [if_neg (fun h => h h1.symm), if_neg (fun h => h2 h.symm)]

theorem setType_abort (rs : RngState) (t : Nat) (h : ¬ (rs.type = ULONG_MAX ∧ t ≠ ULONG_MAX)) :
    setType rs t = .error (.assertion rs) := by
  unfold setType
  by_cases h1 : rs.type = ULONG_MAX
  · have h2 : ULONG_MAX = t := by
      by_contra hne
      exact h ⟨h1, fun e => hne e.symm⟩
    rw [if_neg (fun h => h h1.symm), if_pos h2]
  · rw [if_pos (fun e => h1 e.symm)]

/-- C9 (type assignment succeeds once). `setType(rs, t)` returns if and only if
`rs.type` is the sentinel `ULONG_MAX` and `t` is not `ULONG_MAX`; in every other case it
ends in an assertion failure with the record `rs` untouched. In particular, after a call
that returned, a second assignment fails and leaves the record untouched, both right
away and after any calls of `randGen`, `uRandGen` and `gRandGen` in between. -/
theorem setType_succeeds_iff (rs : RngState) (t : Nat) :
    ((∃ rs', setType rs t = .ok rs') ↔ (rs.type = ULONG_MAX ∧ t ≠ ULONG_MAX)) ∧
    (¬ (rs.type = ULONG_MAX ∧ t ≠ ULONG_MAX) → setType rs t = .error (.assertion rs)) ∧
    (∀ rs' t2, setType rs t = .ok rs' → setType rs' t2 = .error (.assertion rs')) ∧
    (∀ (sha : List Nat → List Nat) (F : Fp) (ops : List Op) (rs' rs'' : RngState) (t2 : Nat),
      setType rs t = .ok rs' → (∀ op ∈ ops, op.isGen = true) →
      run sha F ops rs' = .ok rs'' → setType rs'' t2 = .error (.assertion rs'')) := by
  have key : ∀ rs', setType rs t = .ok rs' → rs'.type ≠ ULONG_MAX := by
    intro rs' h
    by_cases hp : rs.type = ULONG_MAX ∧ t ≠ ULONG_MAX
    · rw [setType_ok rs t hp.1 hp.2] at h
      simp only [Except.ok.injEq] at h
      rw [← h]; exact hp.2
    · rw [setType_abort rs t hp] at h
      cases h
  refine ⟨⟨?_, ?_⟩, setType_abort rs t, ?_, ?_⟩
  · rintro ⟨rs', h⟩
    by_contra hp
    rw [setType_abort rs t hp] at h
    cases h
  · intro hp
    exact ⟨_, setType_ok rs t hp.1 hp.2⟩
  · intro rs' t2 h
    exact setType_abort rs' t2 (fun hp => key rs' h hp.1)
  · intro sha F ops rs' rs'' t2 h hg hr
    apply setType_abort
    intro hp
    rw [run_gen_type sha F ops rs' rs'' hg hr] at hp
    exact key rs' h hp.1

/-- C10, as stated, fails: on the stream seeded with `"a"` (example hash engine and
arithmetic), after one `randGen` and one `gRandGen` the type is still unset, cache slot 0
holds `154618822693` and `gaussian` holds the pattern of `1.0`; `setType(rs, 5)` then
returns with that cache word and that `gaussian` still in place: the cache slots are not
all 0 and `gaussian` is not `0.0`. -/
theorem setType_keeps_stale_cache :
    (run demoSha demoFp [.randGen, .gRandGen dbl_0 dbl_1] demoSeeded).toOption.map
        (fun s => (s.type, s.cache, s.gaussian))
      = some (ULONG_MAX, [154618822693, 0, 0], dbl_1) ∧
    (run demoSha demoFp [.randGen, .gRandGen dbl_0 dbl_1, .setType 5] demoSeeded).toOption.map
        (fun s => (s.type, s.cache, s.gaussian, s.cacheAvail, s.gaussianAvail))
      = some (5, [154618822693, 0, 0], dbl_1, 0, false) ∧
    (run demoSha demoFp [.randGen, .gRandGen dbl_0 dbl_1, .setType 5] demoSeeded).toOption.map
        (fun s => s.cache) ≠ some [0, 0, 0] ∧
    (run demoSha demoFp [.randGen, .gRandGen dbl_0 dbl_1, .setType 5] demoSeeded).toOption.map
        (fun s => s.gaussian) ≠ some dbl_0 := by
  decide

/-- C10, amended. For every state `rs` with `type` unset and every `t != ULONG_MAX`,
`setType(rs, t)` sets `type` to `t`, `cacheAvail` to 0 and `gaussianAvail` to false, and
changes no other field: `hash`, `numBytes`, `index`, the three cache slots and `gaussian`
keep their values (both caches are emptied by their counters, their contents are not
zeroed). -/
theorem setType_effect (rs : RngState) (t : Nat) (h1 : rs.type = ULONG_MAX)
    (h2 : t ≠ ULONG_MAX) :
    setType rs t = .ok
      { numBytes := rs.numBytes, hash := rs.hash, type := t, index := rs.index,
        cache := rs.cache, gaussian := rs.gaussian, cacheAvail := 0, gaussianAvail := false } :=
  setType_ok rs t h1 h2

theorem setType_effect_witness :
    (demoSeeded.type = ULONG_MAX ∧ 5 ≠ ULONG_MAX) ∧
    setType demoSeeded 5 = .ok
      { numBytes := demoSeeded.numBytes, hash := demoSeeded.hash, type := 5,
        index := demoSeeded.index, cache := demoSeeded.cache, gaussian := demoSeeded.gaussian,
        cacheAvail := 0, gaussianAvail := false } :=
  ⟨by decide, setType_effect demoSeeded 5 (by decide) (by decide)⟩

/-! ## The cached path of `gRandGen` -/

/-- C12 (cached Gaussian). For every state `rs` with `gaussianAvail = true`,
`gRandGen(rs, center, sigma)` returns `rs.gaussian * sigma + center`, sets `gaussianAvail`
to false, increments `index` by 1 (modulo `2^64`) and leaves `hash`, `numBytes`, `type`,
the cache slots, `cacheAvail` and `gaussian` as they were; the result is the same for
every hash engine (no hash is computed, no word is drawn). In particular, when a call
without a cached Gaussian leaves its loop with `num_try <= 9999` (a success), it returns
with `gaussianAvail = true`, and the next call takes this path. -/
theorem gRandGen_cached_spec (sha : List Nat → List Nat) (F : Fp) (rs : RngState)
    (center sigma : Nat) (h : rs.gaussianAvail = true) :
    gRandGen sha F rs center sigma = .ok (F.add (F.mul rs.gaussian sigma) center,
      { numBytes := rs.numBytes, hash := rs.hash, type := rs.type,
        index := (rs.index + 1) % 2 ^ 64, cache := rs.cache, gaussian := rs.gaussian,
        cacheAvail := rs.cacheAvail, gaussianAvail := false }) ∧
    (∀ sha1 : List Nat → List Nat,
      gRandGen sha1 F rs center sigma = gRandGen sha F rs center sigma) ∧
    (∀ (rs0 s1 : RngState) (c0 g0 v1 v2 rsq : Nat) (n : Int),
      rs0.gaussianAvail = false →
      gRandGenLoop sha F 10000 1 { rs0 with index := (rs0.index + 1) % 2 ^ 64 }
        = .ok (n, v1, v2, rsq, s1) →
      n ≤ 9999 →
      ∃ r rs1, gRandGen sha F rs0 c0 g0 = .ok (r, rs1) ∧ rs1.gaussianAvail = true ∧
        gRandGen sha F rs1 center sigma = .ok (F.add (F.mul rs1.gaussian sigma) center,
          { rs1 with index := (rs1.index + 1) % 2 ^ 64, gaussianAvail := false })) := by
  have cached : ∀ (sha1 : List Nat → List Nat) (r : RngState) (c s : Nat),
      r.gaussianAvail = true →
      gRandGen sha1 F r c s = .ok (F.add (F.mul r.gaussian s) c,
        { r with index := (r.index + 1) % 2 ^ 64, gaussianAvail := false }) := by
    intro sha1 r c s hr
    unfold gRandGen
    simp only [hr, if_true]
  refine ⟨cached sha rs center sigma h, ?_, ?_⟩
  · intro sha1
    rw [cached sha1 rs center sigma h, cached sha rs center sigma h]
  · intro rs0 s1 c0 g0 v1 v2 rsq n h0 hl hn
    obtain ⟨nb, hash, ty, idx, cache, g, ca, ga⟩ := rs0
    simp only at h0
    subst h0
    have e : gRandGen sha F ⟨nb, hash, ty, idx, cache, g, ca, false⟩ c0 g0 = .ok
        (F.add (F.mul (F.mul v2 (F.sqrt (F.div (F.mul dbl_m2 (F.log rsq)) rsq))) g0) c0,
          { s1 with
            gaussian := F.mul v1 (F.sqrt (F.div (F.mul dbl_m2 (F.log rsq)) rsq)) % 2 ^ 64,
            gaussianAvail := true }) := by
      simp only [gRandGen, Bool.false_eq_true, if_false]
      rw [hl]
      simp only [bind, Except.bind]
      rw [if_neg (by omega)]
      rfl
    exact ⟨_, _, e, rfl, cached sha _ center sigma rfl⟩

theorem gRandGen_cached_spec_witness :
    demoState.gaussianAvail = true ∧
    (gRandGen demoSha demoFp demoState dbl_0 dbl_1
        = .ok (demoFp.add (demoFp.mul demoState.gaussian dbl_1) dbl_0,
      { numBytes := demoState.numBytes, hash := demoState.hash, type := demoState.type,
        index := (demoState.index + 1) % 2 ^ 64, cache := demoState.cache,
        gaussian := demoState.gaussian, cacheAvail := demoState.cacheAvail,
        gaussianAvail := false }) ∧
    (∀ sha1 : List Nat → List Nat,
      gRandGen sha1 demoFp demoState dbl_0 dbl_1
        = gRandGen demoSha demoFp demoState dbl_0 dbl_1) ∧
    (∀ (rs0 s1 : RngState) (c0 g0 v1 v2 rsq : Nat) (n : Int),
      rs0.gaussianAvail = false →
      gRandGenLoop demoSha demoFp 10000 1 { rs0 with index := (rs0.index + 1) % 2 ^ 64 }
        = .ok (n, v1, v2, rsq, s1) →
      n ≤ 9999 →
      ∃ r rs1, gRandGen demoSha demoFp rs0 c0 g0 = .ok (r, rs1) ∧ rs1.gaussianAvail = true ∧
        gRandGen demoSha demoFp rs1 dbl_0 dbl_1
          = .ok (demoFp.add (demoFp.mul rs1.gaussian dbl_1) dbl_0,
          { rs1 with index := (rs1.index + 1) % 2 ^ 64, gaussianAvail := false }))) :=
  ⟨by decide, gRandGen_cached_spec demoSha demoFp demoState dbl_0 dbl_1 (by decide)⟩

/-! ## Import from a vector -/

/-- C15 (length check of the vector import). `importRngState(rs, v)` on a vector `v`
returns if and only if `v` has exactly 24 elements; for every other length it ends in the
assertion failure with the destination `rs` as it was. -/
theorem importRngStateVec_succeeds_iff (rs : RngState) (v : List Nat) :
    ((∃ rs', importRngStateVec rs v = .ok rs') ↔ v.length = 24) ∧
    (v.length ≠ 24 → importRngStateVec rs v = .error (.assertion rs)) := by
  have hok : ∃ rs', importRngState rs v = .ok rs' := by
    unfold importRngState
    rw [if_neg (by decide)]
    exact ⟨_, rfl⟩
  have habort : v.length ≠ 24 → importRngStateVec rs v = .error (.assertion rs) := by
    intro hv
    unfold importRngStateVec
    rw [if_pos (fun e => hv e.symm)]
  refine ⟨⟨?_, ?_⟩, habort⟩
  · rintro ⟨rs', h⟩
    by_contra hv
    rw [habort hv] at h
    cases h
  · intro hv
    unfold importRngStateVec
    rw [if_neg (by rw [hv]; decide)]
    exact hok

/-! ## The reverse round trip -/

theorem hi32_patchTwoUint32 {a b : Nat} (ha : a < 2 ^ 32) (hb : b < 2 ^ 32) :
    hi32 (patchTwoUint32 a b) = a := by
  rw [patchTwoUint32_eq_add ha hb]
  unfold hi32
  rw [Nat.shiftRight_eq_div_pow]
  omega

theorem lo32_patchTwoUint32 {a b : Nat} (ha : a < 2 ^ 32) (hb : b < 2 ^ 32) :
    lo32 (patchTwoUint32 a b) = b := by
  rw [patchTwoUint32_eq_add ha hb]
  unfold lo32
  omega

theorem toUint32_toInt32 {x : Nat} (h : x < 2 ^ 32) : toUint32 (toInt32 x) = x := by
  unfold toUint32 toInt32
  rw [Nat.mod_eq_of_lt h]
  split <;> omega

theorem toInt32_range (x : Nat) : -(2 ^ 31) ≤ toInt32 x ∧ toInt32 x < 2 ^ 31 := by
  unfold toInt32
  split <;> omega

theorem length_eq_24 {l : List Nat} (h : l.length = 24) :
    ∃ x0 x1 x2 x3 x4 x5 x6 x7 x8 x9 x10 x11 x12 x13 x14 x15 x16 x17 x18 x19 x20 x21 x22 x23,
      l = [x0, x1, x2, x3, x4, x5, x6, x7, x8, x9, x10, x11, x12, x13, x14, x15, x16, x17,
        x18, x19, x20, x21, x22, x23] := by
  match l, h with
  | [x0, x1, x2, x3, x4, x5, x6, x7, x8, x9, x10, x11, x12, x13, x14, x15, x16, x17,
        x18, x19, x20, x21, x22, x23], _ =>
    exact ⟨x0, x1, x2, x3, x4, x5, x6, x7, x8, x9, x10, x11, x12, x13, x14, x15, x16, x17,
        x18, x19, x20, x21, x22, x23, rfl⟩

theorem importRngState_eq (d : RngState) (v : List Nat) (hd1 : d.hash.length = 8)
    (hd2 : d.cache.length = 3) : importRngState d v = .ok (importedState v) := by
  obtain ⟨dnb, dhash, dty, didx, dcache, dg, dca, dga⟩ := d
  simp only at hd1 hd2
  obtain ⟨b0, b1, b2, b3, b4, b5, b6, b7, rfl⟩ := length_eq_eight hd1
  obtain ⟨e0, e1, e2, rfl⟩ := length_eq_three hd2
  simp [importRngState, importedState, RNG_STATE_NUM_OF_INT32, List.range, List.range.loop]

theorem importedState_WF (v : List Nat) (hw : ∀ i, v.getD i 0 < 2 ^ 32) :
    (importedState v).WF := by
  have hp : ∀ i j, patchTwoUint32 (v.getD i 0) (v.getD j 0) < 2 ^ 64 :=
    fun i j => patchTwoUint32_lt (hw i) (hw j)
  refine ⟨hp _ _, by simp [importedState], ?_, hp _ _, hp _ _, by simp [importedState], ?_,
    hp _ _, (toInt32_range _).1, (toInt32_range _).2⟩
  · intro x hx
    simp only [importedState, List.mem_map] at hx
    obtain ⟨i, _, rfl⟩ := hx
    exact hw _
  · intro x hx
    simp only [importedState, List.mem_map] at hx
    obtain ⟨i, _, rfl⟩ := hx
    exact hp _ _

theorem exportWords_importedState (v : List Nat) (hv : v.length = 24)
    (hw : ∀ x ∈ v, x < 2 ^ 32) :
    exportWords (importedState v) = v.take 23 ++ [if v.getD 23 0 ≠ 0 then 1 else 0] := by
  obtain ⟨x0, x1, x2, x3, x4, x5, x6, x7, x8, x9, x10, x11, x12, x13, x14, x15, x16, x17,
    x18, x19, x20, x21, x22, x23, rfl⟩ := length_eq_24 hv
  simp only [List.mem_cons, List.mem_singleton, List.not_mem_nil, or_false,
    forall_eq_or_imp, forall_eq] at hw
  obtain ⟨h0, h1, h2, h3, h4, h5, h6, h7, h8, h9, h10, h11, h12, h13, h14, h15, h16, h17,
    h18, h19, h20, h21, h22, h23⟩ := hw
  simp [exportWords, importedState, List.range, List.range.loop, hi32_patchTwoUint32 h0 h1, lo32_patchTwoUint32 h0 h1, hi32_patchTwoUint32 h10 h11, lo32_patchTwoUint32 h10 h11, hi32_patchTwoUint32 h12 h13, lo32_patchTwoUint32 h12 h13, hi32_patchTwoUint32 h14 h15, lo32_patchTwoUint32 h14 h15, hi32_patchTwoUint32 h16 h17, lo32_patchTwoUint32 h16 h17, hi32_patchTwoUint32 h18 h19, lo32_patchTwoUint32 h18 h19, hi32_patchTwoUint32 h20 h21, lo32_patchTwoUint32 h20 h21,
    toUint32_toInt32 h22]

/-- C20 (reverse round trip). For every buffer `v` of 24 words below `2^32`,
`importRngState` returns a state `s` whose `cacheAvail` is the two's-complement reading of
`v[22]` and whose `gaussian` is the pattern `v[20], v[21]`. When `v[23]` is 0 or 1,
`exportRngState` of `s` reproduces `v` word for word (in a buffer nothing else changes;
the vector overload returns `v`). When `v[23] >= 2`, the exported word 23 is 1, the words
0 to 22 are those of `v`, and the buffer is not reproduced. -/
theorem export_import_roundtrip (v buf : List Nat) (d : RngState) (hv : v.length = 24)
    (hw : ∀ x ∈ v, x < 2 ^ 32) (hd1 : d.hash.length = 8) (hd2 : d.cache.length = 3)
    (hb : 24 ≤ buf.length) :
    ∃ s, importRngState d v = .ok s ∧ importRngStateVec d v = .ok s ∧
      s.cacheAvail = toInt32 (v.getD 22 0) ∧
      s.gaussian = patchTwoUint32 (v.getD 20 0) (v.getD 21 0) ∧
      (v.getD 23 0 = 0 ∨ v.getD 23 0 = 1 →
        exportRngState buf s = some (v ++ buf.drop 24) ∧ exportRngStateVec buf s = some v) ∧
      (2 ≤ v.getD 23 0 →
        ∃ w, exportRngStateVec buf s = some w ∧ w.getD 23 0 = 1 ∧ w.take 23 = v.take 23 ∧
          w ≠ v) := by
  have hwf : (importedState v).WF := by
    apply importedState_WF
    intro i
    rw [List.getD_eq_getElem?_getD]
    rcases h : v[i]? with _ | x
    · simp
    · exact hw x (List.getElem?_mem h)
  have himp := importRngState_eq d v hd1 hd2
  have hvec : importRngStateVec d v = .ok (importedState v) := by
    unfold importRngStateVec
    rw [if_neg (by rw [hv]; decide)]
    exact himp
  have hex := exportRngState_eq buf _ hwf hb
  have hr : 24 ≤ (resize buf RNG_STATE_NUM_OF_INT32).length := by
    simp [resize, RNG_STATE_NUM_OF_INT32]; omega
  have hl : (resize buf RNG_STATE_NUM_OF_INT32).length = 24 := by
    simp [resize, RNG_STATE_NUM_OF_INT32]; omega
  have hexv : exportRngStateVec buf (importedState v) = some (exportWords (importedState v)) := by
    unfold exportRngStateVec
    rw [exportRngState_eq _ _ hwf hr, List.drop_of_length_le (by omega), List.append_nil]
  have hwords := exportWords_importedState v hv hw
  have hlast : v = v.take 23 ++ [v.getD 23 0] := by
    obtain ⟨x0, x1, x2, x3, x4, x5, x6, x7, x8, x9, x10, x11, x12, x13, x14, x15, x16, x17,
      x18, x19, x20, x21, x22, x23, rfl⟩ := length_eq_24 hv
    rfl
  have ht : (v.take 23).length = 23 := by simp [hv]
  have hget : ∀ z : Nat, (v.take 23 ++ [z]).getD 23 0 = z := by
    intro z
    rw [List.getD_append_right _ _ _ _ (by omega), ht]
    rfl
  have htake : ∀ z : Nat, (v.take 23 ++ [z]).take 23 = v.take 23 := by
    intro z
    rw [List.take_append_of_le_length (by omega), List.take_take]
    rfl
  refine ⟨_, himp, hvec, rfl, rfl, ?_, ?_⟩
  · intro h01
    have e : exportWords (importedState v) = v := by
      rw [hwords]
      conv_rhs => rw [hlast]
      rcases h01 with h | h <;> rw [h] <;> rfl
    rw [hex, hexv, e]
    exact ⟨rfl, rfl⟩
  · intro h2
    have hne : v.getD 23 0 ≠ 0 := by omega
    rw [if_pos hne] at hwords
    refine ⟨_, hexv, ?_, ?_, ?_⟩
    · rw [hwords]; exact hget 1
    · rw [hwords]; exact htake 1
    · intro e
      have h23 : (exportWords (importedState v)).getD 23 0 = 1 := by
        rw [hwords]; exact hget 1
      rw [e] at h23
      omega

theorem export_import_roundtrip_witness :
    ((List.range 23 ++ [1]).length = 24 ∧ (∀ x ∈ List.range 23 ++ [1], x < 2 ^ 32) ∧
      demoState.hash.length = 8 ∧ demoState.cache.length = 3 ∧
      24 ≤ (List.replicate 30 7).length) ∧
    ∃ s, importRngState demoState (List.range 23 ++ [1]) = .ok s ∧
      importRngStateVec demoState (List.range 23 ++ [1]) = .ok s ∧
      s.cacheAvail = toInt32 ((List.range 23 ++ [1]).getD 22 0) ∧
      s.gaussian = patchTwoUint32 ((List.range 23 ++ [1]).getD 20 0)
        ((List.range 23 ++ [1]).getD 21 0) ∧
      ((List.range 23 ++ [1]).getD 23 0 = 0 ∨ (List.range 23 ++ [1]).getD 23 0 = 1 →
        exportRngState (List.replicate 30 7) s
            = some ((List.range 23 ++ [1]) ++ (List.replicate 30 7).drop 24) ∧
          exportRngStateVec (List.replicate 30 7) s = some (List.range 23 ++ [1])) ∧
      (2 ≤ (List.range 23 ++ [1]).getD 23 0 →
        ∃ w, exportRngStateVec (List.replicate 30 7) s = some w ∧ w.getD 23 0 = 1 ∧
          w.take 23 = (List.range 23 ++ [1]).take 23 ∧ w ≠ List.range 23 ++ [1]) :=
  ⟨by decide, export_import_roundtrip (List.range 23 ++ [1]) (List.replicate 30 7) demoState
    (by decide) (by decide) (by decide) (by decide) (by decide)⟩

/-! ## Decimal text -/

theorem decVal_append_singleton (l : List Nat) (c : Nat) :
    decVal (l ++ [c]) = 10 * decVal l + (c - 48) := by
  simp [decVal, List.foldl_append]

theorem fmtLuAux_spec : ∀ (fuel n : Nat) (acc : List Nat), n < fuel →
    ∃ ds, fmtLuAux fuel n acc = ds ++ acc ∧ ds ≠ [] ∧ (∀ c ∈ ds, isDigit c = true) ∧
      decVal ds = n := by
  intro fuel
  induction fuel with
  | zero => intro n acc h; omega
  | succ fuel ih =>
    intro n acc h
    unfold fmtLuAux
    by_cases h0 : n / 10 = 0
    · rw [if_pos h0]
      refine ⟨[48 + n % 10], rfl, by simp, ?_, ?_⟩
      · intro c hc
        simp only [List.mem_singleton] at hc
        subst hc
        simp only [isDigit, Bool.and_eq_true, decide_eq_true_eq]
        omega
      · simp only [decVal, List.foldl]
        omega
    · rw [if_neg h0]
      obtain ⟨ds, e, _, hd, hv⟩ := ih (n / 10) ((48 + n % 10) :: acc) (by omega)
      refine ⟨ds ++ [48 + n % 10], by rw [e]; simp, by simp, ?_, ?_⟩
      · intro c hc
        rcases List.mem_append.1 hc with hc | hc
        · exact hd c hc
        · simp only [List.mem_singleton] at hc
          subst hc
          simp only [isDigit, Bool.and_eq_true, decide_eq_true_eq]
          omega
      · rw [decVal_append_singleton, hv]
        omega

theorem fmtLu_ne_nil (n : Nat) : fmtLu n ≠ [] := by
  obtain ⟨ds, e, h, _, _⟩ := fmtLuAux_spec (n + 1) n [] (by omega)
  unfold fmtLu
  rw [e, List.append_nil]
  exact h

theorem fmtLu_isDigit (n : Nat) : ∀ c ∈ fmtLu n, isDigit c = true := by
  obtain ⟨ds, e, _, h, _⟩ := fmtLuAux_spec (n + 1) n [] (by omega)
  unfold fmtLu
  rw [e, List.append_nil]
  exact h

theorem decVal_fmtLu (n : Nat) : decVal (fmtLu n) = n := by
  obtain ⟨ds, e, _, _, h⟩ := fmtLuAux_spec (n + 1) n [] (by omega)
  unfold fmtLu
  rw [e, List.append_nil]
  exact h

theorem fmtLu_injective {a b : Nat} (h : fmtLu a = fmtLu b) : a = b := by
  rw [← decVal_fmtLu a, ← decVal_fmtLu b, h]

/-- A run of digits followed by a byte that is not a digit determines both. -/
theorem digits_prefix_unique : ∀ (x y : List Nat) (c d : Nat) (r1 r2 : List Nat),
    (∀ a ∈ x, isDigit a = true) → (∀ a ∈ y, isDigit a = true) →
    isDigit c = false → isDigit d = false →
    x ++ c :: r1 = y ++ d :: r2 → x = y ∧ c = d ∧ r1 = r2 := by
  intro x
  induction x with
  | nil =>
    intro y c d r1 r2 _ hy hc _ h
    cases y with
    | nil =>
      simp only [List.nil_append, List.cons.injEq] at h
      exact ⟨rfl, h.1, h.2⟩
    | cons b y =>
      simp only [List.nil_append, List.cons_append, List.cons.injEq] at h
      have := hy b (List.mem_cons_self _ _)
      rw [← h.1, hc] at this
      cases this
  | cons a x ih =>
    intro y c d r1 r2 hx hy hc hd h
    cases y with
    | nil =>
      simp only [List.nil_append, List.cons_append, List.cons.injEq] at h
      have := hx a (List.mem_cons_self _ _)
      rw [h.1, hd] at this
      cases this
    | cons b y =>
      simp only [List.cons_append, List.cons.injEq] at h
      obtain ⟨e1, e2, e3⟩ := ih y c d r1 r2 (fun z hz => hx z (List.mem_cons_of_mem _ hz))
        (fun z hz => hy z (List.mem_cons_of_mem _ hz)) hc hd h.2
      exact ⟨by rw [h.1, e1], e2, e3⟩

/-! ## Injectivity of the texts fed to the hash -/

/-- The digits of a number, then a byte that is not a digit, then anything. -/
theorem fmtLu_prefix_unique {a b c d : Nat} {r1 r2 : List Nat} (hc : isDigit c = false)
    (hd : isDigit d = false) (h : fmtLu a ++ c :: r1 = fmtLu b ++ d :: r2) :
    a = b ∧ c = d ∧ r1 = r2 := by
  obtain ⟨e1, e2, e3⟩ := digits_prefix_unique _ _ c d r1 r2 (fmtLu_isDigit a) (fmtLu_isDigit b)
    hc hd h
  exact ⟨fmtLu_injective e1, e2, e3⟩

theorem HashUse.text_word (t i : Nat) :
    (HashUse.word t i).text
      = if t = ULONG_MAX then 91 :: (fmtLu i ++ [93])
        else 91 :: (fmtLu t ++ 44 :: (fmtLu i ++ [93])) := by
  simp only [HashUse.text]
  by_cases h : t = ULONG_MAX
  · rw [if_pos h.symm, if_pos h, ssprintf_lu]; simp [str]
  · rw [if_neg (fun e => h e.symm), if_neg h, ssprintf_lu_lu]; simp [str]

theorem HashUse.text_split (t i : Nat) (l : List Nat) :
    (HashUse.split t i l).text
      = if t = ULONG_MAX then 91 :: (fmtLu i ++ 93 :: 32 :: 123 :: (c_str l ++ [125]))
        else 91 :: (fmtLu t ++ 44 :: (fmtLu i ++ 93 :: 32 :: 123 :: (c_str l ++ [125]))) := by
  simp only [HashUse.text]
  by_cases h : t = ULONG_MAX
  · rw [if_pos h.symm, if_pos h, ssprintf_lu_s]; simp [str]
  · rw [if_neg (fun e => h e.symm), if_neg h, ssprintf_lu_lu_s]; simp [str]

theorem HashUse.text_injective (a b : HashUse) (ha : a.NulFree) (hb : b.NulFree)
    (h : a.text = b.text) : a = b := by
  have d93 : isDigit 93 = false := by decide
  have d44 : isDigit 44 = false := by decide
  cases a with
  | word t i =>
    cases b with
    | word t' i' =>
      rw [HashUse.text_word, HashUse.text_word] at h
      by_cases h1 : t = ULONG_MAX <;> by_cases h2 : t' = ULONG_MAX
      · rw [if_pos h1, if_pos h2] at h
        simp only [List.cons.injEq, true_and] at h
        obtain ⟨e, _, _⟩ := fmtLu_prefix_unique d93 d93 h
        rw [h1, h2, e]
      · rw [if_pos h1, if_neg h2] at h
        simp only [List.cons.injEq, true_and] at h
        obtain ⟨_, e, _⟩ := fmtLu_prefix_unique d93 d44 h
        omega
      · rw [if_neg h1, if_pos h2] at h
        simp only [List.cons.injEq, true_and] at h
        obtain ⟨_, e, _⟩ := fmtLu_prefix_unique d44 d93 h
        omega
      · rw [if_neg h1, if_neg h2] at h
        simp only [List.cons.injEq, true_and] at h
        obtain ⟨e1, _, h'⟩ := fmtLu_prefix_unique d44 d44 h
        obtain ⟨e2, _, _⟩ := fmtLu_prefix_unique d93 d93 h'
        rw [e1, e2]
    | split t' i' l' =>
      exfalso
      rw [HashUse.text_word, HashUse.text_split] at h
      by_cases h1 : t = ULONG_MAX <;> by_cases h2 : t' = ULONG_MAX
      · rw [if_pos h1, if_pos h2] at h
        simp only [List.cons.injEq, true_and] at h
        obtain ⟨_, _, e⟩ := fmtLu_prefix_unique d93 d93 h
        cases e
      · rw [if_pos h1, if_neg h2] at h
        simp only [List.cons.injEq, true_and] at h
        obtain ⟨_, e, _⟩ := fmtLu_prefix_unique d93 d44 h
        omega
      · rw [if_neg h1, if_pos h2] at h
        simp only [List.cons.injEq, true_and] at h
        obtain ⟨_, e, _⟩ := fmtLu_prefix_unique d44 d93 h
        omega
      · rw [if_neg h1, if_neg h2] at h
        simp only [List.cons.injEq, true_and] at h
        obtain ⟨_, _, h'⟩ := fmtLu_prefix_unique d44 d44 h
        obtain ⟨_, _, e⟩ := fmtLu_prefix_unique d93 d93 h'
        cases e
  | split t i l =>
    cases b with
    | word t' i' =>
      exfalso
      rw [HashUse.text_word, HashUse.text_split] at h
      by_cases h1 : t = ULONG_MAX <;> by_cases h2 : t' = ULONG_MAX
      · rw [if_pos h1, if_pos h2] at h
        simp only [List.cons.injEq, true_and] at h
        obtain ⟨_, _, e⟩ := fmtLu_prefix_unique d93 d93 h
        cases e
      · rw [if_pos h1, if_neg h2] at h
        simp only [List.cons.injEq, true_and] at h
        obtain ⟨_, e, _⟩ := fmtLu_prefix_unique d93 d44 h
        omega
      · rw [if_neg h1, if_pos h2] at h
        simp only [List.cons.injEq, true_and] at h
        obtain ⟨_, e, _⟩ := fmtLu_prefix_unique d44 d93 h
        omega
      · rw [if_neg h1, if_neg h2] at h
        simp only [List.cons.injEq, true_and] at h
        obtain ⟨_, _, h'⟩ := fmtLu_prefix_unique d44 d44 h
        obtain ⟨_, _, e⟩ := fmtLu_prefix_unique d93 d93 h'
        cases e
    | split t' i' l' =>
      have hl : c_str l = l := c_str_eq_self ha
      have hl' : c_str l' = l' := c_str_eq_self hb
      rw [HashUse.text_split, HashUse.text_split, hl, hl'] at h
      by_cases h1 : t = ULONG_MAX <;> by_cases h2 : t' = ULONG_MAX
      · rw [if_pos h1, if_pos h2] at h
        simp only [List.cons.injEq, true_and] at h
        obtain ⟨e, _, e3⟩ := fmtLu_prefix_unique d93 d93 h
        simp only [List.cons.injEq, true_and] at e3
        rw [h1, h2, e, List.append_cancel_right e3]
      · rw [if_pos h1, if_neg h2] at h
        simp only [List.cons.injEq, true_and] at h
        obtain ⟨_, e, _⟩ := fmtLu_prefix_unique d93 d44 h
        omega
      · rw [if_neg h1, if_pos h2] at h
        simp only [List.cons.injEq, true_and] at h
        obtain ⟨_, e, _⟩ := fmtLu_prefix_unique d44 d93 h
        omega
      · rw [if_neg h1, if_neg h2] at h
        simp only [List.cons.injEq, true_and] at h
        obtain ⟨e1, _, h'⟩ := fmtLu_prefix_unique d44 d44 h
        obtain ⟨e2, _, e3⟩ := fmtLu_prefix_unique d93 d93 h'
        simp only [List.cons.injEq, true_and] at e3
        rw [e1, e2, List.append_cancel_right e3]

theorem HashUse.text_word_eq (t i : Nat) : (HashUse.word t i).text = wordText t i := by
  simp only [HashUse.text, wordText]
  by_cases h : t = ULONG_MAX
  · rw [if_pos h.symm, if_pos h, ssprintf_lu]
  · rw [if_neg (fun e => h e.symm), if_neg h, ssprintf_lu_lu]

theorem HashUse.text_split_eq (p : RngState) (l : List Nat) :
    (HashUse.split p.type p.index l).text = splitText p (c_str l) := by
  simp only [HashUse.text]
  exact splitInput_eq p l

/-- C18 (the texts fed to the hash are injective). Two different tagged uses of the hash,
a word draw `word(type, index)` or a split `split(type, index, label)` with a label
without NUL byte, `type` being `ULONG_MAX` (unset) or any other value, never have the same
text: a word text never equals a split text, and different `(type, index)` or
`(type, index, label)` give different texts. These texts are the ones the code hashes
after the digest bytes: in the refill of `randGen` and in `splitRngState`. -/
theorem hash_text_injective (a b : HashUse) (ha : a.NulFree) (hb : b.NulFree) (hab : a ≠ b) :
    a.text ≠ b.text ∧
    (∀ (sha : List Nat → List Nat) (s : RngState), s.hash.length = 8 → s.cache.length = 3 →
      s.cacheAvail = 0 →
      ∃ s', randGen sha s = .ok (packWord (computeHash sha
        (digestBytes s ++ (HashUse.word s.type ((s.index + 1) % 2 ^ 64)).text)) 3, s')) ∧
    (∀ (sha : List Nat → List Nat) (m : Mem) (p d : Nat) (l : List Nat),
      (m p).hash.length = 8 → (m d).cache.length = 3 →
      (splitRngStateAt sha m d p l d).hash = computeHash sha
        (digestBytes (m p) ++ (HashUse.split (m p).type (m p).index l).text)) := by
  refine ⟨fun h => hab (HashUse.text_injective a b ha hb h), ?_, ?_⟩
  · intro sha s h8 h3 h0
    rw [HashUse.text_word_eq]
    exact ⟨_, randGen_refill sha s h8 h3 h0⟩
  · intro sha m p d l h8 h3
    rw [HashUse.text_split_eq, splitRngStateAt_dst sha m p d l h3]
    exact computeHashWithInput_eq sha (m p) _ h8

theorem hash_text_injective_witness :
    ((HashUse.word 5 17).NulFree ∧ (HashUse.split 5 17 [97, 93]).NulFree ∧
      HashUse.word 5 17 ≠ HashUse.split 5 17 [97, 93]) ∧
    ((HashUse.word 5 17).text ≠ (HashUse.split 5 17 [97, 93]).text ∧
    (∀ (sha : List Nat → List Nat) (s : RngState), s.hash.length = 8 → s.cache.length = 3 →
      s.cacheAvail = 0 →
      ∃ s', randGen sha s = .ok (packWord (computeHash sha
        (digestBytes s ++ (HashUse.word s.type ((s.index + 1) % 2 ^ 64)).text)) 3, s')) ∧
    (∀ (sha : List Nat → List Nat) (m : Mem) (p d : Nat) (l : List Nat),
      (m p).hash.length = 8 → (m d).cache.length = 3 →
      (splitRngStateAt sha m d p l d).hash = computeHash sha
        (digestBytes (m p) ++ (HashUse.split (m p).type (m p).index l).text))) :=
  ⟨by decide, hash_text_injective (HashUse.word 5 17) (HashUse.split 5 17 [97, 93])
    (by decide) (by decide) (by decide)⟩

/-! ## The text form and its round trip -/

theorem extractUInt32_token (ws r : List Nat) (x old : Nat) (hws : ∀ c ∈ ws, isSpace c = true)
    (hx : x < 2 ^ 32) (hr : ∀ c, r.head? = some c → isDigit c = false) :
    extractUInt32 ⟨ws ++ (fmtLu x ++ r), false⟩ old = (⟨r, false⟩, x) := by
  have hd := fmtLu_isDigit x
  have hne := fmtLu_ne_nil x
  have h1 : (ws ++ (fmtLu x ++ r)).dropWhile isSpace = fmtLu x ++ r := by
    rw [List.dropWhile_append_of_pos hws]
    rcases hf : fmtLu x with _ | ⟨c, t⟩
    · exact absurd hf hne
    · have hc : isDigit c = true := hd c (by rw [hf]; exact List.mem_cons_self _ _)
      have : isSpace c = false := by
        simp only [isDigit, Bool.and_eq_true, decide_eq_true_eq] at hc
        simp only [isSpace, Bool.or_eq_false_iff, beq_eq_false_iff_ne, ne_eq,
          Bool.and_eq_false_imp, decide_eq_true_eq, decide_eq_false_iff_not]
        omega
      rw [List.cons_append, List.dropWhile_cons_of_neg (by rw [this]; simp)]
  have hr0 : r.takeWhile isDigit = [] ∧ r.dropWhile isDigit = r := by
    cases r with
    | nil => exact ⟨rfl, rfl⟩
    | cons c t =>
      have := hr c rfl
      exact ⟨List.takeWhile_cons_of_neg (by rw [this]; simp),
        List.dropWhile_cons_of_neg (by rw [this]; simp)⟩
  have h2 : (fmtLu x ++ r).takeWhile isDigit = fmtLu x := by
    rw [List.takeWhile_append_of_pos hd, hr0.1, List.append_nil]
  have h3 : (fmtLu x ++ r).dropWhile isDigit = r := by
    rw [List.dropWhile_append_of_pos hd, hr0.2]
  unfold extractUInt32
  simp only [Bool.false_eq_true, if_false, h1, h2, h3, hne, decVal_fmtLu, hx, if_true]

theorem exportRngStateVec_eq (v : List Nat) (s : RngState) (hs : s.WF) :
    exportRngStateVec v s = some (exportWords s) := by
  have hr : 24 ≤ (resize v RNG_STATE_NUM_OF_INT32).length := by
    simp [resize, RNG_STATE_NUM_OF_INT32]; omega
  have hl : (resize v RNG_STATE_NUM_OF_INT32).length = 24 := by
    simp [resize, RNG_STATE_NUM_OF_INT32]; omega
  unfold exportRngStateVec
  rw [exportRngState_eq _ _ hs hr, List.drop_of_length_le (by omega), List.append_nil]

theorem operatorLtLt_eq (os : List Nat) (s : RngState) (hs : s.WF) :
    operatorLtLt os s = some (os ++ List.intercalate [32] ((exportWords s).map fmtLu)) := by
  unfold operatorLtLt
  simp only [exportRngStateVec_eq _ s hs, bind, Option.bind]
  obtain ⟨x0, x1, x2, x3, x4, x5, x6, x7, x8, x9, x10, x11, x12, x13, x14, x15, x16, x17,
    x18, x19, x20, x21, x22, x23, e⟩ := length_eq_24 (exportWords_length s)
  rw [e]
  simp [insertUInt32, List.range, List.range.loop, List.intercalate]

theorem extractUInt32_first (r : List Nat) (x old : Nat) (hx : x < 2 ^ 32) :
    extractUInt32 ⟨fmtLu x ++ 32 :: r, false⟩ old = (⟨32 :: r, false⟩, x) :=
  extractUInt32_token [] (32 :: r) x old (by simp) hx (by simp [isDigit])

theorem extractUInt32_next (r : List Nat) (x old : Nat) (hx : x < 2 ^ 32) :
    extractUInt32 ⟨32 :: (fmtLu x ++ 32 :: r), false⟩ old = (⟨32 :: r, false⟩, x) :=
  extractUInt32_token [32] (32 :: r) x old (by simp [isSpace]) hx (by simp [isDigit])

theorem extractUInt32_last (r : List Nat) (x old : Nat) (hx : x < 2 ^ 32)
    (hr : ∀ c, r.head? = some c → isDigit c = false) :
    extractUInt32 ⟨32 :: (fmtLu x ++ r), false⟩ old = (⟨r, false⟩, x) :=
  extractUInt32_token [32] r x old (by simp [isSpace]) hx hr

theorem operatorGtGt_text (w rest : List Nat) (d : RngState) (hl : w.length = 24)
    (hw : ∀ x ∈ w, x < 2 ^ 32) (hr : ∀ c, rest.head? = some c → isDigit c = false) :
    operatorGtGt ⟨List.intercalate [32] (w.map fmtLu) ++ rest, false⟩ d
      = (⟨rest, false⟩, importRngStateVec d w) := by
  obtain ⟨x0, x1, x2, x3, x4, x5, x6, x7, x8, x9, x10, x11, x12, x13, x14, x15, x16, x17,
    x18, x19, x20, x21, x22, x23, rfl⟩ := length_eq_24 hl
  simp only [List.mem_cons, List.mem_singleton, List.not_mem_nil, or_false,
    forall_eq_or_imp, forall_eq] at hw
  obtain ⟨h0, h1, h2, h3, h4, h5, h6, h7, h8, h9, h10, h11, h12, h13, h14, h15, h16, h17,
    h18, h19, h20, h21, h22, h23⟩ := hw
  unfold operatorGtGt
  simp only [RNG_STATE_NUM_OF_INT32, List.replicate, List.length_cons, List.length_nil,
    List.range, List.range.loop, List.foldl, List.map, List.intercalate, List.intersperse,
    List.flatten, List.append_assoc, List.cons_append, List.nil_append,
    List.singleton_append,
    extractUInt32_first _ _ _ h0, extractUInt32_next _ _ _ h1, extractUInt32_next _ _ _ h2,
    extractUInt32_next _ _ _ h3, extractUInt32_next _ _ _ h4, extractUInt32_next _ _ _ h5,
    extractUInt32_next _ _ _ h6, extractUInt32_next _ _ _ h7, extractUInt32_next _ _ _ h8,
    extractUInt32_next _ _ _ h9, extractUInt32_next _ _ _ h10, extractUInt32_next _ _ _ h11,
    extractUInt32_next _ _ _ h12, extractUInt32_next _ _ _ h13, extractUInt32_next _ _ _ h14,
    extractUInt32_next _ _ _ h15, extractUInt32_next _ _ _ h16, extractUInt32_next _ _ _ h17,
    extractUInt32_next _ _ _ h18, extractUInt32_next _ _ _ h19, extractUInt32_next _ _ _ h20,
    extractUInt32_next _ _ _ h21, extractUInt32_next _ _ _ h22,
    extractUInt32_last _ _ _ h23 hr, List.set_cons_zero, List.set_cons_succ]

theorem exportWords_lt (s : RngState) (hs : s.WF) : ∀ x ∈ exportWords s, x < 2 ^ 32 := by
  obtain ⟨w, he, _, _, hlt, _⟩ := exportRngState_layout s (List.replicate 24 0) hs (by simp)
  rw [exportRngState_eq _ s hs (by simp)] at he
  simp only [Option.some.injEq] at he
  intro x hx
  obtain ⟨i, hi, rfl⟩ := List.getElem_of_mem hx
  rw [exportWords_length] at hi
  have := hlt i hi
  rw [← he, List.getD_append _ _ _ _ (by rw [exportWords_length]; exact hi),
    List.getD_eq_getElem _ _ (by rw [exportWords_length]; exact hi)] at this
  exact this

/-- C16 (text round trip). For every state `s` with fields of their C types, `os << s`
appends to the stream the 24 words of the canonical form, each below `2^32` and rendered
in decimal (digits only, read back as the same number), in export order, separated by
single spaces and with no trailing space; and `is >> rs` on that text, followed by the end
of the input or by anything that is not a digit, reads back a state equal to `s` in every
field, leaves what followed in the stream and does not set the fail bit. -/
theorem text_roundtrip (s d : RngState) (os rest : List Nat) (hs : s.WF)
    (hd1 : d.hash.length = 8) (hd2 : d.cache.length = 3)
    (hr : ∀ c, rest.head? = some c → isDigit c = false) :
    ∃ w, exportRngStateVec [] s = some w ∧ w.length = 24 ∧ (∀ x ∈ w, x < 2 ^ 32) ∧
      operatorLtLt os s = some (os ++ List.intercalate [32] (w.map fmtLu)) ∧
      (∀ x ∈ w, fmtLu x ≠ [] ∧ (∀ c ∈ fmtLu x, isDigit c = true) ∧ decVal (fmtLu x) = x) ∧
      operatorGtGt ⟨List.intercalate [32] (w.map fmtLu) ++ rest, false⟩ d
        = (⟨rest, false⟩, .ok s) := by
  refine ⟨exportWords s, exportRngStateVec_eq [] s hs, exportWords_length s,
    exportWords_lt s hs, operatorLtLt_eq os s hs,
    fun x _ => ⟨fmtLu_ne_nil x, fmtLu_isDigit x, decVal_fmtLu x⟩, ?_⟩
  rw [operatorGtGt_text _ rest d (exportWords_length s) (exportWords_lt s hs) hr]
  have h1 : importRngStateVec d (exportWords s) = .ok s := by
    unfold importRngStateVec
    rw [if_neg (by rw [exportWords_length]; decide)]
    have := importRngState_exportWords d s [] hs hd1 hd2
    rwa [List.append_nil] at this
  rw [h1]

theorem text_roundtrip_witness :
    (demoState.WF ∧ memsetZero.hash.length = 8 ∧ memsetZero.cache.length = 3 ∧
      ∀ c, ([10] : List Nat).head? = some c → isDigit c = false) ∧
    ∃ w, exportRngStateVec [] demoState = some w ∧ w.length = 24 ∧ (∀ x ∈ w, x < 2 ^ 32) ∧
      operatorLtLt [62] demoState = some ([62] ++ List.intercalate [32] (w.map fmtLu)) ∧
      (∀ x ∈ w, fmtLu x ≠ [] ∧ (∀ c ∈ fmtLu x, isDigit c = true) ∧ decVal (fmtLu x) = x) ∧
      operatorGtGt ⟨List.intercalate [32] (w.map fmtLu) ++ [10], false⟩ memsetZero
        = (⟨[10], false⟩, .ok demoState) :=
  ⟨⟨by decide, by decide, by decide, by simp [isDigit]⟩,
    text_roundtrip demoState memsetZero [62] [10] (by decide) (by decide) (by decide)
      (by simp [isDigit])⟩

/-! ## Word output depends on the live state only -/

theorem computeHashWithInput_congr (sha : List Nat → List Nat) (r r' : RngState)
    (input : List Nat) (h : r.hash = r'.hash) :
    computeHashWithInput sha r input = computeHashWithInput sha r' input := by
  unfold computeHashWithInput
  simp only [h]

theorem randGen_refill_raw (sha : List Nat → List Nat) (nb : Nat) (hash : List Nat)
    (ty idx d0 d1 d2 g : Nat) (ga : Bool) :
    randGen sha ⟨nb, hash, ty, idx, [d0, d1, d2], g, 0, ga⟩
      = .ok (patchTwoUint32 ((refillWords sha hash ty ((idx + 1) % 2 ^ 64)).getD 6 0)
              ((refillWords sha hash ty ((idx + 1) % 2 ^ 64)).getD 7 0),
          ⟨nb, hash, ty, (idx + 1) % 2 ^ 64,
            [patchTwoUint32 ((refillWords sha hash ty ((idx + 1) % 2 ^ 64)).getD 0 0)
              ((refillWords sha hash ty ((idx + 1) % 2 ^ 64)).getD 1 0),
             patchTwoUint32 ((refillWords sha hash ty ((idx + 1) % 2 ^ 64)).getD 2 0)
              ((refillWords sha hash ty ((idx + 1) % 2 ^ 64)).getD 3 0),
             patchTwoUint32 ((refillWords sha hash ty ((idx + 1) % 2 ^ 64)).getD 4 0)
              ((refillWords sha hash ty ((idx + 1) % 2 ^ 64)).getD 5 0)], g, 3, ga⟩) := by
  unfold randGen
  simp only [le_refl, Int.reduceLE, and_self, not_true_eq_false, if_false, gt_iff_lt,
    lt_self_iff_false, List.set_cons_zero, List.set_cons_succ]
  rfl

theorem randGen_liveEq (sha : List Nat → List Nat) (a b : RngState) (h : LiveEq a b)
    (ha : a.cache.length = 3) (hb : b.cache.length = 3) :
    ∃ r a' b', randGen sha a = .ok (r, a') ∧ randGen sha b = .ok (r, b') ∧ LiveEq a' b' ∧
      a'.cache.length = 3 ∧ b'.cache.length = 3 := by
  obtain ⟨nb, hash, ty, idx, cache, g, ca, ga⟩ := a
  obtain ⟨nb', hash', ty', idx', cache', g', ca', ga'⟩ := b
  obtain ⟨e1, e2, e3, e4, h0, h3, ht⟩ := h
  simp only at e1 e2 e3 e4 h0 h3 ht ha hb
  subst e1 e2 e3 e4
  obtain ⟨c0, c1, c2, rfl⟩ := length_eq_three ha
  obtain ⟨d0, d1, d2, rfl⟩ := length_eq_three hb
  have hca : ca = 0 ∨ ca = 1 ∨ ca = 2 ∨ ca = 3 := by omega
  rcases hca with rfl | rfl | rfl | rfl
  · exact ⟨_, _, _, randGen_refill_raw sha nb hash ty idx c0 c1 c2 g ga,
      randGen_refill_raw sha nb' hash ty idx d0 d1 d2 g' ga',
      ⟨rfl, rfl, rfl, rfl, by simp, by simp, rfl⟩, rfl, rfl⟩
  · simp at ht
    subst ht
    exact ⟨_, _, _, randGen_pop1 sha _ _ _ _ _ _ _ _ _, randGen_pop1 sha _ _ _ _ _ _ _ _ _,
      ⟨rfl, rfl, rfl, rfl, by simp, by simp, rfl⟩, rfl, rfl⟩
  · simp at ht
    obtain ⟨rfl, rfl⟩ := ht
    exact ⟨_, _, _, randGen_pop2 sha _ _ _ _ _ _ _ _ _, randGen_pop2 sha _ _ _ _ _ _ _ _ _,
      ⟨rfl, rfl, rfl, rfl, by simp, by simp, by simp⟩, rfl, rfl⟩
  · simp at ht
    obtain ⟨rfl, rfl, rfl⟩ := ht
    exact ⟨_, _, _, randGen_pop3 sha _ _ _ _ _ _ _ _ _, randGen_pop3 sha _ _ _ _ _ _ _ _ _,
      ⟨rfl, rfl, rfl, rfl, by simp, by simp, by simp⟩, rfl, rfl⟩

/-- C19 (word output depends on the live state only). For any two states that agree on
`hash`, `type`, `index`, `cacheAvail` (within `0..3`) and the cache slots below
`cacheAvail`, whatever their `numBytes`, their cache slots from `cacheAvail` on, their
`gaussian` and `gaussianAvail`: every number `n` of successive `randGen` calls returns from
both, with the same `n` words, and leaves the two states in agreement on those fields. -/
theorem randGenN_live_only (sha : List Nat → List Nat) (n : Nat) (a b : RngState)
    (h : LiveEq a b) (ha : a.cache.length = 3) (hb : b.cache.length = 3) :
    ∃ ws a' b', randGenN sha n a = .ok (ws, a') ∧ randGenN sha n b = .ok (ws, b') ∧
      ws.length = n ∧ LiveEq a' b' := by
  induction n generalizing a b with
  | zero => exact ⟨[], a, b, rfl, rfl, rfl, h⟩
  | succ n ih =>
    obtain ⟨r, a1, b1, ea, eb, h1, ha1, hb1⟩ := randGen_liveEq sha a b h ha hb
    obtain ⟨ws, a', b', ea', eb', hl, h'⟩ := ih a1 b1 h1 ha1 hb1
    refine ⟨r :: ws, a', b', ?_, ?_, by simp [hl], h'⟩
    · simp only [randGenN, ea, ea', bind, Except.bind, pure, Except.pure]
    · simp only [randGenN, eb, eb', bind, Except.bind, pure, Except.pure]

theorem randGenN_live_only_witness :
    (LiveEq demoState
        { demoState with numBytes := 1, cache := [154618822693, 2 ^ 64 - 1, 99],
                         gaussian := 0, gaussianAvail := false } ∧
      demoState.cache.length = 3 ∧
      ({ demoState with numBytes := 1, cache := [154618822693, 2 ^ 64 - 1, 99],
                        gaussian := 0, gaussianAvail := false } : RngState).cache.length = 3) ∧
    ∃ ws a' b', randGenN demoSha 7 demoState = .ok (ws, a') ∧
      randGenN demoSha 7
        { demoState with numBytes := 1, cache := [154618822693, 2 ^ 64 - 1, 99],
                         gaussian := 0, gaussianAvail := false } = .ok (ws, b') ∧
      ws.length = 7 ∧ LiveEq a' b' :=
  ⟨by decide, randGenN_live_only demoSha 7 demoState
    { demoState with numBytes := 1, cache := [154618822693, 2 ^ 64 - 1, 99],
                     gaussian := 0, gaussianAvail := false }
    (by decide) (by decide) (by decide)⟩

/-! ## Index accounting and the rejection loop -/

theorem SameStream.trans {a b c : RngState} (h1 : SameStream a b) (h2 : SameStream b c) :
    SameStream a c := by
  obtain ⟨a1, a2, a3, a4, a5⟩ := h1
  obtain ⟨b1, b2, b3, b4, b5⟩ := h2
  exact ⟨by rw [b1, a1], by rw [b2, a2], by rw [b3, a3], by rw [b4, a4], by rw [b5, a5]⟩

theorem randGen_step (sha : List Nat → List Nat) (s : RngState) (h : CacheInv s) :
    ∃ r s', randGen sha s = .ok (r, s') ∧ CacheInv s' ∧
      s'.index = (s.index + 1) % 2 ^ 64 ∧ SameStream s s' := by
  obtain ⟨h1, h2⟩ := h
  by_cases hp : 0 < s.cacheAvail
  · refine ⟨_, _, randGen_pop sha s hp h2, ⟨?_, ?_⟩, rfl, rfl, rfl, rfl, rfl, rfl⟩
    · simp only; omega
    · simp only; omega
  · unfold randGen
    simp only [h1, h2, and_self, not_true_eq_false, if_false, gt_iff_lt, hp]
    exact ⟨_, _, rfl, ⟨by simp, by simp⟩, rfl, rfl, rfl, rfl, rfl, rfl⟩

theorem uRandGen_step (sha : List Nat → List Nat) (F : Fp) (s : RngState) (upper lower : Nat)
    (h : CacheInv s) :
    ∃ u s', randGen sha s = .ok (u, s') ∧
      uRandGen sha F s upper lower = .ok
        (F.add (F.mul (F.mul (F.ofUInt64 u)
          (F.div (F.div dbl_1 (F.mul (F.mul (F.mul dbl_256 dbl_256) dbl_256) dbl_256))
            (F.mul (F.mul (F.mul dbl_256 dbl_256) dbl_256) dbl_256)))
          (F.sub upper lower)) lower, s') ∧
      CacheInv s' ∧ s'.index = (s.index + 1) % 2 ^ 64 ∧ SameStream s s' := by
  obtain ⟨u, s', e, hi, hx, hs⟩ := randGen_step sha s h
  refine ⟨u, s', e, ?_, hi, hx, hs⟩
  unfold uRandGen
  rw [e]
  rfl

theorem gRandGenLoop_step (sha : List Nat → List Nat) (F : Fp) :
    ∀ (fuel : Nat) (num_try : Int) (s : RngState), 0 < fuel → 10000 - num_try ≤ fuel →
      CacheInv s →
      ∃ n v1 v2 rsq s', gRandGenLoop sha F fuel num_try s = .ok (n, v1, v2, rsq, s') ∧
        CacheInv s' ∧ num_try < n ∧ (num_try < 10000 → n ≤ 10000) ∧
        (n < 10000 → rejected F rsq = false) ∧
        drawPairs sha F (n - num_try).toNat s = .ok s' ∧
        s'.index = (s.index + 2 * (n - num_try).toNat) % 2 ^ 64 ∧ SameStream s s' := by
  intro fuel
  induction fuel with
  | zero => intro _ _ h; omega
  | succ fuel ih =>
    intro num_try s _ hf hs
    obtain ⟨u1, s1, _, e1, hi1, hx1, hs1⟩ := uRandGen_step sha F s dbl_1 dbl_m1 hs
    obtain ⟨u2, s2, _, e2, hi2, hx2, hs2⟩ := uRandGen_step sha F s1 dbl_1 dbl_m1 hi1
    unfold gRandGenLoop
    simp only [e1, e2, bind, Except.bind]
    split
    · rename_i hc
      obtain ⟨n, w1, w2, rsq, s', e, hi, hn, hb, hr, hd, hx, hss⟩ :=
        ih (num_try + 1) s2 (by omega) (by push_cast at hf ⊢; omega) hi2
      have hk : (n - num_try).toNat = (n - (num_try + 1)).toNat + 1 := by omega
      refine ⟨n, w1, w2, rsq, s', e, hi, by omega, fun _ => hb hc.1, hr, ?_, ?_,
        (hs1.trans hs2).trans hss⟩
      · rw [hk]
        simp only [drawPairs, e1, e2, bind, Except.bind]
        exact hd
      · rw [hx, hx2, hx1, hk]
        omega
    · rename_i hc
      have hk : (num_try + 1 - num_try).toNat = 1 := by omega
      refine ⟨_, _, _, _, _, rfl, hi2, by omega, fun _ => by omega, ?_, ?_, ?_,
        hs1.trans hs2⟩
      · intro hlt
        simp only [hlt, true_and, not_or, Bool.not_eq_true] at hc
        simp only [rejected, hc.1, hc.2, Bool.or_self]
      · rw [hk]
        simp only [drawPairs, e1, e2, bind, Except.bind]
      · rw [hx2, hx1, hk]
        omega

/-- What a call of `gRandGen` without a cached Gaussian does, in terms of the number `k` of
attempts its loop makes: `1 <= k <= 9999`; the state the loop leaves is the state after `k`
pairs of draws; with `k < 9999` the last attempt was accepted and the call caches
`v1 * fac`, sets `gaussianAvail` and returns `v2 * fac * sigma + center`; with `k = 9999`
the call returns `1e+10` and leaves `gaussianAvail` false, whatever the outcome of the
last attempt. -/
theorem gRandGen_uncached (sha : List Nat → List Nat) (F : Fp) (s : RngState)
    (center sigma : Nat) (h : CacheInv s) (hg : s.gaussianAvail = false) :
    ∃ (k : Nat) (v1 v2 rsq : Nat) (sk : RngState), 1 ≤ k ∧ k ≤ 9999 ∧
      gRandGenLoop sha F 10000 1 { s with index := (s.index + 1) % 2 ^ 64 }
        = .ok ((k : Int) + 1, v1, v2, rsq, sk) ∧
      drawPairs sha F k { s with index := (s.index + 1) % 2 ^ 64 } = .ok sk ∧
      sk.index = (s.index + 1 + 2 * k) % 2 ^ 64 ∧ sk.gaussianAvail = false ∧
      (k < 9999 → rejected F rsq = false ∧
        gRandGen sha F s center sigma = .ok
          (F.add (F.mul (F.mul v2 (F.sqrt (F.div (F.mul dbl_m2 (F.log rsq)) rsq))) sigma) center,
            { sk with
              gaussian := F.mul v1 (F.sqrt (F.div (F.mul dbl_m2 (F.log rsq)) rsq)) % 2 ^ 64,
              gaussianAvail := true })) ∧
      (k = 9999 → gRandGen sha F s center sigma = .ok (dbl_1e10, sk)) := by
  obtain ⟨nb, hash, ty, idx, cache, g, ca, ga⟩ := s
  simp only at hg
  subst hg
  obtain ⟨n, v1, v2, rsq, sk, e, _, hn, hb, hr, hd, hx, hss⟩ :=
    gRandGenLoop_step sha F 10000 1 ⟨nb, hash, ty, (idx + 1) % 2 ^ 64, cache, g, ca, false⟩
      (by norm_num) (by norm_num) h
  have hb' := hb (by norm_num)
  have hk : ((n - 1).toNat : Int) + 1 = n := by omega
  refine ⟨(n - 1).toNat, v1, v2, rsq, sk, by omega, by omega, by rw [hk]; exact e, hd, ?_,
    hss.2.2.2.2, ?_, ?_⟩
  · rw [hx]
    simp only
    omega
  · intro hlt
    refine ⟨hr (by omega), ?_⟩
    simp only [gRandGen, Bool.false_eq_true, if_false]
    rw [e]
    simp only [bind, Except.bind]
    rw [if_neg (by omega)]
    rfl
  · intro h9
    simp only [gRandGen, Bool.false_eq_true, if_false]
    rw [e]
    simp only [bind, Except.bind]
    rw [if_pos (by omega)]
    rfl

theorem gRandGen_cached (sha : List Nat → List Nat) (F : Fp) (r : RngState) (c s : Nat)
    (hr : r.gaussianAvail = true) :
    gRandGen sha F r c s = .ok (F.add (F.mul r.gaussian s) c,
      { r with index := (r.index + 1) % 2 ^ 64, gaussianAvail := false }) := by
  unfold gRandGen
  simp only [hr, if_true]

theorem gRandGen_index (sha : List Nat → List Nat) (F : Fp) (s : RngState)
    (center sigma : Nat) (h : CacheInv s) :
    ∃ r s' d, gRandGen sha F s center sigma = .ok (r, s') ∧ 1 ≤ d ∧ d ≤ 19999 ∧
      s'.index = (s.index + d) % 2 ^ 64 := by
  by_cases hg : s.gaussianAvail = true
  · exact ⟨_, _, 1, gRandGen_cached sha F s center sigma hg, le_refl 1, by norm_num, rfl⟩
  · have hg' : s.gaussianAvail = false := by simpa using hg
    obtain ⟨k, v1, v2, rsq, sk, hk1, hk2, _, _, hx, _, hlt, h9⟩ :=
      gRandGen_uncached sha F s center sigma h hg'
    have hx' : sk.index = (s.index + (1 + 2 * k)) % 2 ^ 64 := by
      rw [hx, Nat.add_assoc]
    by_cases hk : k < 9999
    · exact ⟨_, _, 1 + 2 * k, (hlt hk).2, by omega, by omega, hx'⟩
    · exact ⟨_, _, 1 + 2 * k, h9 (by omega), by omega, by omega, hx'⟩

/-- C17, as stated, fails: `importRngState` is an operation other than reset and split
that can decrease `index`: importing a buffer of 24 zero words into a state with
`index = 2^33 + 7` returns and leaves `index = 0`, with no wraparound. -/
theorem import_decreases_index :
    demoState.index = 2 ^ 33 + 7 ∧
    (importRngState demoState (List.replicate 24 0)).toOption.map (fun s => s.index) = some 0 ∧
    (importRngStateVec demoState (List.replicate 24 0)).toOption.map (fun s => s.index)
      = some 0 := by
  decide

/-- C17, amended (index accounting). In a state with `cacheAvail` in `0..3`: `randGen`
returns with `index` increased by exactly 1 (modulo `2^64`), whether it pops (`cacheAvail`
in `1..3`) or refills (`cacheAvail = 0`); `uRandGen` increases it by exactly 1; `gRandGen`
with a cached Gaussian by exactly 1; `gRandGen` without a cached Gaussian, whose loop makes
`k` attempts (`k` pairs of draws, `1 <= k <= 9999`), by exactly `1 + 2k`; in each case the
new `index` is the old one plus the increment itself when that sum is below `2^64`.
`setType` leaves `index` as it is. So for every call of `setType`, `randGen`, `uRandGen`
or `gRandGen` that returns, the new `index` is the old one plus an increment `d` modulo
`2^64`, with `d = 0` for `setType` and `1 <= d <= 19999` for the generators, and it is
below the old one only when `index + d` reaches `2^64`, that is on wraparound (reset, split
and the import of a stored state overwrite `index`). -/
theorem index_accounting (sha : List Nat → List Nat) (F : Fp) (s : RngState)
    (h : CacheInv s) (hi : s.index < 2 ^ 64) :
    (∃ r s', randGen sha s = .ok (r, s') ∧ s'.index = (s.index + 1) % 2 ^ 64 ∧
      (s.index + 1 < 2 ^ 64 → s'.index = s.index + 1)) ∧
    (∀ upper lower, ∃ r s', uRandGen sha F s upper lower = .ok (r, s') ∧
      s'.index = (s.index + 1) % 2 ^ 64 ∧ (s.index + 1 < 2 ^ 64 → s'.index = s.index + 1)) ∧
    (∀ center sigma, s.gaussianAvail = true →
      ∃ r s', gRandGen sha F s center sigma = .ok (r, s') ∧
        s'.index = (s.index + 1) % 2 ^ 64 ∧ (s.index + 1 < 2 ^ 64 → s'.index = s.index + 1)) ∧
    (∀ center sigma, s.gaussianAvail = false →
      ∃ (k : Nat) (v1 v2 rsq : Nat) (sk : RngState) (r : Nat) (s' : RngState),
        1 ≤ k ∧ k ≤ 9999 ∧
        gRandGenLoop sha F 10000 1 { s with index := (s.index + 1) % 2 ^ 64 }
          = .ok ((k : Int) + 1, v1, v2, rsq, sk) ∧
        drawPairs sha F k { s with index := (s.index + 1) % 2 ^ 64 } = .ok sk ∧
        gRandGen sha F s center sigma = .ok (r, s') ∧
        s'.index = (s.index + 1 + 2 * k) % 2 ^ 64 ∧
        (s.index + 1 + 2 * k < 2 ^ 64 → s'.index = s.index + 1 + 2 * k)) ∧
    (∀ (t : Nat) (s' : RngState), setType s t = .ok s' → s'.index = s.index) ∧
    (∀ (op : Op) (s' : RngState), op.isGen = true ∨ op.isSetType = true →
      op.apply sha F s = .ok s' →
      ∃ d, d ≤ 19999 ∧ (op.isSetType = true → d = 0) ∧ (op.isGen = true → 1 ≤ d) ∧
        s'.index = (s.index + d) % 2 ^ 64 ∧
        (s.index + d < 2 ^ 64 → s'.index = s.index + d) ∧
        (s'.index < s.index → 2 ^ 64 ≤ s.index + d)) := by
  have hnw : ∀ (x d : Nat), x = (s.index + d) % 2 ^ 64 →
      (s.index + d < 2 ^ 64 → x = s.index + d) := by
    intro x d hx hlt
    rw [hx, Nat.mod_eq_of_lt hlt]
  have hmod : ∀ (x d : Nat), x = (s.index + d) % 2 ^ 64 →
      x = (s.index + d) % 2 ^ 64 ∧ (s.index + d < 2 ^ 64 → x = s.index + d) ∧
        (x < s.index → 2 ^ 64 ≤ s.index + d) := by
    intro x d hx
    refine ⟨hx, hnw x d hx, fun hlt => ?_⟩
    by_contra hn
    have := hnw x d hx (by omega)
    omega
  have hset : ∀ (t : Nat) (s' : RngState), setType s t = .ok s' → s'.index = s.index := by
    intro t s' hok
    by_cases hp : s.type = ULONG_MAX ∧ t ≠ ULONG_MAX
    · rw [setType_ok s t hp.1 hp.2] at hok
      simp only [Except.ok.injEq] at hok
      rw [← hok]
    · rw [setType_abort s t hp] at hok
      cases hok
  refine ⟨?_, ?_, ?_, ?_, hset, ?_⟩
  · obtain ⟨r, s', e, _, hx, _⟩ := randGen_step sha s h
    exact ⟨r, s', e, hx, hnw _ 1 hx⟩
  · intro upper lower
    obtain ⟨u, s', _, e, _, hx, _⟩ := uRandGen_step sha F s upper lower h
    exact ⟨_, s', e, hx, hnw _ 1 hx⟩
  · intro center sigma hg
    exact ⟨_, _, gRandGen_cached sha F s center sigma hg, rfl, hnw _ 1 rfl⟩
  · intro center sigma hg
    obtain ⟨k, v1, v2, rsq, sk, hk1, hk2, el, ed, hx, _, hlt, h9⟩ :=
      gRandGen_uncached sha F s center sigma h hg
    have hx' : sk.index = (s.index + (1 + 2 * k)) % 2 ^ 64 := by
      rw [hx, Nat.add_assoc]
    have hn : s.index + 1 + 2 * k < 2 ^ 64 → sk.index = s.index + 1 + 2 * k := by
      intro hl
      rw [hnw _ _ hx' (by omega)]
      omega
    by_cases hk : k < 9999
    · exact ⟨k, v1, v2, rsq, sk, _, _, hk1, hk2, el, ed, (hlt hk).2, hx, hn⟩
    · exact ⟨k, v1, v2, rsq, sk, _, _, hk1, hk2, el, ed, h9 (by omega), hx, hn⟩
  · intro op s' hop hok
    cases op with
    | reset => simp [Op.isGen, Op.isSetType] at hop
    | resetSeed seed => simp [Op.isGen, Op.isSetType] at hop
    | splitSelf l => simp [Op.isGen, Op.isSetType] at hop
    | split dst l => simp [Op.isGen, Op.isSetType] at hop
    | setType t =>
      simp only [Op.apply] at hok
      have e := hset t s' hok
      refine ⟨0, by norm_num, fun _ => rfl, fun hg => by simp [Op.isGen] at hg, ?_⟩
      exact hmod _ 0 (by rw [e, Nat.add_zero, Nat.mod_eq_of_lt hi])
    | randGen =>
      obtain ⟨r, s1, e, _, hx, _⟩ := randGen_step sha s h
      simp only [Op.apply, e, Except.map, Except.ok.injEq] at hok
      subst hok
      exact ⟨1, by norm_num, fun hs => by simp [Op.isSetType] at hs, fun _ => le_refl 1,
        hmod _ 1 hx⟩
    | uRandGen upper lower =>
      obtain ⟨u, s1, _, e, _, hx, _⟩ := uRandGen_step sha F s upper lower h
      simp only [Op.apply, e, Except.map, Except.ok.injEq] at hok
      subst hok
      exact ⟨1, by norm_num, fun hs => by simp [Op.isSetType] at hs, fun _ => le_refl 1,
        hmod _ 1 hx⟩
    | gRandGen center sigma =>
      obtain ⟨r, s1, d, e, hd1, hd2, hx⟩ := gRandGen_index sha F s center sigma h
      simp only [Op.apply, e, Except.map, Except.ok.injEq] at hok
      subst hok
      exact ⟨d, hd2, fun hs => by simp [Op.isSetType] at hs, fun _ => hd1, hmod _ d hx⟩

theorem index_accounting_witness :
    ((CacheInv demoSeeded ∧ demoSeeded.index < 2 ^ 64) ∧
    ((∃ r s', randGen demoSha demoSeeded = .ok (r, s') ∧
        s'.index = (demoSeeded.index + 1) % 2 ^ 64 ∧
        (demoSeeded.index + 1 < 2 ^ 64 → s'.index = demoSeeded.index + 1)) ∧
    (∀ upper lower, ∃ r s', uRandGen demoSha demoFp demoSeeded upper lower = .ok (r, s') ∧
      s'.index = (demoSeeded.index + 1) % 2 ^ 64 ∧
      (demoSeeded.index + 1 < 2 ^ 64 → s'.index = demoSeeded.index + 1)) ∧
    (∀ center sigma, demoSeeded.gaussianAvail = true →
      ∃ r s', gRandGen demoSha demoFp demoSeeded center sigma = .ok (r, s') ∧
        s'.index = (demoSeeded.index + 1) % 2 ^ 64 ∧
        (demoSeeded.index + 1 < 2 ^ 64 → s'.index = demoSeeded.index + 1)) ∧
    (∀ center sigma, demoSeeded.gaussianAvail = false →
      ∃ (k : Nat) (v1 v2 rsq : Nat) (sk : RngState) (r : Nat) (s' : RngState),
        1 ≤ k ∧ k ≤ 9999 ∧
        gRandGenLoop demoSha demoFp 10000 1
            { demoSeeded with index := (demoSeeded.index + 1) % 2 ^ 64 }
          = .ok ((k : Int) + 1, v1, v2, rsq, sk) ∧
        drawPairs demoSha demoFp k { demoSeeded with index := (demoSeeded.index + 1) % 2 ^ 64 }
          = .ok sk ∧
        gRandGen demoSha demoFp demoSeeded center sigma = .ok (r, s') ∧
        s'.index = (demoSeeded.index + 1 + 2 * k) % 2 ^ 64 ∧
        (demoSeeded.index + 1 + 2 * k < 2 ^ 64 → s'.index = demoSeeded.index + 1 + 2 * k)) ∧
    (∀ (t : Nat) (s' : RngState), setType demoSeeded t = .ok s' → s'.index = demoSeeded.index) ∧
    (∀ (op : Op) (s' : RngState), op.isGen = true ∨ op.isSetType = true →
      op.apply demoSha demoFp demoSeeded = .ok s' →
      ∃ d, d ≤ 19999 ∧ (op.isSetType = true → d = 0) ∧ (op.isGen = true → 1 ≤ d) ∧
        s'.index = (demoSeeded.index + d) % 2 ^ 64 ∧
        (demoSeeded.index + d < 2 ^ 64 → s'.index = demoSeeded.index + d) ∧
        (s'.index < demoSeeded.index → 2 ^ 64 ≤ demoSeeded.index + d)))) ∧
    ((CacheInv demoState ∧ demoState.index < 2 ^ 64) ∧
    ((∃ r s', randGen demoSha demoState = .ok (r, s') ∧
        s'.index = (demoState.index + 1) % 2 ^ 64 ∧
        (demoState.index + 1 < 2 ^ 64 → s'.index = demoState.index + 1)) ∧
    (∀ upper lower, ∃ r s', uRandGen demoSha demoFp demoState upper lower = .ok (r, s') ∧
      s'.index = (demoState.index + 1) % 2 ^ 64 ∧
      (demoState.index + 1 < 2 ^ 64 → s'.index = demoState.index + 1)) ∧
    (∀ center sigma, demoState.gaussianAvail = true →
      ∃ r s', gRandGen demoSha demoFp demoState center sigma = .ok (r, s') ∧
        s'.index = (demoState.index + 1) % 2 ^ 64 ∧
        (demoState.index + 1 < 2 ^ 64 → s'.index = demoState.index + 1)) ∧
    (∀ center sigma, demoState.gaussianAvail = false →
      ∃ (k : Nat) (v1 v2 rsq : Nat) (sk : RngState) (r : Nat) (s' : RngState),
        1 ≤ k ∧ k ≤ 9999 ∧
        gRandGenLoop demoSha demoFp 10000 1
            { demoState with index := (demoState.index + 1) % 2 ^ 64 }
          = .ok ((k : Int) + 1, v1, v2, rsq, sk) ∧
        drawPairs demoSha demoFp k { demoState with index := (demoState.index + 1) % 2 ^ 64 }
          = .ok sk ∧
        gRandGen demoSha demoFp demoState center sigma = .ok (r, s') ∧
        s'.index = (demoState.index + 1 + 2 * k) % 2 ^ 64 ∧
        (demoState.index + 1 + 2 * k < 2 ^ 64 → s'.index = demoState.index + 1 + 2 * k)) ∧
    (∀ (t : Nat) (s' : RngState), setType demoState t = .ok s' → s'.index = demoState.index) ∧
    (∀ (op : Op) (s' : RngState), op.isGen = true ∨ op.isSetType = true →
      op.apply demoSha demoFp demoState = .ok s' →
      ∃ d, d ≤ 19999 ∧ (op.isSetType = true → d = 0) ∧ (op.isGen = true → 1 ≤ d) ∧
        s'.index = (demoState.index + d) % 2 ^ 64 ∧
        (demoState.index + d < 2 ^ 64 → s'.index = demoState.index + d) ∧
        (s'.index < demoState.index → 2 ^ 64 ≤ demoState.index + d)))) ∧
    demoSeeded.gaussianAvail = false ∧ demoSeeded.cacheAvail = 0 ∧ demoSeeded.index = 0 ∧
    (gRandGen demoSha demoFp demoSeeded dbl_0 dbl_1).toOption.map (fun x => x.2.index)
      = some 3 ∧
    demoState.gaussianAvail = true ∧ demoState.cacheAvail = 2 ∧
    (gRandGen demoSha demoFp demoState dbl_0 dbl_1).toOption.map (fun x => x.2.index)
      = some (demoState.index + 1) :=
  ⟨⟨by decide, index_accounting demoSha demoFp demoSeeded (by decide) (by decide)⟩,
    ⟨by decide, index_accounting demoSha demoFp demoState (by decide) (by decide)⟩,
    by decide⟩

/-! ## Seeds -/

theorem showLong_no_nul (n : Int) : 0 ∉ showLong n := by
  have hd : ∀ m : Nat, 0 ∉ fmtLu m := by
    intro m h0
    have := fmtLu_isDigit m 0 h0
    simp [isDigit] at this
  unfold showLong
  split
  · intro h0
    rcases List.mem_cons.1 h0 with h | h
    · cases h
    · exact hd _ h
  · exact hd _

/-- C14, as stated, fails: for the seed `"a\0b"` (bytes 97, 0, 98) and the example hash
engine, the digest of the seeded state is not the hash of 32 zero bytes followed by
`"[0] {a\0b}"`; it is the hash of 32 zero bytes followed by `"[0] {a}"`. -/
theorem seed_hash_label_with_nul :
    (resetSeed demoSha demoState [97, 0, 98]).hash
      ≠ computeHash demoSha (List.replicate 32 0 ++ str "[0] \x7b" ++ [97, 0, 98] ++ str "\x7d") ∧
    (resetSeed demoSha demoState [97, 0, 98]).hash
      = computeHash demoSha (List.replicate 32 0 ++ str "[0] \x7b" ++ [97] ++ str "\x7d") := by
  decide

/-- C14, amended (a seed is a split of the zero state). For every seed string, the state
built by `reset(rs, seed)`, and so by the constructor `RngState(seed)`, whatever the
storage held before, equals the child `splitRngState` writes for the canonical zero state
(`numBytes` 0, `hash` all zero, `type = ULONG_MAX`, `index` 0, caches empty) and the label
`seed`, into any destination: `RngState(s) == RngState(RngState(), s)`. Its hash is
`Hash(32 zero bytes ++ "[0] {<s0>}")`, `s0` being the seed up to its first NUL byte (the
whole seed when it has none). For an integer seed `n` the label is the decimal rendering
of `n`, which has no NUL byte. -/
theorem seed_is_split_of_zero (sha : List Nat → List Nat) (raw raw1 d : RngState)
    (seed : List Nat) (hd : d.cache.length = 3) :
    RngState.mkDefault raw1
      = ⟨0, [0, 0, 0, 0, 0, 0, 0, 0], ULONG_MAX, 0, [0, 0, 0], dbl_0, 0, false⟩ ∧
    resetSeed sha raw seed = splitRngState sha d (RngState.mkDefault raw1) seed ∧
    RngState.mkSeed sha raw seed = RngState.mkSplit sha (RngState.mkDefault raw1) seed ∧
    (resetSeed sha raw seed).hash = computeHash sha
      (List.replicate 32 0 ++ str "[0] \x7b" ++ seed.takeWhile (fun x => x ≠ 0) ++ str "\x7d") ∧
    (0 ∉ seed → (resetSeed sha raw seed).hash = computeHash sha
      (List.replicate 32 0 ++ str "[0] \x7b" ++ seed ++ str "\x7d")) ∧
    (∀ n : Int, resetLong sha raw n = resetSeed sha raw (showLong n) ∧
      RngState.mkSeedLong sha raw n = RngState.mkSeed sha raw (showLong n) ∧
      (0 ≤ n → showLong n = fmtLu n.toNat) ∧
      (n < 0 → showLong n = str "-" ++ fmtLu n.natAbs) ∧
      (resetLong sha raw n).hash = computeHash sha
        (List.replicate 32 0 ++ str "[0] \x7b" ++ showLong n ++ str "\x7d")) := by
  have hz : ∀ r : RngState, reset r
      = ⟨0, [0, 0, 0, 0, 0, 0, 0, 0], ULONG_MAX, 0, [0, 0, 0], 0, 0, false⟩ := fun _ => rfl
  have hself : ∀ l : List Nat, resetSeed sha raw l = splitChild sha (reset raw1) l := by
    intro l
    unfold resetSeed
    rw [splitRngStateSelf_eq sha _ l (by rw [hz]; rfl), hz raw, hz raw1]
  have hhash : ∀ l : List Nat, (resetSeed sha raw l).hash = computeHash sha
      (List.replicate 32 0 ++ str "[0] \x7b" ++ c_str l ++ str "\x7d") := by
    intro l
    rw [hself l]
    simp only [splitChild]
    rw [computeHashWithInput_eq sha _ _ (by rw [hz]; rfl), hz raw1]
    rfl
  refine ⟨hz raw1, ?_, ?_, hhash seed, ?_, ?_⟩
  · rw [hself seed, RngState.mkDefault, splitRngState_eq sha d _ seed hd]
  · unfold RngState.mkSeed RngState.mkSplit
    rw [hself seed, RngState.mkDefault, splitRngState_eq sha _ _ seed (by rfl)]
  · intro h0
    have := hhash seed
    rwa [c_str_eq_self h0] at this
  · intro n
    refine ⟨rfl, rfl, ?_, ?_, ?_⟩
    · intro hn
      unfold showLong
      rw [if_neg (by omega)]
    · intro hn
      unfold showLong
      rw [if_pos hn]
      rfl
    · have := hhash (showLong n)
      rwa [c_str_eq_self (showLong_no_nul n)] at this

theorem seed_is_split_of_zero_witness :
    memsetZero.cache.length = 3 ∧
    (RngState.mkDefault demoState
      = ⟨0, [0, 0, 0, 0, 0, 0, 0, 0], ULONG_MAX, 0, [0, 0, 0], dbl_0, 0, false⟩ ∧
    resetSeed demoSha demoFinal [97, 98]
      = splitRngState demoSha memsetZero (RngState.mkDefault demoState) [97, 98] ∧
    RngState.mkSeed demoSha demoFinal [97, 98]
      = RngState.mkSplit demoSha (RngState.mkDefault demoState) [97, 98] ∧
    (resetSeed demoSha demoFinal [97, 98]).hash = computeHash demoSha
      (List.replicate 32 0 ++ str "[0] \x7b" ++ [97, 98].takeWhile (fun x => x ≠ 0)
        ++ str "\x7d") ∧
    (0 ∉ [97, 98] → (resetSeed demoSha demoFinal [97, 98]).hash = computeHash demoSha
      (List.replicate 32 0 ++ str "[0] \x7b" ++ [97, 98] ++ str "\x7d")) ∧
    (∀ n : Int, resetLong demoSha demoFinal n = resetSeed demoSha demoFinal (showLong n) ∧
      RngState.mkSeedLong demoSha demoFinal n = RngState.mkSeed demoSha demoFinal (showLong n) ∧
      (0 ≤ n → showLong n = fmtLu n.toNat) ∧
      (n < 0 → showLong n = str "-" ++ fmtLu n.natAbs) ∧
      (resetLong demoSha demoFinal n).hash = computeHash demoSha
        (List.replicate 32 0 ++ str "[0] \x7b" ++ showLong n ++ str "\x7d"))) :=
  ⟨by decide, seed_is_split_of_zero demoSha demoFinal demoState memsetZero [97, 98]
    (by decide)⟩

/-! ## Binary64 arithmetic: exact cases -/

theorem expShift_zero {q : Nat} (h : q < 2 ^ 53) (j : Nat) : expShift q j = 0 := by
  induction j with
  | zero => rfl
  | succ j ih =>
    have h1 : 2 ^ 53 ≤ 2 ^ (53 + j) := Nat.pow_le_pow_right (by norm_num) (by omega)
    have h2 : ¬ 2 ^ (53 + j) ≤ q := by omega
    simp only [expShift, h2, if_false, ih]

theorem expShift_eq {q k : Nat} (hk : 1 ≤ k) (h1 : 2 ^ (52 + k) ≤ q) (h2 : q < 2 ^ (53 + k)) :
    ∀ j, k ≤ j → expShift q j = k := by
  intro j
  induction j with
  | zero => intro h; omega
  | succ j ih =>
    intro hj
    by_cases hc : 2 ^ (53 + j) ≤ q
    · have hjk : j < k := by
        by_contra hn
        have h3 : 2 ^ (53 + k) ≤ 2 ^ (53 + j) := Nat.pow_le_pow_right (by norm_num) (by omega)
        omega
      simp only [expShift, hc, if_true]
      omega
    · have hne : k ≠ j + 1 := by
        rintro rfl
        apply hc
        rwa [show 53 + j = 52 + (j + 1) by omega]
      simp only [expShift, hc, if_false]
      exact ih (by omega)

theorem roundDiv_mul_right (n d : Nat) {c : Nat} (hc : 0 < c) :
    roundDiv (n * c) (d * c) = roundDiv n d := by
  unfold roundDiv
  rw [Nat.mul_mod_mul_right, Nat.mul_div_mul_right _ _ hc]
  have e1 : (2 * (n % d * c) < d * c) ↔ 2 * (n % d) < d := by
    rw [← Nat.mul_assoc]
    exact Nat.mul_lt_mul_right hc
  have e2 : (d * c < 2 * (n % d * c)) ↔ d < 2 * (n % d) := by
    rw [← Nat.mul_assoc]
    exact Nat.mul_lt_mul_right hc
  simp only [e1, e2]

theorem roundDiv_exact (a : Nat) {d : Nat} (hd : 0 < d) : roundDiv (a * d) d = a := by
  unfold roundDiv
  rw [Nat.mul_mod_left, Nat.mul_div_cancel _ hd]
  simp [hd]

theorem roundDiv_ge (n d : Nat) : n / d ≤ roundDiv n d := by
  unfold roundDiv
  split_ifs <;> omega

theorem roundDiv_le (n d : Nat) : roundDiv n d ≤ n / d + 1 := by
  unfold roundDiv
  split_ifs <;> omega

theorem roundMag_mul_right (n d : Nat) {c : Nat} (hc : 0 < c) :
    roundMag (n * c) (d * c) = roundMag n d := by
  unfold roundMag
  rw [Nat.mul_div_mul_right _ _ hc]
  have e : ∀ k, d * c * 2 ^ k = d * 2 ^ k * c := fun k => by ring
  simp only [e, roundDiv_mul_right _ _ hc]

theorem dblSign_of_lt {x : Nat} (h : x < 2 ^ 63) : dblSign x = false := by
  unfold dblSign
  rw [Nat.div_eq_of_lt h]
  rfl

theorem dblAbs_of_lt {x : Nat} (h : x < 2 ^ 63) : dblAbs x = x := Nat.mod_eq_of_lt h

theorem dbl_inf_lt : dbl_inf < 2 ^ 63 := by decide

theorem dblIsNaN_of_le {x : Nat} (h : x ≤ dbl_inf) : dblIsNaN x = false := by
  unfold dblIsNaN
  rw [dblAbs_of_lt (lt_of_le_of_lt h dbl_inf_lt)]
  simpa using h

theorem dblIsInf_of_lt {x : Nat} (h : x < dbl_inf) : dblIsInf x = false := by
  unfold dblIsInf
  rw [dblAbs_of_lt (lt_trans h dbl_inf_lt)]
  simpa using Nat.ne_of_lt h

theorem dblVal_of_lt {x : Nat} (h : x < 2 ^ 63) : dblVal x = (dblMag x : Int) := by
  unfold dblVal
  rw [dblSign_of_lt h]
  rfl

/-- The magnitude of a non-negative pattern from its exponent field and fraction. -/
theorem dblMag_eq {x : Nat} (h : x < 2 ^ 63) :
    dblMag x = if x / 2 ^ 52 = 0 then x % 2 ^ 52
      else (2 ^ 52 + x % 2 ^ 52) * 2 ^ (x / 2 ^ 52 - 1) := by
  unfold dblMag
  rw [Nat.mod_eq_of_lt (show x / 2 ^ 52 < 2 ^ 11 by omega)]

/-- Rounding the magnitude of a finite non-negative double gives the double back. -/
theorem roundMag_dblMag {x : Nat} (hx : x < dbl_inf) : roundMag (dblMag x) 1 = x := by
  have hx63 : x < 2 ^ 63 := lt_trans hx dbl_inf_lt
  have hinf : dbl_inf = 2047 * 2 ^ 52 := by decide
  rw [hinf] at hx
  rw [dblMag_eq hx63]
  have hdm := Nat.div_add_mod x (2 ^ 52)
  have hm : x % 2 ^ 52 < 2 ^ 52 := Nat.mod_lt _ (by norm_num)
  by_cases h0 : x / 2 ^ 52 = 0
  · rw [if_pos h0]
    unfold roundMag
    simp only [Nat.div_one]
    rw [expShift_zero (by omega)]
    simp only [pow_zero, Nat.mul_one, Nat.zero_mul, Nat.zero_add]
    rw [show roundDiv (x % 2 ^ 52) 1 = x % 2 ^ 52 by
      simpa using roundDiv_exact (x % 2 ^ 52) (show 0 < 1 by norm_num)]
    rw [hinf, if_pos (by omega)]
    omega
  · rw [if_neg h0]
    unfold roundMag
    simp only [Nat.div_one, Nat.one_mul]
    by_cases h1 : x / 2 ^ 52 = 1
    · rw [h1]
      simp only [Nat.sub_self, pow_zero, Nat.mul_one]
      rw [expShift_zero (by omega)]
      simp only [pow_zero, Nat.zero_mul, Nat.zero_add]
      rw [show roundDiv (2 ^ 52 + x % 2 ^ 52) 1 = 2 ^ 52 + x % 2 ^ 52 by
        simpa using roundDiv_exact (2 ^ 52 + x % 2 ^ 52) (show 0 < 1 by norm_num)]
      rw [hinf, if_pos (by omega)]
      omega
    · have hp : 0 < 2 ^ (x / 2 ^ 52 - 1) := Nat.pow_pos (by norm_num)
      have hk : expShift ((2 ^ 52 + x % 2 ^ 52) * 2 ^ (x / 2 ^ 52 - 1)) 2046
          = x / 2 ^ 52 - 1 := by
        apply expShift_eq (by omega) _ _ _ (by omega)
        · rw [pow_add]
          exact Nat.mul_le_mul_right _ (by omega)
        · rw [pow_add]
          exact Nat.mul_lt_mul_of_pos_right (by omega) hp
      rw [hk, roundDiv_exact _ hp, hinf, if_pos (by omega)]
      omega

theorem dblMag_lt {x y : Nat} (hxy : x < y) (hy : y < 2 ^ 63) : dblMag x < dblMag y := by
  rw [dblMag_eq (lt_trans hxy hy), dblMag_eq hy]
  have hx1 := Nat.div_add_mod x (2 ^ 52)
  have hy1 := Nat.div_add_mod y (2 ^ 52)
  have hmx : x % 2 ^ 52 < 2 ^ 52 := Nat.mod_lt _ (by norm_num)
  have hmy : y % 2 ^ 52 < 2 ^ 52 := Nat.mod_lt _ (by norm_num)
  have hle : x / 2 ^ 52 ≤ y / 2 ^ 52 := Nat.div_le_div_right (le_of_lt hxy)
  by_cases hy0 : y / 2 ^ 52 = 0
  · rw [if_pos hy0, if_pos (by omega)]
    omega
  · rw [if_neg hy0]
    have hpy : 0 < 2 ^ (y / 2 ^ 52 - 1) := Nat.pow_pos (by norm_num)
    have hlow : 2 ^ 52 ≤ 2 ^ 52 * 2 ^ (y / 2 ^ 52 - 1) := Nat.le_mul_of_pos_right _ hpy
    have hyl : 2 ^ 52 * 2 ^ (y / 2 ^ 52 - 1)
        ≤ (2 ^ 52 + y % 2 ^ 52) * 2 ^ (y / 2 ^ 52 - 1) :=
      Nat.mul_le_mul_right _ (by omega)
    by_cases hx0 : x / 2 ^ 52 = 0
    · rw [if_pos hx0]
      omega
    · rw [if_neg hx0]
      by_cases he : x / 2 ^ 52 = y / 2 ^ 52
      · rw [he]
        exact Nat.mul_lt_mul_of_pos_right (by omega) hpy
      · have hpx : 0 < 2 ^ (x / 2 ^ 52 - 1) := Nat.pow_pos (by norm_num)
        have h1 : (2 ^ 52 + x % 2 ^ 52) * 2 ^ (x / 2 ^ 52 - 1)
            < 2 ^ 53 * 2 ^ (x / 2 ^ 52 - 1) :=
          Nat.mul_lt_mul_of_pos_right (by omega) hpx
        have h2 : 2 ^ 53 * 2 ^ (x / 2 ^ 52 - 1) = 2 ^ 52 * 2 ^ (x / 2 ^ 52) := by
          rw [← pow_add, ← pow_add]
          congr 1
          omega
        have h3 : 2 ^ 52 * 2 ^ (x / 2 ^ 52) ≤ 2 ^ 52 * 2 ^ (y / 2 ^ 52 - 1) :=
          Nat.mul_le_mul_left _ (Nat.pow_le_pow_right (by norm_num) (by omega))
        omega

set_option exponentiation.threshold 5000 in
/-- The conversion of a word `1 <= u < 2^64`: a normal double from `1.0` to `2^64`, and
`2^64` exactly for the words from `2^64 - 1024` on. -/
theorem dblOfUInt64_range {u : Nat} (h1 : 1 ≤ u) (h2 : u < 2 ^ 64) :
    1023 * 2 ^ 52 ≤ dblOfUInt64 u ∧ dblOfUInt64 u ≤ 1087 * 2 ^ 52 ∧
      (dblOfUInt64 u = 1087 * 2 ^ 52 ↔ 2 ^ 64 - 1024 ≤ u) := by
  have hu0 : u ≠ 0 := by omega
  have hj1 : 2 ^ u.log2 ≤ u := Nat.log2_self_le hu0
  have hj2 : u < 2 ^ (u.log2 + 1) := Nat.lt_log2_self
  have hj3 : u.log2 < 64 := (Nat.log2_lt hu0).2 h2
  generalize u.log2 = j at hj1 hj2 hj3
  have hpj : 0 < 2 ^ j := Nat.pow_pos (by norm_num)
  have hk : expShift (u * 2 ^ 1074) 2046 = j + 1022 := by
    apply expShift_eq (by omega) _ _ _ (by omega)
    · rw [show 52 + (j + 1022) = j + 1074 by omega, pow_add]
      exact Nat.mul_le_mul_right _ hj1
    · rw [show 53 + (j + 1022) = (j + 1) + 1074 by omega, pow_add]
      exact Nat.mul_lt_mul_of_pos_right hj2 (Nat.two_pow_pos 1074)
  have hr : roundDiv (u * 2 ^ 1074) (1 * 2 ^ (j + 1022)) = roundDiv (u * 2 ^ 52) (2 ^ j) := by
    rw [show u * 2 ^ 1074 = u * 2 ^ 52 * 2 ^ 1022 by rw [Nat.mul_assoc, ← pow_add],
      show 1 * 2 ^ (j + 1022) = 2 ^ j * 2 ^ 1022 by rw [Nat.one_mul, pow_add]]
    exact roundDiv_mul_right _ _ (Nat.pow_pos (by norm_num))
  have hq1 : 2 ^ 52 ≤ u * 2 ^ 52 / 2 ^ j := by
    rw [Nat.le_div_iff_mul_le hpj, Nat.mul_comm u]
    exact Nat.mul_le_mul_left _ hj1
  have hq2 : u * 2 ^ 52 / 2 ^ j < 2 ^ 53 := by
    rw [Nat.div_lt_iff_lt_mul hpj]
    have : u * 2 ^ 52 < 2 ^ (j + 1) * 2 ^ 52 :=
      Nat.mul_lt_mul_of_pos_right hj2 (by norm_num)
    rw [pow_succ] at this
    omega
  have hr1 := roundDiv_ge (u * 2 ^ 52) (2 ^ j)
  have hr2 := roundDiv_le (u * 2 ^ 52) (2 ^ j)
  have hinf : dbl_inf = 2047 * 2 ^ 52 := by decide
  have hc : dblOfUInt64 u = (j + 1022) * 2 ^ 52 + roundDiv (u * 2 ^ 52) (2 ^ j) := by
    unfold dblOfUInt64 roundMag
    simp only [Nat.div_one]
    rw [hk, hr, hinf, if_pos (by omega)]
  rw [hc]
  refine ⟨by omega, by omega, ?_, ?_⟩
  · intro h
    have hj : j = 63 := by omega
    subst hj
    unfold roundDiv at h hr1 hr2
    split_ifs at h <;> omega
  · intro h
    have hj : j = 63 := by
      by_contra hne
      have : 2 ^ (j + 1) ≤ 2 ^ 63 := Nat.pow_le_pow_right (by norm_num) (by omega)
      omega
    subst hj
    unfold roundDiv
    split_ifs <;> omega

set_option exponentiation.threshold 5000 in
theorem dblMag_dbl_1 : dblMag dbl_1 = 2 ^ 1074 := by decide

set_option exponentiation.threshold 5000 in
theorem dblMag_dbl_2m64 : dblMag dbl_2m64 = 2 ^ 1010 := by decide

set_option exponentiation.threshold 5000 in
set_option maxRecDepth 100000 in
theorem uFac_ieee (sqrt log : Nat → Nat) : uFac (ieee sqrt log) = dbl_2m64 := by
  have h : dblDiv (dblDiv dbl_1 (dblMul (dblMul (dblMul dbl_256 dbl_256) dbl_256) dbl_256))
      (dblMul (dblMul (dblMul dbl_256 dbl_256) dbl_256) dbl_256) = dbl_2m64 := by decide
  simp only [uFac, ieee]
  exact h

set_option exponentiation.threshold 5000 in
set_option maxRecDepth 100000 in
theorem ieee_one_minus_zero : dblSub dbl_1 dbl_0 = dbl_1 := by decide

set_option exponentiation.threshold 5000 in
/-- Multiplying a finite non-negative double by `1.0` is exact. -/
theorem dblMul_one {x : Nat} (hx : x < dbl_inf) : dblMul x dbl_1 = x := by
  have hx63 : x < 2 ^ 63 := lt_trans hx dbl_inf_lt
  have h1 : dbl_1 < dbl_inf := by decide
  unfold dblMul
  rw [dblIsNaN_of_le (le_of_lt hx), dblIsNaN_of_le (le_of_lt h1), dblIsInf_of_lt hx,
    dblIsInf_of_lt h1, dblSign_of_lt hx63, dblSign_of_lt (lt_trans h1 dbl_inf_lt), dblMag_dbl_1]
  simp only [Bool.or_self, Bool.false_eq_true, if_false, bne_self_eq_false, dblPack]
  have h := roundMag_mul_right (dblMag x) 1 (Nat.two_pow_pos 1074)
  rw [Nat.one_mul] at h
  rw [h, roundMag_dblMag hx]

set_option exponentiation.threshold 5000 in
/-- Multiplying a normal double of exponent field at least 65 by `2^-64` is exact: it
lowers the exponent field by 64. -/
theorem dblMul_2m64 {x : Nat} (h1 : 65 * 2 ^ 52 ≤ x) (hx : x < dbl_inf) :
    dblMul x dbl_2m64 = x - 64 * 2 ^ 52 := by
  have hx63 : x < 2 ^ 63 := lt_trans hx dbl_inf_lt
  have hf : dbl_2m64 < dbl_inf := by decide
  have hinf : dbl_inf = 2047 * 2 ^ 52 := by decide
  have hy : x - 64 * 2 ^ 52 < dbl_inf := by omega
  have hmag : dblMag x * 2 ^ 1010 = dblMag (x - 64 * 2 ^ 52) * 2 ^ 1074 := by
    rw [dblMag_eq hx63, dblMag_eq (lt_trans hy dbl_inf_lt), if_neg (by omega), if_neg (by omega),
      show (x - 64 * 2 ^ 52) % 2 ^ 52 = x % 2 ^ 52 by omega,
      show (x - 64 * 2 ^ 52) / 2 ^ 52 = x / 2 ^ 52 - 64 by omega,
      Nat.mul_assoc, Nat.mul_assoc, ← pow_add, ← pow_add]
    congr 2
    omega
  unfold dblMul
  rw [dblIsNaN_of_le (le_of_lt hx), dblIsNaN_of_le (le_of_lt hf), dblIsInf_of_lt hx,
    dblIsInf_of_lt hf, dblSign_of_lt hx63, dblSign_of_lt (lt_trans hf dbl_inf_lt),
    dblMag_dbl_2m64, hmag]
  simp only [Bool.or_self, Bool.false_eq_true, if_false, bne_self_eq_false, dblPack]
  have h := roundMag_mul_right (dblMag (x - 64 * 2 ^ 52)) 1 (Nat.two_pow_pos 1074)
  rw [Nat.one_mul] at h
  rw [h, roundMag_dblMag hy]

/-- Adding `0.0` to a finite positive double is exact. -/
theorem dblAdd_zero {x : Nat} (h0 : 0 < x) (hx : x < dbl_inf) : dblAdd x dbl_0 = x := by
  have hx63 : x < 2 ^ 63 := lt_trans hx dbl_inf_lt
  have hz : dbl_0 < dbl_inf := by decide
  have hm : dblMag 0 < dblMag x := dblMag_lt h0 hx63
  have hv0 : dblVal dbl_0 = 0 := by decide
  unfold dblAdd
  rw [dblIsNaN_of_le (le_of_lt hx), dblIsNaN_of_le (le_of_lt hz), dblIsInf_of_lt hx,
    dblIsInf_of_lt hz, dblVal_of_lt hx63, hv0]
  simp only [Bool.or_self, Bool.false_eq_true, if_false, add_zero, Int.natAbs_ofNat]
  rw [if_neg (by omega), show decide ((dblMag x : Int) < 0) = false by simp]
  simp only [dblPack, Bool.false_eq_true, if_false]
  exact roundMag_dblMag hx

/-- Comparison of finite non-negative doubles is comparison of their patterns. -/
theorem dblLt_iff {x y : Nat} (hx : x < dbl_inf) (hy : y < dbl_inf) :
    dblLt x y = true ↔ x < y := by
  have hx63 : x < 2 ^ 63 := lt_trans hx dbl_inf_lt
  have hy63 : y < 2 ^ 63 := lt_trans hy dbl_inf_lt
  unfold dblLt
  rw [dblIsNaN_of_le (le_of_lt hx), dblIsNaN_of_le (le_of_lt hy), dblVal_of_lt hx63,
    dblVal_of_lt hy63]
  simp only [Bool.not_false, Bool.and_self, Bool.true_and, decide_eq_true_eq, Nat.cast_lt]
  constructor
  · intro h
    by_contra hn
    rcases Nat.eq_or_lt_of_le (Nat.le_of_not_lt hn) with e | l
    · rw [e] at h; exact lt_irrefl _ h
    · exact lt_asymm h (dblMag_lt l hx63)
  · intro h
    exact dblMag_lt h hy63

theorem dblGe_zero {x : Nat} (hx : x < dbl_inf) : dblGe x dbl_0 = true := by
  have hx63 : x < 2 ^ 63 := lt_trans hx dbl_inf_lt
  have hz : dbl_0 < dbl_inf := by decide
  have hv0 : dblVal dbl_0 = 0 := by decide
  unfold dblGe
  rw [dblIsNaN_of_le (le_of_lt hx), dblIsNaN_of_le (le_of_lt hz), dblVal_of_lt hx63, hv0]
  simp

set_option exponentiation.threshold 5000 in
set_option maxRecDepth 100000 in
theorem uScale_zero (sqrt log : Nat → Nat) : uScale (ieee sqrt log) 0 dbl_1 dbl_0 = dbl_0 := by
  have h : dblAdd (dblMul (dblMul (dblOfUInt64 0) dbl_2m64) (dblSub dbl_1 dbl_0)) dbl_0
      = dbl_0 := by decide
  simp only [uScale, uFac_ieee]
  simp only [ieee]
  exact h

/-- The value of `uRandGen` with the default bounds, for a word `1 <= u < 2^64`: the
converted word with its exponent field lowered by 64. -/
theorem uScale_default (sqrt log : Nat → Nat) {u : Nat} (h1 : 1 ≤ u) (h2 : u < 2 ^ 64) :
    uScale (ieee sqrt log) u dbl_1 dbl_0 = dblOfUInt64 u - 64 * 2 ^ 52 := by
  obtain ⟨c1, c2, -⟩ := dblOfUInt64_range h1 h2
  have hinf : dbl_inf = 2047 * 2 ^ 52 := by decide
  have e : uScale (ieee sqrt log) u dbl_1 dbl_0
      = dblAdd (dblMul (dblMul (dblOfUInt64 u) (uFac (ieee sqrt log))) (dblSub dbl_1 dbl_0))
        dbl_0 := by
    simp only [uScale, ieee]
  rw [e, uFac_ieee, ieee_one_minus_zero, dblMul_2m64 (by omega) (by omega), dblMul_one (by omega),
    dblAdd_zero (by omega) (by omega)]

/-! ## C13: the uniform draw -/

theorem randGen_word_lt (sha : List Nat → List Nat) (s : RngState) (hw : s.WF)
    (hc : CacheInv s) :
    ∃ u s', randGen sha s = .ok (u, s') ∧ u < 2 ^ 64 := by
  obtain ⟨-, h8, -, -, -, h3, hcache, -⟩ := hw
  obtain ⟨h1, h2⟩ := hc
  by_cases hp : 0 < s.cacheAvail
  · refine ⟨_, _, randGen_pop sha s hp h2, ?_⟩
    rw [List.getD_eq_getElem?_getD]
    rcases hg : s.cache[(s.cacheAvail - 1).toNat]? with _ | x
    · simp
    · exact hcache x (List.getElem?_mem hg)
  · refine ⟨_, _, randGen_refill sha s h8 h3 (by omega), ?_⟩
    have h := patchTwoUint32_lt (computeHash_getD_lt sha
      (digestBytes s ++ wordText s.type ((s.index + 1) % 2 ^ 64)) (2 * 3))
      (computeHash_getD_lt sha
        (digestBytes s ++ wordText s.type ((s.index + 1) % 2 ^ 64)) (2 * 3 + 1))
    rwa [patchTwoUint32_eq_pack (computeHash_getD_lt sha _ _)] at h

theorem uRandGen_eq (sha : List Nat → List Nat) (F : Fp) (s s' : RngState) (u upper lower : Nat)
    (e : randGen sha s = .ok (u, s')) :
    uRandGen sha F s upper lower = .ok (uScale F u upper lower, s') := by
  unfold uRandGen
  rw [e]
  rfl

set_option exponentiation.threshold 5000 in
set_option maxRecDepth 100000 in
/-- C13, as stated, fails: the state `demoState` holds the word `2^64 - 1` in the cache
slot `randGen` pops next; its conversion to `double` rounds to `2^64`, so
`uRandGen(rs, 1.0, 0.0)` returns `2^64 * 2^-64 * (1.0 - 0.0) + 0.0 = 1.0`, which is the
upper bound and not below it. -/
theorem uRandGen_reaches_upper :
    demoState.WF ∧ CacheInv demoState ∧ dblLt dbl_0 dbl_1 = true ∧
    (randGen demoSha demoState).toOption.map Prod.fst = some (2 ^ 64 - 1) ∧
    dblOfUInt64 (2 ^ 64 - 1) = dblOfUInt64 1 + 64 * 2 ^ 52 ∧
    (uRandGen demoSha ieeeDemo demoState dbl_1 dbl_0).toOption.map Prod.fst = some dbl_1 ∧
    dblLt dbl_1 dbl_1 = false := by
  decide

/-- C13, amended. For every well-formed state with `cacheAvail` in `0..3`, `randGen`
returns a word `u < 2^64`, and `uRandGen(rs, upper, lower)` returns
`u * fac * (upper - lower) + lower`, evaluated in `double` arithmetic from left to right
(whatever the arithmetic), with the state `randGen` leaves; in binary64 arithmetic `fac` is
`2^-64` exactly. With the bounds `upper = 1.0`, `lower = 0.0` the conversion of `u` is the
only step that rounds: the result lies in `[0, 1)` for `u < 2^64 - 1024` and is `1.0`, the
upper bound itself, for the words `u >= 2^64 - 1024`, whose conversion rounds to `2^64`. -/
theorem uRandGen_spec (sha : List Nat → List Nat) (sqrt log : Nat → Nat) (s : RngState)
    (hw : s.WF) (hc : CacheInv s) :
    ∃ u s', randGen sha s = .ok (u, s') ∧ u < 2 ^ 64 ∧
      (∀ (F : Fp) (upper lower : Nat),
        uRandGen sha F s upper lower
          = .ok (F.add (F.mul (F.mul (F.ofUInt64 u) (uFac F)) (F.sub upper lower)) lower, s')) ∧
      uFac (ieee sqrt log) = dbl_2m64 ∧
      (u < 2 ^ 64 - 1024 →
        dblGe (uScale (ieee sqrt log) u dbl_1 dbl_0) dbl_0 = true ∧
        dblLt (uScale (ieee sqrt log) u dbl_1 dbl_0) dbl_1 = true) ∧
      (2 ^ 64 - 1024 ≤ u → uScale (ieee sqrt log) u dbl_1 dbl_0 = dbl_1) := by
  obtain ⟨u, s', e, hu⟩ := randGen_word_lt sha s hw hc
  refine ⟨u, s', e, hu, fun F upper lower => uRandGen_eq sha F s s' u upper lower e,
    uFac_ieee sqrt log, ?_, ?_⟩
  · intro hlt
    have hinf : dbl_inf = 2047 * 2 ^ 52 := by decide
    have h1 : dbl_1 = 1023 * 2 ^ 52 := by decide
    rcases Nat.eq_zero_or_pos u with rfl | hpos
    · rw [uScale_zero]
      exact ⟨dblGe_zero (by decide), (dblLt_iff (by decide) (by decide)).2 (by decide)⟩
    · obtain ⟨c1, c2, c3⟩ := dblOfUInt64_range hpos hu
      rw [uScale_default sqrt log hpos hu]
      have hne : dblOfUInt64 u ≠ 1087 * 2 ^ 52 := fun h => by
        have := c3.1 h
        omega
      refine ⟨dblGe_zero (by omega), (dblLt_iff (by omega) (by omega)).2 (by omega)⟩
  · intro hge
    have hpos : 1 ≤ u := by omega
    obtain ⟨c1, c2, c3⟩ := dblOfUInt64_range hpos hu
    rw [uScale_default sqrt log hpos hu, c3.2 hge]
    decide

set_option exponentiation.threshold 5000 in
set_option maxRecDepth 100000 in
theorem uRandGen_spec_witness :
    (demoState.WF ∧ CacheInv demoState) ∧
    ∃ u s', randGen demoSha demoState = .ok (u, s') ∧ u < 2 ^ 64 ∧
      (∀ (F : Fp) (upper lower : Nat),
        uRandGen demoSha F demoState upper lower
          = .ok (F.add (F.mul (F.mul (F.ofUInt64 u) (uFac F)) (F.sub upper lower)) lower, s')) ∧
      uFac (ieee (fun x => x) (fun x => x)) = dbl_2m64 ∧
      (u < 2 ^ 64 - 1024 →
        dblGe (uScale (ieee (fun x => x) (fun x => x)) u dbl_1 dbl_0) dbl_0 = true ∧
        dblLt (uScale (ieee (fun x => x) (fun x => x)) u dbl_1 dbl_0) dbl_1 = true) ∧
      (2 ^ 64 - 1024 ≤ u → uScale (ieee (fun x => x) (fun x => x)) u dbl_1 dbl_0 = dbl_1) :=
  ⟨by decide, uRandGen_spec demoSha (fun x => x) (fun x => x) demoState (by decide) (by decide)⟩

/-! ## C11: the bound of the rejection loop -/

theorem lateSha_refillWords (n : Nat) :
    refillWords lateSha [40, 41, 42, 43, 44, 45, 46, 47] ULONG_MAX n
      = if n < 19998 then List.replicate 8 0xFFFFFFFF
        else [0xC0000000, 0, 0xC0000000, 0, 0xC0000000, 0, 0xC0000000, 0] := by
  have hd : ((fmtLu n ++ [93]).takeWhile isDigit) = fmtLu n := by
    rw [List.takeWhile_append_of_pos (fmtLu_isDigit n)]
    simp [isDigit]
  unfold refillWords
  rw [if_pos rfl, computeHashWithInput_eq lateSha
    ⟨0, [40, 41, 42, 43, 44, 45, 46, 47], ULONG_MAX, n, [], 0, 0, false⟩ _ rfl, ssprintf_lu]
  have hs : lateSha (digestBytes ⟨0, [40, 41, 42, 43, 44, 45, 46, 47], ULONG_MAX, n, [], 0, 0,
      false⟩ ++ (str "[" ++ fmtLu n ++ str "]"))
      = if n < 19998 then List.replicate 8 0xFFFFFFFF
        else [0xC0000000, 0, 0xC0000000, 0, 0xC0000000, 0, 0xC0000000, 0] := by
    simp [lateSha, digestBytes, be4, str, List.range, List.range.loop, hd, decVal_fmtLu]
  unfold computeHash
  rw [hs]
  split_ifs <;> rfl

theorem late_refill_reject (i : Nat) (hi : i + 1 < 19998) :
    randGen lateSha ⟨64, [40, 41, 42, 43, 44, 45, 46, 47], ULONG_MAX, i, [0, 0, 0], 0, 0, false⟩
      = .ok (2 ^ 64 - 1, ⟨64, [40, 41, 42, 43, 44, 45, 46, 47], ULONG_MAX, i + 1,
          [2 ^ 64 - 1, 2 ^ 64 - 1, 2 ^ 64 - 1], 0, 3, false⟩) := by
  have h1 : (i + 1) % 2 ^ 64 = i + 1 := Nat.mod_eq_of_lt (by omega)
  rw [randGen_refill_raw, lateSha_refillWords, h1, if_pos hi]
  rfl

theorem late_refill_accept :
    randGen lateSha ⟨64, [40, 41, 42, 43, 44, 45, 46, 47], ULONG_MAX, 19997, [0, 0, 0], 0, 0,
        false⟩
      = .ok (3 * 2 ^ 62, ⟨64, [40, 41, 42, 43, 44, 45, 46, 47], ULONG_MAX, 19998,
          [3 * 2 ^ 62, 3 * 2 ^ 62, 3 * 2 ^ 62], 0, 3, false⟩) := by
  rw [randGen_refill_raw, lateSha_refillWords]
  rfl

set_option exponentiation.threshold 5000 in
set_option maxRecDepth 100000 in
theorem late_draw_values :
    uScale ieeeDemo (2 ^ 64 - 1) dbl_1 dbl_m1 = dbl_1 ∧
    uScale ieeeDemo 0 dbl_1 dbl_m1 = dbl_m1 ∧
    uScale ieeeDemo (3 * 2 ^ 62) dbl_1 dbl_m1 = dbl_half ∧
    rejected ieeeDemo (ieeeDemo.add (ieeeDemo.mul dbl_1 dbl_1) (ieeeDemo.mul dbl_1 dbl_1))
      = true ∧
    ieeeDemo.add (ieeeDemo.mul dbl_half dbl_half) (ieeeDemo.mul dbl_half dbl_half)
      = dbl_half ∧
    rejected ieeeDemo dbl_half = false := by
  decide

theorem gRandGenLoop_reject (sha : List Nat → List Nat) (F : Fp) (fuel : Nat) (n : Int)
    (rs rs1 rs2 : RngState) (v1 v2 : Nat)
    (e1 : uRandGen sha F rs dbl_1 dbl_m1 = .ok (v1, rs1))
    (e2 : uRandGen sha F rs1 dbl_1 dbl_m1 = .ok (v2, rs2))
    (hn : n + 1 < 10000)
    (hr : rejected F (F.add (F.mul v1 v1) (F.mul v2 v2)) = true) :
    gRandGenLoop sha F (fuel + 1) n rs = gRandGenLoop sha F fuel (n + 1) rs2 := by
  conv_lhs => unfold gRandGenLoop
  simp only [e1, e2, bind, Except.bind]
  rw [if_pos]
  refine ⟨hn, ?_⟩
  simpa [rejected] using hr

theorem gRandGenLoop_last (sha : List Nat → List Nat) (F : Fp) (fuel : Nat) (n : Int)
    (rs rs1 rs2 : RngState) (v1 v2 : Nat)
    (e1 : uRandGen sha F rs dbl_1 dbl_m1 = .ok (v1, rs1))
    (e2 : uRandGen sha F rs1 dbl_1 dbl_m1 = .ok (v2, rs2))
    (hn : ¬ n + 1 < 10000) :
    gRandGenLoop sha F (fuel + 1) n rs
      = .ok (n + 1, v1, v2, F.add (F.mul v1 v1) (F.mul v2 v2), rs2) := by
  conv_lhs => unfold gRandGenLoop
  simp only [e1, e2, bind, Except.bind]
  rw [if_neg]
  · rfl
  · exact fun h => hn h.1

theorem gRandGen_sentinel (sha : List Nat → List Nat) (F : Fp) (rs rs' : RngState)
    (center sigma : Nat) (fuel : Nat) (n : Int) (v1 v2 rsq : Nat)
    (hg : rs.gaussianAvail = false) (hf : fuel = 10000)
    (h : gRandGenLoop sha F fuel 1 { rs with index := (rs.index + 1) % 2 ^ 64 }
      = .ok (n, v1, v2, rsq, rs'))
    (hn : n > 9999) :
    gRandGen sha F rs center sigma = .ok (dbl_1e10, rs') := by
  subst hf
  obtain ⟨nb, hs, ty, ix, ca, g, cv, ga⟩ := rs
  simp only at hg
  subst hg
  unfold gRandGen
  simp only [Bool.false_eq_true, if_false, bind, Except.bind]
  rw [h]
  simp [hn, pure, Except.pure]

theorem late_two_attempts (fuel j : Nat) (hj : j < 4999) :
    gRandGenLoop lateSha ieeeDemo (fuel + 2) (2 * (j : Int) + 1)
        ⟨64, [40, 41, 42, 43, 44, 45, 46, 47], ULONG_MAX, 4 * j + 1, [0, 0, 0], 0, 0, false⟩
      = gRandGenLoop lateSha ieeeDemo fuel (2 * ((j + 1 : Nat) : Int) + 1)
        ⟨64, [40, 41, 42, 43, 44, 45, 46, 47], ULONG_MAX, 4 * (j + 1) + 1, [0, 0, 0], 0, 0,
          false⟩ := by
  obtain ⟨d1, -, -, r1, -, -⟩ := late_draw_values
  have m : ∀ i : Nat, i < 19998 → (i + 1) % 2 ^ 64 = i + 1 := fun i hi =>
    Nat.mod_eq_of_lt (by omega)
  have e1 := uRandGen_eq lateSha ieeeDemo _ _ _ dbl_1 dbl_m1
    (late_refill_reject (4 * j + 1) (by omega))
  have e2 := uRandGen_eq lateSha ieeeDemo _ _ _ dbl_1 dbl_m1
    (randGen_pop3 lateSha 64 [40, 41, 42, 43, 44, 45, 46, 47] ULONG_MAX (4 * j + 1 + 1)
      (2 ^ 64 - 1) (2 ^ 64 - 1) (2 ^ 64 - 1) 0 false)
  have e3 := uRandGen_eq lateSha ieeeDemo _ _ _ dbl_1 dbl_m1
    (randGen_pop2 lateSha 64 [40, 41, 42, 43, 44, 45, 46, 47] ULONG_MAX (4 * j + 1 + 1 + 1)
      (2 ^ 64 - 1) (2 ^ 64 - 1) 0 0 false)
  have e4 := uRandGen_eq lateSha ieeeDemo _ _ _ dbl_1 dbl_m1
    (randGen_pop1 lateSha 64 [40, 41, 42, 43, 44, 45, 46, 47] ULONG_MAX
      (4 * j + 1 + 1 + 1 + 1) (2 ^ 64 - 1) 0 0 0 false)
  rw [m _ (by omega)] at e2 e3 e4
  rw [d1] at e1 e2 e3 e4
  rw [gRandGenLoop_reject lateSha ieeeDemo (fuel + 1) _ _ _ _ _ _ e1 e2 (by omega) r1,
    gRandGenLoop_reject lateSha ieeeDemo fuel _ _ _ _ _ _ e3 e4 (by omega) r1]
  have hn : (2 * (j : Int) + 1 + 1 + 1) = 2 * ((j + 1 : Nat) : Int) + 1 := by push_cast; ring
  have hidx : 4 * j + 1 + 1 + 1 + 1 + 1 = 4 * (j + 1) + 1 := by ring
  rw [hn, hidx]

theorem late_loop (m x : Nat) (hm : m ≤ 4999) :
    gRandGenLoop lateSha ieeeDemo (2 * m + x + 1) (2 * ((4999 - m : Nat) : Int) + 1)
        ⟨64, [40, 41, 42, 43, 44, 45, 46, 47], ULONG_MAX, 4 * (4999 - m) + 1, [0, 0, 0], 0, 0,
          false⟩
      = .ok (10000, dbl_half, dbl_half, dbl_half, lateDone) := by
  induction m with
  | zero =>
    obtain ⟨-, -, d3, -, r2, -⟩ := late_draw_values
    have e1 := uRandGen_eq lateSha ieeeDemo _ _ _ dbl_1 dbl_m1 late_refill_accept
    have e2 := uRandGen_eq lateSha ieeeDemo _ _ _ dbl_1 dbl_m1
      (randGen_pop3 lateSha 64 [40, 41, 42, 43, 44, 45, 46, 47] ULONG_MAX 19998
        (3 * 2 ^ 62) (3 * 2 ^ 62) (3 * 2 ^ 62) 0 false)
    rw [d3] at e1 e2
    have h := gRandGenLoop_last lateSha ieeeDemo (2 * 0 + x) 9999 _ _ _ _ _ e1 e2 (by norm_num)
    rw [r2] at h
    exact h
  | succ m ih =>
    have h := late_two_attempts (2 * m + x + 1) (4999 - (m + 1)) (by omega)
    have e : 4999 - (m + 1) + 1 = 4999 - m := by omega
    rw [e] at h
    rw [show 2 * (m + 1) + x + 1 = 2 * m + x + 1 + 2 by ring, h]
    exact ih (by omega)

/-- C11, the code at the failing input. With the hash engine `lateSha` and binary64
arithmetic, `gRandGen` on the fresh state `lateState` (no cached Gaussian) draws
`v1 = v2 = 1.0` in the attempts 1 to 9998 (`rsq = 2.0`, rejected) and `v1 = v2 = 0.5` in
attempt 9999 (`rsq = 0.5`, inside the unit circle and not zero, so accepted): the loop
leaves with `num_try = 10000` after 9999 attempts, and `gRandGen` returns the fallback
`1e10` with `gaussianAvail` still false, although not every attempt was rejected and a
10000th attempt was never made. -/
theorem gRandGen_fallback_after_accepted_attempt :
    lateState.gaussianAvail = false ∧
    gRandGenLoop lateSha ieeeDemo 10000 1 { lateState with index := 1 }
      = .ok (10000, dbl_half, dbl_half, dbl_half, lateDone) ∧
    rejected ieeeDemo dbl_half = false ∧
    gRandGen lateSha ieeeDemo lateState dbl_0 dbl_1 = .ok (dbl_1e10, lateDone) ∧
    lateDone.index = lateState.index + 1 + 2 * 9999 ∧
    lateDone.gaussianAvail = false := by
  have h := late_loop 4999 1 (le_refl _)
  refine ⟨rfl, h, late_draw_values.2.2.2.2.2, ?_, rfl, rfl⟩
  exact gRandGen_sentinel lateSha ieeeDemo lateState lateDone dbl_0 dbl_1 (2 * 4999 + 1 + 1)
    _ _ _ _ rfl rfl h (by norm_num)

end qrngstate
